import Mathlib

/-!
# Site Kit data-store utilities

A shallow embedding of `assets/js/googlesitekit/data/utils.js`, of the `core/site`
connection store (`assets/js/googlesitekit/datastore/site/connection.js`), of the key metrics
store (`assets/js/googlesitekit/datastore/user/key-metrics.js`), of `isZeroReport`
(`assets/js/modules/analytics-4/util/is-zero-report.js`) and of `User_Input::get_settings`
(`includes/Core/User_Input/User_Input.php`), followed by the properties proved about them.
The widget layout functions of `assets/js/googlesitekit/widgets/util`, of which only the
constants and the caller are at hand, are modelled from the specification.

JavaScript objects are association lists in property (insertion) order.  A list
represents an object when its keys are pairwise distinct; the functions below do
not require this, the theorems that need it assume it.  The order of a list is
the order in which `Object.keys` enumerates the properties; integer-like names,
which JavaScript moves to the front when they are added, are outside the model.
The name `__proto__` can be an own property (as `JSON.parse` creates it) and is
copied by a spread like any other; the `counts` object of `findDuplicates`, which
is filled by assignment, cannot store it.
-/

namespace SiteKit

/-! ## Objects -/

/-- A JavaScript object with values in `V`: its own enumerable properties, in order. -/
abbrev Obj (V : Type) := List (String × V)

namespace Obj

variable {V : Type}

/-- The result of `Object.keys( o )`. -/
def keys (o : Obj V) : List String := o.map Prod.fst

/-- The own property `o[ k ]`, `none` standing for a missing property. -/
def get? : Obj V → String → Option V
  | [], _ => none
  | (k', v) :: rest, k => if k' = k then some v else get? rest k

/-- The assignment `o[ k ] = v`: an existing property keeps its position, a new one goes last. -/
def set : Obj V → String → V → Obj V
  | [], k, v => [(k, v)]
  | (k', v') :: rest, k, v => if k' = k then (k', v) :: rest else (k', v') :: set rest k v

/-- Copies the properties of `item` onto `acc`, as the spread `...item` does inside a literal
that so far holds `acc`. -/
def assign (acc item : Obj V) : Obj V :=
  item.foldl (fun a p => set a p.1 p.2) acc

end Obj

/-! ## `invariant` -/

/-- The replacement `format.replace( /%s/g, ... )` that the `invariant` package applies to its
message, run over the characters of the message.  The callers pass no argument after the
message, so every `%s` becomes `undefined`.  `pending` tells that a `%` has been read and not
yet written. -/
def formatLoop : Bool → List Char → List Char
  | pending, [] => if pending then ['%'] else []
  | false, c :: rest => if c = '%' then formatLoop true rest else c :: formatLoop false rest
  | true, c :: rest =>
    if c = 's' then
      "undefined".toList ++ formatLoop false rest
    else if c = '%' then
      '%' :: formatLoop true rest
    else
      '%' :: c :: formatLoop false rest

/-- The message of the error that `invariant` throws for the message `format`. -/
def formatMessage (format : String) : String :=
  String.mk (formatLoop false format.toList)

/-- The `invariant( condition, format )` of the `invariant` package: throws an error when
`condition` does not hold.  The package treats the message as a format, so the error carries
the message with every `%s` replaced. -/
def invariant (condition : Bool) (format : String) : Except String Unit :=
  if condition then .ok () else .error (formatMessage format)

/-! ## `findDuplicates` -/

/-- The body of the `for` loop of `findDuplicates`, run over the remaining items with the
current `counts` object and `duplicates` array.  `counts` is created by the literal `{}`, so
`counts[ '__proto__' ]` is the accessor of `Object.prototype`: the read gives the prototype
object, for which `>= 1` and `> 1` are false, and the assignment of a number is dropped.  The
other names of `Object.prototype` read as functions, for which `>= 1` is false too, and are
then stored like any name. -/
def findDuplicatesLoop : List String → Obj Nat → List String → List String
  | [], _, duplicates => duplicates
  | item :: rest, counts, duplicates =>
    if item = "__proto__" then
      findDuplicatesLoop rest counts duplicates
    else
      let count : Nat :=
        match Obj.get? counts item with
        | some c => if c ≥ 1 then c + 1 else 1
        | none => 1
      let counts := Obj.set counts item count
      let duplicates := if count > 1 then duplicates ++ [item] else duplicates
      findDuplicatesLoop rest counts duplicates

/-- Embedding of `findDuplicates( array )`. -/
def findDuplicates (array : List String) : List String :=
  findDuplicatesLoop array [] []

/-! ## `collect` -/

/-- The message of the invariant in `collect`, for the given `duplicates`. -/
def collectMessage (duplicates : List String) : String :=
  "collect() cannot accept collections with duplicate keys. Your call to collect() contains the following duplicated functions: "
    ++ String.intercalate ", " duplicates ++ ". Check your data stores for duplicates."

/-- The `collectedObject` of `collect`: the items spread one after the other. -/
def collectedObject {V : Type} (items : List (Obj V)) : Obj V :=
  items.foldl (fun acc item => Obj.assign (Obj.assign [] acc) item) []

/-- The `functionNames` of `collect`: the keys of all the items, in order. -/
def functionNames {V : Type} (items : List (Obj V)) : List String :=
  items.foldl (fun acc itemSet => acc ++ Obj.keys itemSet) []

/-- Embedding of `collect( ...items )`. -/
def collect {V : Type} (items : List (Obj V)) : Except String (Obj V) := do
  let collected := collectedObject items
  let names := functionNames items
  let duplicates := findDuplicates names
  invariant (duplicates.length == 0) (collectMessage duplicates)
  return collected

/-- The key `k` occurs in two of the `items`, at two different positions. -/
def SharedKey {V : Type} (items : List (Obj V)) (k : String) : Prop :=
  ∃ (i j : Nat) (a b : Obj V), i < j ∧ items[i]? = some a ∧ items[j]? = some b ∧ k ∈ Obj.keys a ∧ k ∈ Obj.keys b

/-- The names that the `counts` object of `findDuplicates` can count: all but `__proto__`. -/
def countedNames (array : List String) : List String :=
  array.filter (fun name => decide (name ≠ "__proto__"))

/-- The number of `items` that have the key `k`. -/
def holders {V : Type} (items : List (Obj V)) (k : String) : Nat :=
  items.countP (fun m => decide (k ∈ Obj.keys m))

/-! ## Values -/

/-- The JavaScript values that occur as states, actions and payloads.  Functions are not values
of this type: where the source accepts a function or a value, `Arg` is used. -/
inductive Val where
  | undefined
  | null
  | bool (b : Bool)
  | num (n : Int)
  | str (s : String)
  | obj (props : List (String × Val))
  | arr (items : List Val)

namespace Val

/-- The own enumerable properties of a value, which is what a spread `...v` copies: those of an
object, the indexed characters of a string, the indexed items of an array, none for any other
value. -/
def ownProps : Val → Obj Val
  | obj props => props
  | str s => s.toList.enum.map (fun p => (toString p.1, str (String.singleton p.2)))
  | arr items => items.enum.map (fun p => (toString p.1, p.2))
  | _ => []

/-- The object literal `{ ...v }`. -/
def spread (v : Val) : Obj Val := Obj.assign [] (ownProps v)

/-- The property read `v[ k ]` (also by destructuring): a `TypeError` on `undefined` and `null`,
otherwise the own enumerable property, `undefined` when there is none.  Properties inherited
from a prototype are not modelled, none of the names read this way in the sources is one; the
`length` of an array or string is read with `Val.length`. -/
def getProp (v : Val) (k : String) : Except String Val :=
  match v with
  | undefined => .error ("TypeError: Cannot read properties of undefined (reading " ++ k ++ ")")
  | null => .error ("TypeError: Cannot read properties of null (reading " ++ k ++ ")")
  | v => .ok ((Obj.get? (ownProps v) k).getD undefined)

/-- The strict comparison `v === s` with a string constant, as in a `case` of a `switch`. -/
def isStr : Val → String → Bool
  | str t, s => t == s
  | _, _ => false

/-- The truthiness of a value. -/
def truthy : Val → Bool
  | undefined => false
  | null => false
  | bool b => b
  | num n => n != 0
  | str s => s != ""
  | obj _ => true
  | arr _ => true

/-- The value of a parameter declared with a default, `( v = default ) => ...`: the default
replaces an argument that is `undefined` or not supplied. -/
def orDefault (v default : Val) : Val :=
  match v with
  | undefined => default
  | v => v

end Val

/-! ## `initializeAction`, `collectReducers`, `addInitializeReducer` -/

/-- The action type `INITIALIZE`. -/
def INITIALIZE : String := "INITIALIZE"

/-- Embedding of `initializeAction()`. -/
def initializeAction : Val :=
  .obj [("payload", .obj []), ("type", .str INITIALIZE)]

/-- A reducer: a function of a state and an action that returns a state or throws. -/
abbrev Reducer := Val → Val → Except String Val

/-- An argument of `collectReducers`: a value or a function. -/
inductive Arg where
  | val (v : Val)
  | fn (r : Reducer)

/-- The call `reducer( newState, action )` of an element of the `reducers` array. -/
def Arg.call : Arg → Reducer
  | .fn r, newState, action => r newState action
  | .val _, _, _ => .error "TypeError: reducer is not a function"

/-- Embedding of `collectReducers( ...args )`.  The returned function takes `undefined` for an
argument that is not supplied. -/
def collectReducers (args : List Arg) : Reducer :=
  let (initialState, reducers) : Val × List Arg :=
    match args with
    | [] => (.undefined, [])
    | .val v :: rest => (v, rest)
    | .fn r :: rest => (.undefined, .fn r :: rest)
  fun state action =>
    let state := state.orDefault initialState
    let action := action.orDefault (.obj [])
    reducers.foldlM (fun newState reducer => reducer.call newState action) state

/-- The `initializeReducer` defined inside `addInitializeReducer`. -/
def initializeReducer (initialState : Val) : Reducer := fun state action => do
  let type ← Val.getProp action "type"
  if type.isStr INITIALIZE then
    pure (.obj (Val.spread initialState))
  else
    pure (.obj (Val.spread state))

/-- Embedding of `addInitializeReducer( initialState, reducer )`. -/
def addInitializeReducer (initialState : Val) (reducer : Arg) : Reducer :=
  collectReducers [.val initialState, reducer, .fn (initializeReducer initialState)]

/-! ## The reducers of `utils.test.js` -/

/-- The `fakeReducer` of the tests. -/
def fakeReducer : Reducer := fun state action => do
  let type ← Val.getProp action "type"
  if type.isStr "ACTION_ONE" then
    pure (.obj (Obj.set (Val.spread state) "one" (.bool true)))
  else
    pure (.obj (Val.spread state))

/-- The `fakeReducerTwo` of the tests. -/
def fakeReducerTwo : Reducer := fun state action => do
  let type ← Val.getProp action "type"
  if type.isStr "ACTION_TWO" then
    pure (.obj (Obj.set (Val.spread state) "two" (.num 2)))
  else
    pure (.obj (Val.spread state))

/-! ## `collectName` -/

/-- Embedding of `collectName( ...args )`; `names.shift()` is `none` on an empty array. -/
def collectName (args : List String) : Except String (Option String) := do
  let names := args
  let duplicates := findDuplicates names
  invariant (decide ((duplicates.length : Int) = (names.length : Int) - 1))
    "collectName() must not receive different names."
  return names.head?

/-! ## The `core/site` connection store -/

/-- The action type `FETCH_CONNECTION`. -/
def FETCH_CONNECTION : String := "FETCH_CONNECTION"

/-- The action type `RECEIVE_CONNECTION`. -/
def RECEIVE_CONNECTION : String := "RECEIVE_CONNECTION"

/-- The action type `RECEIVE_CONNECTION_FAILED`. -/
def RECEIVE_CONNECTION_FAILED : String := "RECEIVE_CONNECTION_FAILED"

/-- The `INITIAL_STATE` of the connection store. -/
def INITIAL_STATE : Val :=
  .obj [("connection", .undefined), ("isFetchingConnection", .bool false)]

/-- Embedding of `actions.fetchConnection()`. -/
def fetchConnection : Val :=
  .obj [("payload", .obj []), ("type", .str FETCH_CONNECTION)]

/-- Embedding of `actions.receiveConnection( connection )`. -/
def receiveConnection (connection : Val) : Except String Val := do
  invariant connection.truthy "connection is required."
  return .obj [("payload", .obj [("connection", connection)]), ("type", .str RECEIVE_CONNECTION)]

/-- Embedding of `actions.receiveConnectionFailed()`. -/
def receiveConnectionFailed : Val :=
  .obj [("payload", .obj []), ("type", .str RECEIVE_CONNECTION_FAILED)]

/-- Embedding of `commonActions.getRegistry()`. -/
def getRegistry : Val :=
  .obj [("type", .str "GET_REGISTRY")]

/-- Embedding of the `reducer` of the connection store. -/
def reducer : Reducer := fun state action => do
  let type ← Val.getProp action "type"
  let payload ← Val.getProp action "payload"
  if type.isStr FETCH_CONNECTION then
    pure (.obj (Obj.set (Val.spread state) "isFetchingConnection" (.bool true)))
  else if type.isStr RECEIVE_CONNECTION then do
    let connection ← Val.getProp payload "connection"
    pure (.obj (Obj.set (Obj.set (Val.spread state) "isFetchingConnection" (.bool false))
      "connection" connection))
  else if type.isStr RECEIVE_CONNECTION_FAILED then
    pure (.obj (Obj.set (Val.spread state) "isFetchingConnection" (.bool false)))
  else
    pure (.obj (Val.spread state))

/-- What one run of a resolver generator produces: the actions it yields, in order, and the
action it returns (`none` for a plain `return`). -/
structure ResolverRun where
  yielded : List Val
  returned : Option Val

/-- The actions of a run in the order in which they are produced. -/
def ResolverRun.actions (run : ResolverRun) : List Val :=
  run.yielded ++ run.returned.toList

/-- Embedding of the resolver `getConnection`, run on a store in the given state.
`fetchOutcome` is what the `yield` of the fetch action settles to: the connection it resolves
with, or the payload it rejects with, which is thrown into the generator. -/
def getConnectionResolver (state : Val) (fetchOutcome : Except Val Val) : ResolverRun :=
  match Val.getProp state "connection" with
  | .error _ => ⟨[getRegistry], some receiveConnectionFailed⟩
  | .ok existingConnection =>
    if existingConnection.truthy then
      ⟨[getRegistry], none⟩
    else
      match fetchOutcome with
      | .ok connection =>
        match receiveConnection connection with
        | .ok action => ⟨[getRegistry, fetchConnection], some action⟩
        | .error _ => ⟨[getRegistry, fetchConnection], some receiveConnectionFailed⟩
      | .error _ => ⟨[getRegistry, fetchConnection], some receiveConnectionFailed⟩

/-- The state of a store with reducer `r` after the `actions` are dispatched in order. -/
def dispatchAll (r : Reducer) (state : Val) (actions : List Val) : Except String Val :=
  actions.foldlM (fun s a => r s a) state

/-! ## Reference definitions for `collectReducers` -/

/-- The nested application `rn( ... r2( r1( s, a ), a ) ..., a )` of the spec: every reducer once,
in order, each on the state returned by the one before it, all with the same action. -/
def chain : List Reducer → Val → Val → Except String Val
  | [], s, _ => .ok s
  | r :: rs, s, a => (r s a).bind (fun s' => chain rs s' a)

/-- The argument list `( s0, r1, ..., rn )`, or `( r1, ..., rn )` when no initial state is given. -/
def argsOf (s0 : Option Val) (rs : List Reducer) : List Arg :=
  (match s0 with
    | some v => [Arg.val v]
    | none => []) ++ rs.map Arg.fn

/-! ## `addInitializeAction` -/

/-- An action creator: a function of its arguments that returns an action or throws. -/
abbrev ActionCreator := List Val → Except String Val

/-- The function `initializeAction`, as a value stored in a map of actions. -/
def initializeActionCreator : ActionCreator := fun _ => .ok initializeAction

/-- Embedding of `addInitializeAction( actions )`. -/
def addInitializeAction (actions : Obj ActionCreator) : Except String (Obj ActionCreator) :=
  collect [actions, [("initialize", initializeActionCreator)]]

/-! ## More operations on values -/

namespace Val

/-- The test `v === undefined`. -/
def isUndefined : Val → Bool
  | undefined => true
  | _ => false

/-- The `isPlainObject( v )` of lodash.  Every object of the model is a plain one; arrays and
primitive values are not. -/
def isPlainObject : Val → Bool
  | obj _ => true
  | _ => false

/-- The property read `v.length`: a `TypeError` on `undefined` and `null`, the number of items
of an array, the number of characters of a string, and otherwise the own property of that
name. -/
def length (v : Val) : Except String Val :=
  match v with
  | arr items => .ok (num items.length)
  | str s => .ok (num s.length)
  | v => getProp v "length"

/-- The optional read `v?.[ k ]`: `undefined` on `undefined` and `null`, otherwise `v[ k ]`. -/
def optProp (v : Val) (k : String) : Val :=
  match v with
  | undefined => undefined
  | null => undefined
  | v => (Obj.get? (ownProps v) k).getD undefined

/-- The optional read `v?.length`. -/
def optLength (v : Val) : Val :=
  match v with
  | undefined => undefined
  | null => undefined
  | arr items => num items.length
  | str s => num s.length
  | v => (Obj.get? (ownProps v) "length").getD undefined

mutual
/-- The conversion of a value to a string, which is also its conversion to a property key in a
computed key `[ v ]`. -/
def toPropertyKey : Val → String
  | undefined => "undefined"
  | null => "null"
  | bool b => if b then "true" else "false"
  | num n => toString n
  | str s => s
  | obj _ => "[object Object]"
  | arr items => joinItems items
termination_by structural v => v
/-- The items of an array joined with commas, `undefined` and `null` giving the empty string. -/
def joinItems : List Val → String
  | [] => ""
  | x :: rest =>
    (match x with
      | undefined => ""
      | null => ""
      | v => toPropertyKey v) ++ (match rest with
      | [] => ""
      | _ => ",") ++ joinItems rest
termination_by structural l => l
end

/-- The call `v.includes( slug )` with a string argument: membership for an array, the
substring test for a string, a `TypeError` for any other value. -/
def includes (v : Val) (slug : String) : Except String Val :=
  match v with
  | arr items => .ok (bool (items.any (fun x => x.isStr slug)))
  | str s => .ok (bool (decide (slug.toList <:+: s.toList)))
  | undefined => .error "TypeError: Cannot read properties of undefined (reading includes)"
  | null => .error "TypeError: Cannot read properties of null (reading includes)"
  | _ => .error "TypeError: includes is not a function"

end Val

/-! ## The selectors of the connection store -/

/-- Embedding of `selectors.getConnection( state )`. -/
def getConnection (state : Val) : Except String Val :=
  Val.getProp state "connection"

/-- Embedding of `selectors.isConnected` on a store in the given state. -/
def isConnected (state : Val) : Except String Val := do
  let connection ← getConnection state
  if !connection.isUndefined then Val.getProp connection "connected" else pure connection

/-- Embedding of `selectors.isResettable` on a store in the given state. -/
def isResettable (state : Val) : Except String Val := do
  let connection ← getConnection state
  if !connection.isUndefined then Val.getProp connection "resettable" else pure connection

/-- Embedding of `selectors.isSetupCompleted` on a store in the given state. -/
def isSetupCompleted (state : Val) : Except String Val := do
  let connection ← getConnection state
  if !connection.isUndefined then Val.getProp connection "setupCompleted" else pure connection

/-! ## The key metrics store (`datastore/user/key-metrics.js`) -/

/-- The action type `SET_KEY_METRICS_SETTING`. -/
def SET_KEY_METRICS_SETTING : String := "SET_KEY_METRICS_SETTING"

/-- The action type `RESET_KEY_METRICS_SETTINGS`. -/
def RESET_KEY_METRICS_SETTINGS : String := "RESET_KEY_METRICS_SETTINGS"

/-- The action type `SET_KEY_METRICS_SETTINGS_SAVING_FLAG`. -/
def SET_KEY_METRICS_SETTINGS_SAVING_FLAG : String := "SET_KEY_METRICS_SETTINGS_SAVING_FLAG"

/-- The `baseInitialState` of the key metrics store. -/
def baseInitialState : Val :=
  .obj [("keyMetricsSettings", .undefined), ("savedKeyMetricsSettings", .undefined),
    ("isSavingKeyMetricsSettings", .bool false)]

/-- The `reducerCallback` of the two fetch stores of the key metrics store. -/
def reducerCallback (state keyMetricsSettings : Val) : Val :=
  .obj (Obj.set (Obj.set (Val.spread state) "keyMetricsSettings" keyMetricsSettings)
    "savedKeyMetricsSettings" keyMetricsSettings)

/-- The `validateParams` of `fetchSaveKeyMetricsSettingsStore`. -/
def validateParams (settings : Val) : Except String Unit :=
  invariant settings.isPlainObject "Settings should be an object."

/-- Embedding of `baseActions.setKeyMetricsSetting( settingID, value )`. -/
def setKeyMetricsSetting (settingID value : Val) : Val :=
  .obj [("type", .str SET_KEY_METRICS_SETTING),
    ("payload", .obj [("settingID", settingID), ("value", value)])]

/-- Embedding of `baseActions.resetKeyMetricsSettings()`. -/
def resetKeyMetricsSettings : Val :=
  .obj [("type", .str RESET_KEY_METRICS_SETTINGS), ("payload", .obj [])]

/-- The action that sets the saving flag, as yielded by `saveKeyMetricsSettings`. -/
def setSavingFlag (isSaving : Bool) : Val :=
  .obj [("type", .str SET_KEY_METRICS_SETTINGS_SAVING_FLAG),
    ("payload", .obj [("isSaving", .bool isSaving)])]

/-- Embedding of `baseReducer`. -/
def baseReducer : Reducer := fun state action => do
  let type ← Val.getProp action "type"
  let payload ← Val.getProp action "payload"
  if type.isStr SET_KEY_METRICS_SETTING then do
    let keyMetricsSettings ← Val.getProp state "keyMetricsSettings"
    let settingID ← Val.getProp payload "settingID"
    let value ← Val.getProp payload "value"
    pure (.obj (Obj.set (Val.spread state) "keyMetricsSettings"
      (.obj (Obj.set (Val.spread keyMetricsSettings) settingID.toPropertyKey value))))
  else if type.isStr RESET_KEY_METRICS_SETTINGS then do
    let savedKeyMetricsSettings ← Val.getProp state "savedKeyMetricsSettings"
    pure (.obj (Obj.set (Val.spread state) "keyMetricsSettings" savedKeyMetricsSettings))
  else if type.isStr SET_KEY_METRICS_SETTINGS_SAVING_FLAG then do
    let isSaving ← Val.getProp payload "isSaving"
    pure (.obj (Obj.set (Val.spread state) "isSavingKeyMetricsSettings" isSaving))
  else
    pure state

/-- Embedding of `baseSelectors.getKeyMetricsSettings( state )`. -/
def getKeyMetricsSettings (state : Val) : Except String Val :=
  Val.getProp state "keyMetricsSettings"

/-- Embedding of `baseSelectors.getUserPickedMetrics` on a store in the given state. -/
def getUserPickedMetrics (state : Val) : Except String Val := do
  let keyMetricsSettings ← getKeyMetricsSettings state
  if keyMetricsSettings.isUndefined then
    pure .undefined
  else
    Val.getProp keyMetricsSettings "widgetSlugs"

/-- Embedding of `baseSelectors.getKeyMetrics` on a store in the given state.
`answerBasedMetrics` is what `select( CORE_USER ).getAnswerBasedMetrics()` evaluates to. -/
def getKeyMetrics (state : Val) (answerBasedMetrics : Except String Val) : Except String Val := do
  let userPickedMetrics ← getUserPickedMetrics state
  if userPickedMetrics.isUndefined then
    pure .undefined
  else do
    let length ← userPickedMetrics.length
    if length.truthy then
      pure userPickedMetrics
    else
      answerBasedMetrics

/-- Embedding of `baseSelectors.isKeyMetricActive( state, widgetSlug )`. -/
def isKeyMetricActive (state : Val) (answerBasedMetrics : Except String Val)
    (widgetSlug : String) : Except String Val := do
  let keyMetrics ← getKeyMetrics state answerBasedMetrics
  if keyMetrics.isUndefined then
    pure .undefined
  else
    keyMetrics.includes widgetSlug

/-- The action creators that `key-metrics.js` imports from the error store and from its fetch
store; the actions they create are yielded as they are. -/
structure KeyMetricsActions where
  clearError : String → Val → Val
  receiveError : Val → String → Val → Val
  fetchSaveKeyMetricsSettings : Val → Val

/-- What a run of a generator action produces: the actions it yields, in order, and the value
it returns or the error it throws. -/
structure GenRun where
  yielded : List Val
  result : Except String Val

/-- Embedding of the generator `baseActions.saveKeyMetricsSettings( settings = {} )`, run on a
store in the given state.  `fetchResult` is what the `yield` of the fetch action evaluates to. -/
def saveKeyMetricsSettings (deps : KeyMetricsActions) (settings state fetchResult : Val) :
    GenRun :=
  let settings := settings.orDefault (.obj [])
  if !settings.isPlainObject then
    ⟨[], .error "Settings should be an object."⟩
  else
    let y1 := deps.clearError "saveKeyMetricsSettings" (.arr [])
    let y2 := getRegistry
    match getKeyMetricsSettings state with
    | .error e => ⟨[y1, y2], .error e⟩
    | .ok keyMetricsSettings =>
      let y3 := setSavingFlag true
      let y4 := deps.fetchSaveKeyMetricsSettings
        (.obj (Obj.set (Val.spread keyMetricsSettings) "settings" settings))
      match Val.getProp fetchResult "response", Val.getProp fetchResult "error" with
      | .ok response, .ok error =>
        let y5 := if error.truthy then
            [deps.receiveError error "saveKeyMetricsSettings" (.arr [])]
          else []
        ⟨[y1, y2, y3, y4] ++ y5 ++ [setSavingFlag false],
          .ok (.obj [("response", response), ("error", error)])⟩
      | .error e, _ => ⟨[y1, y2, y3, y4], .error e⟩
      | _, .error e => ⟨[y1, y2, y3, y4], .error e⟩

/-! ## `isZeroReport` (`modules/analytics-4/util/is-zero-report.js`) -/

/-- The loop of `Array.prototype.some` over the items, with a callback that can throw: it stops
at the first item for which the callback returns `true`. -/
def someLoop (callback : Val → Except String Bool) : List Val → Except String Bool
  | [] => .ok false
  | x :: rest => do
    if (← callback x) then pure true else someLoop callback rest

/-- The call `v.some( callback )`: defined on arrays, a `TypeError` on any other value. -/
def Val.some (v : Val) (callback : Val → Except String Bool) : Except String Bool :=
  match v with
  | .arr items => someLoop callback items
  | .undefined => .error "TypeError: Cannot read properties of undefined (reading some)"
  | .null => .error "TypeError: Cannot read properties of null (reading some)"
  | _ => .error "TypeError: some is not a function"

/-- The test `! report?.rows?.length` of `isZeroReport`. -/
def noRows (report : Val) : Bool :=
  !(Val.optLength (Val.optProp report "rows")).truthy

/-- The test `! report?.totals?.[ 0 ]?.metricValues?.length` of `isZeroReport`. -/
def noFirstTotals (report : Val) : Bool :=
  !(Val.optLength
    (Val.optProp (Val.optProp (Val.optProp report "totals") "0") "metricValues")).truthy

/-- The characters that the conversion of a string to a number trims at both ends: the white
space and the line terminators of JavaScript. -/
def isStrWhiteSpaceChar (c : Char) : Bool :=
  [0x9, 0xA, 0xB, 0xC, 0xD, 0x20, 0xA0, 0x1680, 0x2028, 0x2029, 0x202F, 0x205F, 0x3000,
      0xFEFF].contains c.toNat
    || (decide (0x2000 ≤ c.toNat) && decide (c.toNat ≤ 0x200A))

/-- The characters of a string without the white space at both ends. -/
def trimString (cs : List Char) : List Char :=
  ((cs.dropWhile isStrWhiteSpaceChar).reverse.dropWhile isStrWhiteSpaceChar).reverse

/-- The value of a character as a digit, up to the hexadecimal digits. -/
def digitValue (c : Char) : Option Nat :=
  if 48 ≤ c.toNat ∧ c.toNat ≤ 57 then
    some (c.toNat - 48)
  else if 97 ≤ c.toNat ∧ c.toNat ≤ 102 then
    some (c.toNat - 87)
  else if 65 ≤ c.toNat ∧ c.toNat ≤ 70 then
    some (c.toNat - 55)
  else
    none

/-- The character is a digit of the given radix. -/
def isDigitIn (radix : Nat) (c : Char) : Bool :=
  match digitValue c with
  | some d => decide (d < radix)
  | none => false

/-- The digits after a prefix `0x`, `0o` or `0b` denote a number greater than zero: there is at
least one digit, all are digits of the radix, and one of them is not `0`.  Anything else after
the prefix is not a number. -/
def nonDecimalPositive (radix : Nat) (digits : List Char) : Bool :=
  !digits.isEmpty && digits.all (isDigitIn radix) && digits.any (fun c => c != '0')

/-- The number that decimal digits denote. -/
def digitsValue (digits : List Char) : Nat :=
  digits.foldl (fun n c => 10 * n + (c.toNat - 48)) 0

/-- The characters are one or more decimal digits. -/
def isDecimalDigits (cs : List Char) : Bool :=
  !cs.isEmpty && cs.all Char.isDigit

/-- The signed integer of an exponent part: decimal digits with an optional sign. -/
def parseSignedInteger (cs : List Char) : Option Int :=
  match cs with
  | [] => none
  | c :: rest =>
    if c = '+' then
      if isDecimalDigits rest then some (digitsValue rest : Int) else none
    else if c = '-' then
      if isDecimalDigits rest then some (-(digitsValue rest : Int)) else none
    else if isDecimalDigits cs then
      some (digitsValue cs : Int)
    else
      none

/-- The optional exponent part that ends a decimal literal: nothing, or `e` or `E` and a signed
integer. -/
def parseExponentPart (cs : List Char) : Option Int :=
  match cs with
  | [] => some 0
  | c :: rest => if c = 'e' ∨ c = 'E' then parseSignedInteger rest else none

/-- An unsigned decimal literal of a numeric string (digits, an optional point and fraction, an
optional exponent, with a digit before or after the point), as a mantissa and a power of ten;
`none` when the characters are not such a literal. -/
def parseUnsignedDecimal (cs : List Char) : Option (Nat × Int) :=
  let integerPart := cs.takeWhile Char.isDigit
  let rest := cs.dropWhile Char.isDigit
  match rest with
  | [] => if integerPart.isEmpty then none else some (digitsValue integerPart, 0)
  | c :: afterPoint =>
    if c = '.' then
      let fraction := afterPoint.takeWhile Char.isDigit
      if integerPart.isEmpty && fraction.isEmpty then
        none
      else
        (parseExponentPart (afterPoint.dropWhile Char.isDigit)).map
          (fun e => (digitsValue (integerPart ++ fraction), e - (fraction.length : Int)))
    else if integerPart.isEmpty then
      none
    else
      (parseExponentPart rest).map (fun e => (digitsValue integerPart, e))

/-- The number `2 ^ 1075`, written as a power of `2 ^ 215`: its inverse is half of the smallest
positive double. -/
def halfMinDoubleInverse : Nat := (2 ^ 215) ^ 5

/-- The number `mantissa × 10 ^ exponent` is greater than zero as a number of JavaScript, a
double: a positive value rounds to zero when it is at most `2 ^ -1075`, half of the smallest
positive double. -/
def roundsToPositive (mantissa : Nat) (exponent : Int) : Bool :=
  if 0 ≤ exponent then
    decide (0 < mantissa)
  else
    decide (10 ^ exponent.natAbs < mantissa * halfMinDoubleInverse)

/-- The comparison `s > 0` for a string: the string is converted to a number (white space
trimmed; the empty string is 0; a literal with the prefix `0x`, `0o` or `0b`; `Infinity` or a
decimal literal, with an optional sign; anything else is `NaN`) and the number is compared. -/
def stringGtZero (s : String) : Bool :=
  match trimString s.toList with
  | [] => false
  | c :: rest =>
    if c = '-' then
      false
    else if c = '0' ∧ (rest.head? = some 'x' ∨ rest.head? = some 'X') then
      nonDecimalPositive 16 rest.tail
    else if c = '0' ∧ (rest.head? = some 'o' ∨ rest.head? = some 'O') then
      nonDecimalPositive 8 rest.tail
    else if c = '0' ∧ (rest.head? = some 'b' ∨ rest.head? = some 'B') then
      nonDecimalPositive 2 rest.tail
    else
      let literal := if c = '+' then rest else c :: rest
      if literal = "Infinity".toList then
        true
      else
        match parseUnsignedDecimal literal with
        | some (mantissa, exponent) => roundsToPositive mantissa exponent
        | none => false

mutual
/-- The conversion of a value to a string that a comparison or a `join` applies.  An object is
converted by the `toString` of `Object.prototype`, unless it has an own property `toString`:
that is not a function (no value of the model is), and the conversion throws.  The digits of an
integer are written in full, where JavaScript writes an exponent from `1e21` on. -/
def Val.toStringValue : Val → Except String String
  | .undefined => .ok "undefined"
  | .null => .ok "null"
  | .bool b => .ok (if b then "true" else "false")
  | .num n => .ok (toString n)
  | .str s => .ok s
  | .obj props =>
    if "toString" ∈ props.map Prod.fst then
      .error "TypeError: Cannot convert object to primitive value"
    else
      .ok "[object Object]"
  | .arr items => joinValues items
termination_by structural v => v
/-- The `join` of the items of an array with commas, by which an array is converted to a
string: `undefined` and `null` give the empty string. -/
def joinValues : List Val → Except String String
  | [] => .ok ""
  | x :: rest =>
    match (match x with
      | .undefined => Except.ok ""
      | .null => Except.ok ""
      | v => Val.toStringValue v) with
    | .error e => .error e
    | .ok first =>
      match joinValues rest with
      | .error e => .error e
      | .ok others => .ok (first ++ (match rest with
          | [] => ""
          | _ => ",") ++ others)
termination_by structural l => l
end

/-- The comparison `value > 0` of JavaScript, which converts its operand to a number:
`undefined` is `NaN`, `null` is 0, `true` is 1, a string is read as a numeric literal, an object
or array is first converted to a string. -/
def gtZero (value : Val) : Except String Bool :=
  match value with
  | .undefined => .ok false
  | .null => .ok false
  | .bool b => .ok b
  | .num n => .ok (decide (0 < n))
  | .str s => .ok (stringGtZero s)
  | v => (Val.toStringValue v).map stringGtZero

/-- The inner callback of `isZeroReport`, which destructures `value` from a metric value and
compares it with 0. -/
def metricIsPositive (metric : Val) : Except String Bool := do
  let value ← Val.getProp metric "value"
  gtZero value

/-- The outer callback of `isZeroReport`, applied to one entry of `report.totals`. -/
def totalsHavePositive (totals : Val) : Except String Bool := do
  let metricValues ← Val.getProp totals "metricValues"
  metricValues.some metricIsPositive

/-- Embedding of `isZeroReport( report )`. -/
def isZeroReport (report : Val) : Except String Val :=
  if report.isUndefined then
    .ok .undefined
  else if noRows report || noFirstTotals report then
    .ok (.bool true)
  else do
    let totals ← Val.getProp report "totals"
    let found ← totals.some totalsHavePositive
    pure (.bool (!found))

/-- The totals entries all carry an array of metric values, each of them an object or another
value with properties, whose `value` can be compared with 0. -/
def WellShapedTotals (entries : List Val) : Prop :=
  ∀ entry ∈ entries, ∃ metricValues, Val.getProp entry "metricValues" = .ok (.arr metricValues)
    ∧ ∀ metric ∈ metricValues, ∃ value b, Val.getProp metric "value" = .ok value
      ∧ gtZero value = .ok b

/-- Some metric value of some totals entry is greater than zero. -/
def HasPositiveTotal (entries : List Val) : Prop :=
  ∃ entry ∈ entries, ∃ metricValues, Val.getProp entry "metricValues" = .ok (.arr metricValues)
    ∧ ∃ metric ∈ metricValues, ∃ value, Val.getProp metric "value" = .ok value
      ∧ gtZero value = .ok true

/-! ## The widget layout (`widgets/util`) -/

/-- The declared widths of a widget, the keys of `WIDTH_GRID_COUNTER_MAP`. -/
inductive WidgetWidth where
  | quarter
  | half
  | full
  deriving DecidableEq

/-- Embedding of `WIDTH_GRID_COUNTER_MAP` (`widgets/util/constants.js`). -/
def WIDTH_GRID_COUNTER_MAP : WidgetWidth → Nat
  | .quarter => 3
  | .half => 6
  | .full => 12

/-- A widget descriptor, as far as the layout reads it. -/
structure Widget where
  slug : String
  width : WidgetWidth

/-- The column width and the row index of every widget, in the order of the widgets. -/
structure WidgetLayout where
  columnWidths : List Nat
  rowIndexes : List Nat
  deriving DecidableEq

/-- Modelled from the spec: the scan of `getWidgetLayout`, whose source is not part of the files
at hand.  `counter` is the running total of the current row and `row` its index; a widget whose
width would take the running total over 12 wraps to a new row.  The result pairs the column
width of each widget with its row index. -/
def getWidgetLayoutLoop : List Widget → Nat → Nat → List (Nat × Nat)
  | [], _, _ => []
  | widget :: rest, counter, row =>
    if counter + WIDTH_GRID_COUNTER_MAP widget.width > 12 then
      (WIDTH_GRID_COUNTER_MAP widget.width, row + 1)
        :: getWidgetLayoutLoop rest (WIDTH_GRID_COUNTER_MAP widget.width) (row + 1)
    else
      (WIDTH_GRID_COUNTER_MAP widget.width, row)
        :: getWidgetLayoutLoop rest (counter + WIDTH_GRID_COUNTER_MAP widget.width) row

/-- Modelled from the spec: `getWidgetLayout`, whose source is not part of the files at hand:
a column width per widget on the 12-unit grid and a row index per widget, starting in row 0.
The spec does not say how the widget states enter the layout; every widget is laid out. -/
def getWidgetLayout (widgets : List Widget) : WidgetLayout :=
  ⟨(getWidgetLayoutLoop widgets 0 0).map Prod.fst, (getWidgetLayoutLoop widgets 0 0).map Prod.snd⟩

/-- The sum of the column widths of the cells that lie in row `row`. -/
def rowTotal (cells : List (Nat × Nat)) (row : Nat) : Nat :=
  ((cells.filter (fun cell => cell.2 = row)).map Prod.fst).sum

/-- The row of the last cell, `start` when there is no cell. -/
def lastRow (cells : List (Nat × Nat)) (start : Nat) : Nat :=
  (cells.getLast?.map Prod.snd).getD start

/-- The cells of a layout: the column width of each widget paired with its row index. -/
def WidgetLayout.cells (layout : WidgetLayout) : List (Nat × Nat) :=
  layout.columnWidths.zip layout.rowIndexes

/-- The running total and the row index with which the scan of `getWidgetLayout` ends. -/
def getWidgetLayoutEnd : List Widget → Nat → Nat → Nat × Nat
  | [], counter, row => (counter, row)
  | widget :: rest, counter, row =>
    if counter + WIDTH_GRID_COUNTER_MAP widget.width > 12 then
      getWidgetLayoutEnd rest (WIDTH_GRID_COUNTER_MAP widget.width) (row + 1)
    else
      getWidgetLayoutEnd rest (counter + WIDTH_GRID_COUNTER_MAP widget.width) row

/-! ## The combination of widgets (`widgets/util`) -/

/-- What `combineWidgets` returns: for every widget the width of its cell, `none` for a cell
that gets the hidden class, and the override component it renders, if any. -/
structure CombinedWidgets (σ : Type) where
  gridColumnWidths : List (Option Nat)
  overrideComponents : List (Option σ)

/-- Modelled from the spec: the tile of a widget in the call-to-action state `state`, put in
front of the tiles of the widgets after it.  When the next widget reports the same state, the
widget takes over its tile: it spans the combined width and renders the override component, and
the next widget is hidden.  Otherwise the widget keeps its own width and is not overridden. -/
def mergeTile {σ : Type} [DecidableEq σ] (state : σ) (width : Nat) (next : Option (Option σ))
    (tiles : List (Option Nat × Option σ)) : List (Option Nat × Option σ) :=
  match next, tiles with
  | some (some nextState), (some total, _) :: rest =>
    if state = nextState then
      (some (width + total), some state) :: (none, none) :: rest
    else
      (some width, none) :: tiles
  | _, _ => (some width, none) :: tiles

/-- Modelled from the spec: the scan of `combineWidgets`, whose source is not part of the files
at hand, over the widgets given by their state (`none` for an active widget, `some state` for a
widget in a call-to-action state) and column width.  Consecutive widgets in the same
call-to-action state collapse into the tile of the first of them. -/
def combineWidgetsLoop {σ : Type} [DecidableEq σ] :
    List (Option σ × Nat) → List (Option Nat × Option σ)
  | [] => []
  | (none, width) :: rest => (some width, none) :: combineWidgetsLoop rest
  | (some state, width) :: rest =>
    mergeTile state width (rest.head?.map Prod.fst) (combineWidgetsLoop rest)

/-- Modelled from the spec: `combineWidgets`, whose source is not part of the files at hand,
applied to the states of the widgets and to the column widths of their layout.  The spec does
not say how the row indexes enter the combination; they are not used. -/
def combineWidgets {σ : Type} [DecidableEq σ] (widgetStates : List (Option σ))
    (columnWidths : List Nat) : CombinedWidgets σ :=
  ⟨(combineWidgetsLoop (widgetStates.zip columnWidths)).map Prod.fst,
    (combineWidgetsLoop (widgetStates.zip columnWidths)).map Prod.snd⟩

/-- A run of consecutive widgets that all report the call-to-action state `state`, with the
column widths `width :: widths`. -/
def ctaRun {σ : Type} (state : σ) (width : Nat) (widths : List Nat) : List (Option σ × Nat) :=
  (some state, width) :: widths.map (fun u => (some state, u))

/-- The tiles of a run: the first widget spans the sum of the widths, with the override
component when the run has more than one widget, and the other widgets are hidden. -/
def ctaRunTiles {σ : Type} (state : σ) (width : Nat) (widths : List Nat) :
    List (Option Nat × Option σ) :=
  (some (width + widths.sum), if widths = [] then none else some state)
    :: widths.map (fun _ => (none, none))

/-! ## PHP values and arrays -/

/-- The key of an entry of a PHP array: an integer or a string. -/
inductive PKey where
  | int (i : Int)
  | str (s : String)
  deriving DecidableEq

/-- The PHP values that occur in the user input settings: `null`, booleans, integers, strings
and arrays, an array being the list of its entries in order. -/
inductive PVal where
  | null
  | bool (b : Bool)
  | int (i : Int)
  | str (s : String)
  | arr (entries : List (PKey × PVal))

/-- A PHP array: its entries in order.  The keys of an array are pairwise distinct. -/
abbrev PArr := List (PKey × PVal)

namespace PArr

/-- The entry `$a[ k ]`, `none` when the key is not set. -/
def get? : PArr → PKey → Option PVal
  | [], _ => none
  | (k', v) :: rest, k => if k' = k then some v else get? rest k

/-- The assignment `$a[ k ] = v`: an existing entry keeps its position, a new one goes last. -/
def set : PArr → PKey → PVal → PArr
  | [], k, v => [(k, v)]
  | (k', v') :: rest, k, v => if k' = k then (k', v) :: rest else (k', v') :: set rest k v

/-- The statement `unset( $a[ k ] )`. -/
def unset (a : PArr) (k : PKey) : PArr :=
  a.filter (fun entry => !decide (entry.1 = k))

end PArr

/-- The test `isset( ... )` on what a read gives: the entry exists and is not `null`. -/
def isset : Option PVal → Bool
  | some .null => false
  | some _ => true
  | none => false

/-- The loop of `array_merge` over the entries of its arguments: an entry with a string key
overwrites the entry of that key, an entry with an integer key is appended under the next
integer key. -/
def arrayMergeLoop : PArr → Int → List (PKey × PVal) → PArr
  | acc, _, [] => acc
  | acc, next, (.str s, v) :: rest => arrayMergeLoop (PArr.set acc (.str s) v) next rest
  | acc, next, (.int _, v) :: rest => arrayMergeLoop (acc ++ [(.int next, v)]) (next + 1) rest

/-- The PHP function `array_merge( $a, $b )`. -/
def array_merge (a b : PArr) : PArr :=
  arrayMergeLoop [] 0 (a ++ b)

/-! ## `User_Input` (`includes/Core/User_Input/User_Input.php`) -/

/-- The functions of WordPress and PHP that `User_Input` calls. -/
structure WordPress where
  get_current_user_id : Int
  get_avatar_url : Int → PVal
  get_the_author_meta : String → Int → PVal
  intval : PVal → Int

/-- Embedding of `User_Input::$properties`: the array of each property, by its key. -/
def properties : List (PKey × PArr) :=
  [(.str "purpose", [(.str "scope", .str "site")]),
    (.str "postFrequency", [(.str "scope", .str "user")]),
    (.str "goals", [(.str "scope", .str "user")])]

/-- The assignment `$property[ 'values' ] = array()` on the array of a property. -/
def withEmptyValues (property : PArr) : PVal :=
  .arr (PArr.set property (.str "values") (.arr []))

/-- The array that `properties` declares for a key, if any. -/
def declared? : List (PKey × PArr) → PKey → Option PArr
  | [], _ => none
  | (k', property) :: rest, k => if k' = k then some property else declared? rest k

/-- The body of the first `foreach` of `get_settings`, applied to one setting by reference: the
`answeredBy` of a setting is removed and, when it is another user, replaced by an `author`. -/
def replaceAnsweredBy (wp : WordPress) (user_id : Int) (setting : PVal) : PVal :=
  match setting with
  | .arr entries =>
    if isset (PArr.get? entries (.str "answeredBy")) then
      let answered_by := wp.intval ((PArr.get? entries (.str "answeredBy")).getD .null)
      let entries := PArr.unset entries (.str "answeredBy")
      if answered_by = 0 || answered_by = user_id then
        .arr entries
      else
        .arr (PArr.set entries (.str "author")
          (.arr [(.str "photo", wp.get_avatar_url answered_by),
            (.str "name", wp.get_the_author_meta "user_email" answered_by)]))
    else
      setting
  | _ => setting

/-- The body of the second `foreach` of `get_settings`: a property that is not set in the
settings gets its declared value with an empty list of values. -/
def fillProperty (settings : PArr) (property : PKey × PArr) : PArr :=
  if !isset (PArr.get? settings property.1) then
    PArr.set settings property.1 (withEmptyValues property.2)
  else
    settings

/-- Embedding of `User_Input::get_settings()`.  `site` and `user` are what
`user_input_site_settings->get()` and `user_input_user_settings->get()` return. -/
def get_settings (wp : WordPress) (site user : PArr) : PArr :=
  let settings := array_merge site user
  if settings.isEmpty then
    properties.map (fun property => (property.1, withEmptyValues property.2))
  else
    let user_id := wp.get_current_user_id
    let settings := settings.map
      (fun entry => (entry.1, replaceAnsweredBy wp user_id entry.2))
    properties.foldl fillProperty settings

/-- A setting as it is stored: an array with a `scope` that is `site` or `user` and a list of
`values`. -/
def IsSetting (v : PVal) : Prop :=
  ∃ entries scope values, v = .arr entries
    ∧ PArr.get? entries (.str "scope") = some (.str scope) ∧ (scope = "site" ∨ scope = "user")
    ∧ PArr.get? entries (.str "values") = some (.arr values)

/-! ## Sequences of actions of the connection store -/

/-- The actions that the connection store reduces in a case of their own. -/
inductive ConnectionAction where
  | fetch
  | receive (connection : Val)
  | failed

/-- The action object of a `ConnectionAction`: what `fetchConnection()`,
`receiveConnection( connection )` and `receiveConnectionFailed()` return. -/
def ConnectionAction.toAction : ConnectionAction → Val
  | .fetch => fetchConnection
  | .receive connection =>
    .obj [("payload", .obj [("connection", connection)]), ("type", .str RECEIVE_CONNECTION)]
  | .failed => receiveConnectionFailed

/-- The last action of the sequence is a `FETCH_CONNECTION`: a fetch was started and no receive or
fail action came after it. -/
def lastIsFetch (actions : List ConnectionAction) : Bool :=
  match actions.getLast? with
  | some .fetch => true
  | _ => false

/-! ## `isEqual` and the remaining selectors of the key metrics store -/

mutual
/-- The `isEqual( value, other )` of lodash on the values of the model: primitive values are
equal when they are the same, arrays when their items are equal in order, objects when they have
the same number of properties and every property of the first is a property of the second with
an equal value, whatever the order of the properties. -/
def Val.isEqual : Val → Val → Bool
  | .undefined, other =>
    match other with
    | .undefined => true
    | _ => false
  | .null, other =>
    match other with
    | .null => true
    | _ => false
  | .bool a, other =>
    match other with
    | .bool b => a == b
    | _ => false
  | .num a, other =>
    match other with
    | .num b => a == b
    | _ => false
  | .str a, other =>
    match other with
    | .str b => a == b
    | _ => false
  | .obj props, other =>
    match other with
    | .obj otherProps => props.length == otherProps.length && propsEqual props otherProps
    | _ => false
  | .arr items, other =>
    match other with
    | .arr otherItems => itemsEqual items otherItems
    | _ => false
termination_by structural v => v
/-- Every one of the properties is a property of `otherProps` with an equal value. -/
def propsEqual : List (String × Val) → List (String × Val) → Bool
  | [], _ => true
  | prop :: rest, otherProps => propEqual prop otherProps && propsEqual rest otherProps
termination_by structural l => l
/-- The property is a property of `otherProps` with an equal value. -/
def propEqual : String × Val → List (String × Val) → Bool
  | (key, value), otherProps =>
    match Obj.get? otherProps key with
    | some otherValue => Val.isEqual value otherValue
    | none => false
termination_by structural p => p
/-- The two lists of items have the same length and equal items at every index. -/
def itemsEqual : List Val → List Val → Bool
  | [], otherItems => otherItems.isEmpty
  | item :: rest, otherItems =>
    match otherItems with
    | [] => false
    | otherItem :: otherRest => Val.isEqual item otherItem && itemsEqual rest otherRest
termination_by structural l => l
end

mutual
/-- The value represents a JavaScript value: in every object inside it, the property names are
pairwise distinct. -/
def Val.wellFormed : Val → Bool
  | .obj props => decide (props.map Prod.fst).Nodup && propsWellFormed props
  | .arr items => itemsWellFormed items
  | _ => true
termination_by structural v => v
/-- The values of the properties are well formed. -/
def propsWellFormed : List (String × Val) → Bool
  | [] => true
  | prop :: rest => propWellFormed prop && propsWellFormed rest
termination_by structural l => l
/-- The value of the property is well formed. -/
def propWellFormed : String × Val → Bool
  | (_, value) => Val.wellFormed value
termination_by structural p => p
/-- The items are well formed. -/
def itemsWellFormed : List Val → Bool
  | [] => true
  | item :: rest => Val.wellFormed item && itemsWellFormed rest
termination_by structural l => l
end

/-- Embedding of `baseSelectors.haveKeyMetricsSettingsChanged( state )`. -/
def haveKeyMetricsSettingsChanged (state : Val) : Except String Val := do
  let keyMetricsSettings ← Val.getProp state "keyMetricsSettings"
  let savedKeyMetricsSettings ← Val.getProp state "savedKeyMetricsSettings"
  pure (.bool (!Val.isEqual keyMetricsSettings savedKeyMetricsSettings))

/-- Embedding of `baseSelectors.isSavingKeyMetricsSettings( state )`. -/
def isSavingKeyMetricsSettings (state : Val) : Val :=
  .bool (Val.optProp state "isSavingKeyMetricsSettings").truthy

/-! ## `User_Input`: `are_settings_empty`, `set_settings`, `sanitize_settings` -/

/-- The test `is_array( $v )`. -/
def PVal.isArray : PVal → Bool
  | .arr _ => true
  | _ => false

/-- The test `is_int( $v )`. -/
def PVal.isInt : PVal → Bool
  | .int _ => true
  | _ => false

/-- The test `is_string( $v )`. -/
def PVal.isString : PVal → Bool
  | .str _ => true
  | _ => false

/-- The strict comparison `$s === $v` with a string. -/
def PVal.isStr : PVal → String → Bool
  | .str t, s => t == s
  | _, _ => false

/-- The values that `empty( $v )` holds of, when the value is set. -/
def PVal.isFalsy : PVal → Bool
  | .null => true
  | .bool b => !b
  | .int i => i == 0
  | .str s => s == "" || s == "0"
  | .arr entries => entries.isEmpty

/-- The test `empty( $setting[ 'values' ] )`: the entry is not set or holds a falsy value; a
value that is not an array has no entry. -/
def emptyValues (setting : PVal) : Bool :=
  match setting with
  | .arr entries =>
    match PArr.get? entries (.str "values") with
    | some values => values.isFalsy
    | none => true
  | _ => true

/-- Embedding of `User_Input::are_settings_empty( $settings )`, `none` standing for `null`.
`site` and `user` are the stored settings that `get_settings()` reads. -/
def are_settings_empty (wp : WordPress) (site user : PArr) (settings : PArr) : Option Bool :=
  let settings := if settings.isEmpty then get_settings wp site user else settings
  let empty_settings := settings.filter (fun entry => emptyValues entry.2)
  some (decide (0 < empty_settings.length))

/-- The values `User_Input_State::VALUE_MISSING` and `User_Input_State::VALUE_COMPLETED`. -/
inductive User_Input_State where
  | VALUE_MISSING
  | VALUE_COMPLETED
  deriving DecidableEq

/-- What `get()` of the two setting objects returns once `set( $value )` has run on them; the
setting classes are not among the files. -/
structure SettingsStore where
  site_after_set : PArr → PArr
  user_after_set : PArr → PArr

/-- The read `$properties[ $setting_key ][ 'scope' ]`, `null` when an entry is missing. -/
def declaredScope (setting_key : PKey) : PVal :=
  match declared? properties setting_key with
  | some property => (PArr.get? property (.str "scope")).getD .null
  | none => .null

/-- The body of the `foreach` of `set_settings`, on the pair of `$site_settings` and
`$user_settings`. -/
def setSettingsStep (wp : WordPress) (acc : PArr × PArr) (entry : PKey × PVal) : PArr × PArr :=
  let scope := declaredScope entry.1
  if scope.isStr "site" then
    (PArr.set acc.1 entry.1 (.arr [(.str "values", entry.2), (.str "scope", scope),
      (.str "answeredBy", .int wp.get_current_user_id)]), acc.2)
  else if scope.isStr "user" then
    (acc.1, PArr.set acc.2 entry.1 (.arr [(.str "values", entry.2), (.str "scope", scope)]))
  else
    acc

/-- The `$site_settings` and `$user_settings` that `set_settings` passes to the setting
objects. -/
def splitSettings (wp : WordPress) (settings : PArr) : PArr × PArr :=
  settings.foldl (setSettingsStep wp) ([], [])

/-- What a call of `set_settings` does: the arrays it writes to the site and to the user
settings, the value it sets the user input state to, if it sets it, and the array it returns. -/
structure SetSettingsResult where
  site_settings : PArr
  user_settings : PArr
  user_input_state : Option User_Input_State
  returned : PArr

/-- Embedding of `User_Input::set_settings( $settings )`. -/
def set_settings (wp : WordPress) (store : SettingsStore) (settings : PArr) :
    SetSettingsResult :=
  let site_settings := (splitSettings wp settings).1
  let user_settings := (splitSettings wp settings).2
  let site := store.site_after_set site_settings
  let user := store.user_after_set user_settings
  let updated_settings := get_settings wp site user
  let is_empty := are_settings_empty wp site user updated_settings
  { site_settings := site_settings
    user_settings := user_settings
    user_input_state := is_empty.map
      (fun e => if e then User_Input_State.VALUE_MISSING else User_Input_State.VALUE_COMPLETED)
    returned := updated_settings }

/-- The keys of the properties whose declared scope is `scope`: the keys of `$properties` in
`sanitize_settings`. -/
def scopedKeys (scope : String) : List PKey :=
  (properties.filter
    (fun property => ((PArr.get? property.2 (.str "scope")).getD .null).isStr scope)).map Prod.fst

/-- The `$valid_answers` of `sanitize_settings`: the strings among the values, in order, under
the keys 0, 1, 2 and so on. -/
def validAnswers (values : PArr) : PArr :=
  ((values.map Prod.snd).filter PVal.isString).enum.map (fun p => (PKey.int p.1, p.2))

/-- The body of the `foreach` of `sanitize_settings` on one entry: `none` when the entry is
skipped, otherwise the entry that is written to `$results`. -/
def sanitizeEntry (scope : String) (entry : PKey × PVal) : Option (PKey × PVal) :=
  if entry.1 ∈ scopedKeys scope then
    match entry.2 with
    | .arr setting_values =>
      match PArr.get? setting_values (.str "scope"), PArr.get? setting_values (.str "values") with
      | some (.str own), some (.arr values) =>
        if own = scope then
          if scope = "site" then
            match PArr.get? setting_values (.str "answeredBy") with
            | some (.int answeredBy) =>
              some (entry.1, .arr [(.str "scope", .str own), (.str "answeredBy", .int answeredBy),
                (.str "values", .arr (validAnswers values))])
            | _ => none
          else
            some (entry.1, .arr [(.str "scope", .str own),
              (.str "values", .arr (validAnswers values))])
        else none
      | _, _ => none
    | _ => none
  else none

/-- The step of the `foreach` of `sanitize_settings` on `$results`. -/
def sanitizeStep (scope : String) (results : PArr) (entry : PKey × PVal) : PArr :=
  match sanitizeEntry scope entry with
  | some valid => PArr.set results valid.1 valid.2
  | none => results

/-- Embedding of `User_Input::sanitize_settings( $setting, $settings, $scope )`; `stored` is
what `$setting->get()` returns. -/
def sanitize_settings (stored : PArr) (settings scope : PVal) : PArr :=
  match settings, scope with
  | .arr entries, .str scope =>
    if scope = "site" ∨ scope = "user" then
      entries.foldl (sanitizeStep scope) []
    else
      stored
  | _, _ => stored

/-! ## Lemmas on objects -/

namespace Obj

variable {V : Type}

theorem get?_set (o : Obj V) (k k' : String) (v : V) :
    get? (set o k v) k' = if k = k' then some v else get? o k' := by
  induction o with
  | nil => simp [set, get?]
  | cons p rest ih =>
    obtain ⟨a, b⟩ := p
    by_cases h : a = k
    · subst h
      by_cases h' : a = k' <;> simp [set, get?, h']
    · by_cases h' : a = k'
      · subst h'
        have : ¬ k = a := fun e => h e.symm
        simp [set, get?, h, this]
      · simp [set, get?, h, h', ih]

theorem get?_eq_none_iff (o : Obj V) (k : String) : get? o k = none ↔ k ∉ keys o := by
  induction o with
  | nil => simp [get?, keys]
  | cons p rest ih =>
    obtain ⟨a, b⟩ := p
    by_cases h : a = k
    · simp [get?, keys, h]
    · have h' : ¬ k = a := fun e => h e.symm
      simpa [get?, keys, h, h'] using ih

theorem set_of_not_mem (o : Obj V) (k : String) (v : V) (h : k ∉ keys o) :
    set o k v = o ++ [(k, v)] := by
  induction o with
  | nil => rfl
  | cons p rest ih =>
    obtain ⟨a, b⟩ := p
    have hk : ¬ a = k := by
      intro e
      apply h
      simp [keys, e]
    have hr : k ∉ keys rest := by
      intro e
      apply h
      simp only [keys, List.map_cons, List.mem_cons]
      exact Or.inr e
    simp [set, hk, ih hr]

theorem keys_append (a b : Obj V) : keys (a ++ b) = keys a ++ keys b := by
  simp [keys]

theorem assign_of_disjoint (acc item : Obj V) (hnd : (keys item).Nodup)
    (hdisj : ∀ k, k ∈ keys acc → k ∉ keys item) : assign acc item = acc ++ item := by
  induction item generalizing acc with
  | nil => simp [assign]
  | cons p rest ih =>
    obtain ⟨a, b⟩ := p
    have ha : a ∉ keys acc := by
      intro e
      exact hdisj a e (by simp [keys])
    have hnd' : (keys rest).Nodup := by
      simp only [keys, List.map_cons, List.nodup_cons] at hnd
      exact hnd.2
    have hna : a ∉ keys rest := by
      simp only [keys, List.map_cons, List.nodup_cons] at hnd
      exact hnd.1
    have step : assign acc ((a, b) :: rest) = assign (set acc a b) rest := by
      simp [assign]
    rw [step, set_of_not_mem acc a b ha, ih (acc ++ [(a, b)]) hnd']
    · simp
    · intro k hk hk'
      rw [keys_append] at hk
      rcases List.mem_append.mp hk with h | h
      · exact hdisj k h (by simp only [keys, List.map_cons, List.mem_cons]; exact Or.inr hk')
      · have : k = a := by simpa [keys] using h
        exact hna (this ▸ hk')

theorem assign_nil_left (item : Obj V) (hnd : (keys item).Nodup) : assign [] item = item := by
  have := assign_of_disjoint [] item hnd (by intro k hk; simp [keys] at hk)
  simpa using this

end Obj

/-! ## Lemmas on the message of `invariant` -/

theorem formatLoop_of_no_placeholder (l : List Char) :
    ∀ pending : Bool, ¬ ['%', 's'] <:+: (if pending then '%' :: l else l) →
      formatLoop pending l = if pending then '%' :: l else l := by
  induction l with
  | nil =>
    intro pending _
    cases pending <;> rfl
  | cons c rest ih =>
    intro pending h
    cases pending with
    | false =>
      simp only [Bool.false_eq_true, if_false] at h ⊢
      by_cases hc : c = '%'
      · subst hc
        have := ih true (by simpa using h)
        simp only [formatLoop, if_true, this]
      · have := ih false (by
          simp only [Bool.false_eq_true, if_false]
          exact fun hi => h (List.infix_cons hi))
        simp only [formatLoop, hc, if_false, this, Bool.false_eq_true]
    | true =>
      simp only [if_true] at h ⊢
      have hrest : ¬ ['%', 's'] <:+: c :: rest := fun hi => h (List.infix_cons hi)
      by_cases hs : c = 's'
      · subst hs
        exact absurd ⟨[], rest, rfl⟩ h
      · by_cases hc : c = '%'
        · subst hc
          have := ih true (by simpa using hrest)
          simp only [formatLoop, hs, if_false, if_true, this]
        · have := ih false (by
            simp only [Bool.false_eq_true, if_false]
            exact fun hi => hrest (List.infix_cons hi))
          simp only [formatLoop, hs, hc, if_false, this, Bool.false_eq_true]

theorem formatMessage_of_no_placeholder (message : String)
    (h : ¬ ['%', 's'] <:+: message.toList) : formatMessage message = message := by
  unfold formatMessage
  rw [formatLoop_of_no_placeholder message.toList false (by simpa using h)]
  rfl

theorem no_placeholder_of_not_mem (l : List Char) (h : '%' ∉ l) : ¬ ['%', 's'] <:+: l :=
  fun hi => h (hi.subset (List.mem_cons_self _ _))

theorem no_placeholder_append (a b : List Char) (ha : ¬ ['%', 's'] <:+: a)
    (hb : ¬ ['%', 's'] <:+: b) (hab : a.getLast? ≠ some '%' ∨ b.head? ≠ some 's') :
    ¬ ['%', 's'] <:+: a ++ b := by
  induction a with
  | nil => simpa using hb
  | cons c rest ih =>
    intro h
    rw [List.cons_append, List.infix_cons_iff] at h
    rcases h with hpre | hinf
    · rw [List.cons_prefix_cons] at hpre
      obtain ⟨hc, hp⟩ := hpre
      cases rest with
      | nil =>
        cases b with
        | nil => simp at hp
        | cons d b' =>
          rw [List.nil_append, List.cons_prefix_cons] at hp
          rcases hab with hl | hr
          · exact hl (by simp [hc.symm])
          · exact hr (by simp [hp.1.symm])
      | cons d rest' =>
        rw [List.cons_append, List.cons_prefix_cons] at hp
        apply ha
        refine ⟨[], rest', ?_⟩
        simp [hc.symm, hp.1.symm]
    · cases rest with
      | nil => exact hb (by simpa using hinf)
      | cons d rest' =>
        refine ih (fun hi => ha (List.infix_cons hi)) ?_ hinf
        rcases hab with hl | hr
        · left
          simpa [List.getLast?_cons_cons] using hl
        · exact Or.inr hr

theorem no_placeholder_intercalate_go (items : List String) (acc : String)
    (hacc : ¬ ['%', 's'] <:+: acc.toList) (hitems : ∀ k ∈ items, ¬ ['%', 's'] <:+: k.toList) :
    ¬ ['%', 's'] <:+: (String.intercalate.go acc ", " items).toList := by
  induction items generalizing acc with
  | nil => exact hacc
  | cons k rest ih =>
    rw [String.intercalate.go]
    apply ih _ _ (fun x hx => hitems x (List.mem_cons_of_mem _ hx))
    have h1 : ¬ ['%', 's'] <:+: (acc ++ ", ").toList := by
      rw [String.toList, String.data_append]
      exact no_placeholder_append _ _ hacc (by decide) (Or.inr (by decide))
    rw [String.toList, String.data_append]
    refine no_placeholder_append _ _ h1 (hitems k (List.mem_cons_self _ _)) (Or.inl ?_)
    rw [String.data_append]
    simp [List.getLast?_append]

theorem no_placeholder_intercalate (items : List String)
    (hitems : ∀ k ∈ items, ¬ ['%', 's'] <:+: k.toList) :
    ¬ ['%', 's'] <:+: (String.intercalate ", " items).toList := by
  cases items with
  | nil => decide
  | cons k rest =>
    rw [String.intercalate]
    exact no_placeholder_intercalate_go rest k (hitems k (List.mem_cons_self _ _))
      (fun x hx => hitems x (List.mem_cons_of_mem _ hx))

theorem formatMessage_collectMessage (duplicates : List String)
    (h : ∀ k ∈ duplicates, ¬ ['%', 's'] <:+: k.toList) :
    formatMessage (collectMessage duplicates) = collectMessage duplicates := by
  apply formatMessage_of_no_placeholder
  unfold collectMessage
  rw [String.toList, String.data_append, String.data_append]
  refine no_placeholder_append _ _ ?_ (by decide) (Or.inr (by decide))
  refine no_placeholder_append _ _ (no_placeholder_of_not_mem _ (by decide))
    (no_placeholder_intercalate duplicates h) (Or.inl (by decide))

/-! ## Lemmas on `findDuplicates` -/

theorem countedNames_cons_proto (rest : List String) :
    countedNames ("__proto__" :: rest) = countedNames rest := by
  simp [countedNames]

theorem countedNames_cons_of_ne (item : String) (rest : List String) (h : item ≠ "__proto__") :
    countedNames (item :: rest) = item :: countedNames rest := by
  simp [countedNames, h]

theorem proto_not_mem_countedNames (xs : List String) : "__proto__" ∉ countedNames xs := by
  simp [countedNames]

theorem countedNames_append (xs ys : List String) :
    countedNames (xs ++ ys) = countedNames xs ++ countedNames ys := by
  simp [countedNames]

theorem countedNames_of_not_mem (xs : List String) (h : "__proto__" ∉ xs) :
    countedNames xs = xs := by
  unfold countedNames
  rw [List.filter_eq_self]
  intro a ha
  have : a ≠ "__proto__" := fun e => h (e ▸ ha)
  simpa using this

theorem count_countedNames (k : String) (xs : List String) (hk : k ≠ "__proto__") :
    (countedNames xs).count k = xs.count k := by
  unfold countedNames
  rw [List.count_filter]
  simpa using hk

theorem findDuplicatesLoop_cons_proto (rest : List String) (counts : Obj Nat)
    (dups : List String) :
    findDuplicatesLoop ("__proto__" :: rest) counts dups = findDuplicatesLoop rest counts dups := by
  rw [findDuplicatesLoop]
  simp only [if_true]

theorem findDuplicatesLoop_cons_of_ne (item : String) (rest : List String) (counts : Obj Nat)
    (dups : List String) (h : item ≠ "__proto__") :
    findDuplicatesLoop (item :: rest) counts dups
      = findDuplicatesLoop rest
          (Obj.set counts item (match Obj.get? counts item with
            | some c => if c ≥ 1 then c + 1 else 1
            | none => 1))
          (if (match Obj.get? counts item with
            | some c => if c ≥ 1 then c + 1 else 1
            | none => 1) > 1 then dups ++ [item] else dups) := by
  rw [findDuplicatesLoop]
  simp only [h, if_false]

theorem findDuplicatesLoop_countedNames (xs : List String) (counts : Obj Nat)
    (dups : List String) :
    findDuplicatesLoop xs counts dups = findDuplicatesLoop (countedNames xs) counts dups := by
  induction xs generalizing counts dups with
  | nil => rfl
  | cons item rest ih =>
    by_cases hp : item = "__proto__"
    · subst hp
      rw [findDuplicatesLoop_cons_proto, countedNames_cons_proto]
      exact ih counts dups
    · rw [countedNames_cons_of_ne item rest hp, findDuplicatesLoop_cons_of_ne item rest _ _ hp,
        findDuplicatesLoop_cons_of_ne item _ _ _ hp]
      exact ih _ _

theorem count_findDuplicatesLoop (k : String) (xs : List String) (counts : Obj Nat)
    (dups : List String) (hno : "__proto__" ∉ xs)
    (hpos : ∀ x c, Obj.get? counts x = some c → 1 ≤ c) :
    (findDuplicatesLoop xs counts dups).count k
      = dups.count k + (match Obj.get? counts k with
          | some _ => xs.count k
          | none => xs.count k - 1) := by
  induction xs generalizing counts dups with
  | nil => cases Obj.get? counts k <;> simp [findDuplicatesLoop]
  | cons item rest ih =>
    have hp : item ≠ "__proto__" := fun e => hno (e ▸ List.mem_cons_self _ _)
    have hrest : "__proto__" ∉ rest := fun h => hno (List.mem_cons_of_mem _ h)
    rw [findDuplicatesLoop_cons_of_ne item rest counts dups hp]
    cases hc : Obj.get? counts item with
    | none =>
      simp only [gt_iff_lt, lt_self_iff_false, if_false]
      rw [ih _ _ hrest]
      · rw [Obj.get?_set]
        by_cases hik : item = k
        · subst hik
          simp [hc]
        · have : ¬ k = item := fun e => hik e.symm
          simp [hik, List.count_cons, this]
      · intro x c hx
        rw [Obj.get?_set] at hx
        by_cases hix : item = x
        · simp [hix] at hx
          omega
        · simp [hix] at hx
          exact hpos x c hx
    | some c =>
      have hc1 : 1 ≤ c := hpos item c hc
      simp only [ge_iff_le, hc1, if_true, gt_iff_lt, Nat.lt_add_left_iff_pos]
      have hlt : 0 < c := hc1
      simp only [hlt, if_true]
      rw [ih _ _ hrest]
      · rw [Obj.get?_set]
        by_cases hik : item = k
        · subst hik
          simp [hc]
          ring
        · have : ¬ k = item := fun e => hik e.symm
          simp [hik, List.count_cons, this, List.count_append]
      · intro x c' hx
        rw [Obj.get?_set] at hx
        by_cases hix : item = x
        · simp [hix] at hx
          omega
        · simp [hix] at hx
          exact hpos x c' hx

/-- Every counted item is returned once for each of its occurrences after the first. -/
theorem count_findDuplicates (k : String) (xs : List String) :
    (findDuplicates xs).count k = (countedNames xs).count k - 1 := by
  unfold findDuplicates
  rw [findDuplicatesLoop_countedNames,
    count_findDuplicatesLoop k (countedNames xs) [] [] (proto_not_mem_countedNames xs)
      (by intro x c h; simp [Obj.get?] at h)]
  simp [Obj.get?]

theorem findDuplicates_eq_nil_iff (xs : List String) :
    findDuplicates xs = [] ↔ (countedNames xs).Nodup := by
  rw [List.nodup_iff_count_le_one]
  constructor
  · intro h a
    have := count_findDuplicates a xs
    rw [h] at this
    simp at this
    omega
  · intro h
    apply List.eq_nil_iff_forall_not_mem.mpr
    intro a ha
    have h1 := List.count_pos_iff.mpr ha
    have h2 := count_findDuplicates a xs
    have h3 := h a
    omega

/-! ## Lemmas on `collect` -/

theorem Obj.mem_of_get?_eq_some {V : Type} (o : Obj V) (k : String) (v : V)
    (h : Obj.get? o k = some v) : (k, v) ∈ o := by
  induction o with
  | nil => simp [Obj.get?] at h
  | cons p rest ih =>
    obtain ⟨a, b⟩ := p
    by_cases hak : a = k
    · simp [Obj.get?, hak] at h
      simp [hak, h]
    · simp [Obj.get?, hak] at h
      exact List.mem_cons_of_mem _ (ih h)

theorem Obj.get?_eq_some_of_mem {V : Type} (o : Obj V) (k : String) (v : V)
    (hnd : (Obj.keys o).Nodup) (h : (k, v) ∈ o) : Obj.get? o k = some v := by
  induction o with
  | nil => simp at h
  | cons p rest ih =>
    obtain ⟨a, b⟩ := p
    simp only [Obj.keys, List.map_cons, List.nodup_cons] at hnd
    rcases List.mem_cons.mp h with e | e
    · injection e with e1 e2
      simp [Obj.get?, e1, e2]
    · have hne : ¬ a = k := by
        intro e'
        apply hnd.1
        rw [e']
        exact List.mem_map.mpr ⟨(k, v), e, rfl⟩
      simp only [Obj.get?, hne, if_false]
      exact ih hnd.2 e

theorem functionNames_eq {V : Type} (items : List (Obj V)) :
    functionNames items = (items.map Obj.keys).flatten := by
  have gen : ∀ (l : List (Obj V)) (init : List String),
      l.foldl (fun acc itemSet => acc ++ Obj.keys itemSet) init
        = init ++ (l.map Obj.keys).flatten := by
    intro l
    induction l with
    | nil => intro init; simp
    | cons m rest ih => intro init; simp [ih]
  simpa [functionNames] using gen items []

theorem keys_flatten {V : Type} (items : List (Obj V)) :
    Obj.keys items.flatten = (items.map Obj.keys).flatten := by
  induction items with
  | nil => rfl
  | cons m rest ih => simp [Obj.keys_append, ih]

theorem nodup_functionNames_iff {V : Type} (items : List (Obj V))
    (hwf : ∀ m ∈ items, (Obj.keys m).Nodup) :
    (functionNames items).Nodup
      ↔ items.Pairwise (fun a b => ∀ k, k ∈ Obj.keys a → k ∉ Obj.keys b) := by
  rw [functionNames_eq, List.nodup_flatten, List.pairwise_map]
  constructor
  · intro h
    exact h.2.imp (fun hab k hk hk' => hab hk hk')
  · intro h
    refine ⟨?_, h.imp (fun hab k hk hk' => hab k hk hk')⟩
    intro l hl
    obtain ⟨m, hm, rfl⟩ := List.mem_map.mp hl
    exact hwf m hm

theorem collectedObject_eq_flatten {V : Type} (items : List (Obj V))
    (hwf : ∀ m ∈ items, (Obj.keys m).Nodup)
    (hdisj : items.Pairwise (fun a b => ∀ k, k ∈ Obj.keys a → k ∉ Obj.keys b)) :
    collectedObject items = items.flatten := by
  have gen : ∀ (l : List (Obj V)) (acc : Obj V), (Obj.keys acc).Nodup →
      (∀ m ∈ l, (Obj.keys m).Nodup) →
      (∀ m ∈ l, ∀ k, k ∈ Obj.keys acc → k ∉ Obj.keys m) →
      l.Pairwise (fun a b => ∀ k, k ∈ Obj.keys a → k ∉ Obj.keys b) →
      l.foldl (fun acc item => Obj.assign (Obj.assign [] acc) item) acc = acc ++ l.flatten := by
    intro l
    induction l with
    | nil => intro acc _ _ _ _; simp
    | cons m rest ih =>
      intro acc hacc hl hal hp
      rw [List.pairwise_cons] at hp
      have hm := hl m (List.mem_cons_self _ _)
      have hstep : Obj.assign (Obj.assign [] acc) m = acc ++ m := by
        rw [Obj.assign_nil_left acc hacc]
        exact Obj.assign_of_disjoint acc m hm (hal m (List.mem_cons_self _ _))
      have hnd : (Obj.keys (acc ++ m)).Nodup := by
        rw [Obj.keys_append]
        exact List.Nodup.append hacc hm (fun k hk hk' => hal m (List.mem_cons_self _ _) k hk hk')
      simp only [List.foldl_cons, hstep]
      rw [ih (acc ++ m) hnd (fun x hx => hl x (List.mem_cons_of_mem _ hx)) ?_ hp.2]
      · simp
      · intro x hx k hk hk'
        rw [Obj.keys_append] at hk
        rcases List.mem_append.mp hk with h | h
        · exact hal x (List.mem_cons_of_mem _ hx) k h hk'
        · exact hp.1 x hx k h hk'
  have := gen items [] (by simp [Obj.keys]) hwf (by intro m _ k hk; simp [Obj.keys] at hk) hdisj
  simpa [collectedObject] using this

theorem collect_eq {V : Type} (items : List (Obj V)) :
    collect items
      = if (findDuplicates (functionNames items)).length == 0 then
          .ok (collectedObject items)
        else
          .error (formatMessage (collectMessage (findDuplicates (functionNames items)))) := by
  unfold collect invariant
  simp only []
  split <;> rfl

theorem collect_eq_ok_iff {V : Type} (items : List (Obj V)) (r : Obj V) :
    collect items = .ok r
      ↔ (countedNames (functionNames items)).Nodup ∧ r = collectedObject items := by
  rw [collect_eq]
  by_cases h : findDuplicates (functionNames items) = []
  · have hn := (findDuplicates_eq_nil_iff _).mp h
    simp only [h, List.length_nil, beq_self_eq_true, if_true, hn, true_and]
    constructor
    · intro e
      injection e with e
      exact e.symm
    · intro e
      rw [e]
  · have hn : ¬ (countedNames (functionNames items)).Nodup :=
      fun e => h ((findDuplicates_eq_nil_iff _).mpr e)
    have hl : ((findDuplicates (functionNames items)).length == 0) = false := by
      simpa using h
    rw [hl]
    simp only [hn, false_and, iff_false]
    intro e
    cases e

theorem collect_eq_error_iff {V : Type} (items : List (Obj V)) (msg : String) :
    collect items = .error msg
      ↔ ¬ (countedNames (functionNames items)).Nodup
        ∧ msg = formatMessage (collectMessage (findDuplicates (functionNames items))) := by
  rw [collect_eq]
  by_cases h : findDuplicates (functionNames items) = []
  · have hn := (findDuplicates_eq_nil_iff _).mp h
    have hl : ((findDuplicates (functionNames items)).length == 0) = true := by
      simp [h]
    rw [hl]
    simp only [if_true, hn, not_true_eq_false, false_and, iff_false]
    intro e
    cases e
  · have hn : ¬ (countedNames (functionNames items)).Nodup :=
      fun e => h ((findDuplicates_eq_nil_iff _).mpr e)
    have hl : ((findDuplicates (functionNames items)).length == 0) = false := by
      simpa using h
    rw [hl]
    simp only [hn, not_false_eq_true, true_and]
    constructor
    · intro e
      injection e with e
      exact e.symm
    · intro e
      rw [e]
      rfl

theorem nodup_countedNames_of_nodup (xs : List String) (h : xs.Nodup) :
    (countedNames xs).Nodup :=
  List.Nodup.filter _ h

theorem pairwise_disjoint_iff_not_shared {V : Type} (items : List (Obj V)) :
    items.Pairwise (fun a b => ∀ k, k ∈ Obj.keys a → k ∉ Obj.keys b)
      ↔ ¬ ∃ k, SharedKey items k := by
  rw [List.pairwise_iff_getElem]
  constructor
  · rintro h ⟨k, i, j, a, b, hij, hi, hj, ha, hb⟩
    obtain ⟨hi', ea⟩ := List.getElem?_eq_some.mp hi
    obtain ⟨hj', eb⟩ := List.getElem?_eq_some.mp hj
    exact h i j hi' hj' hij k (ea ▸ ha) (eb ▸ hb)
  · intro h i j hi hj hij k ha hb
    exact h ⟨k, i, j, items[i], items[j], hij, List.getElem?_eq_getElem hi,
      List.getElem?_eq_getElem hj, ha, hb⟩

theorem count_functionNames {V : Type} (items : List (Obj V))
    (hwf : ∀ m ∈ items, (Obj.keys m).Nodup) (k : String) :
    (functionNames items).count k = holders items k := by
  rw [functionNames_eq]
  unfold holders
  induction items with
  | nil => simp
  | cons m rest ih =>
    have hm := hwf m (List.mem_cons_self _ _)
    have ihr := ih (fun x hx => hwf x (List.mem_cons_of_mem _ hx))
    simp only [List.map_cons, List.flatten_cons, List.count_append, ihr, List.countP_cons]
    by_cases hk : k ∈ Obj.keys m
    · have := List.count_eq_one_of_mem hm hk
      simp [hk, this]
      ring
    · have := List.count_eq_zero.mpr hk
      simp [hk, this]

theorem exists_two_of_countP {α : Type} (p : α → Bool) (l : List α) (h : 2 ≤ l.countP p) :
    ∃ (i j : Nat) (a b : α), i < j ∧ l[i]? = some a ∧ l[j]? = some b ∧ p a = true ∧ p b = true := by
  induction l with
  | nil => simp at h
  | cons x rest ih =>
    by_cases hx : p x = true
    · have h1 : 0 < rest.countP p := by
        rw [List.countP_cons_of_pos _ _ hx] at h
        omega
      obtain ⟨b, hb, hpb⟩ := List.countP_pos_iff.mp h1
      obtain ⟨n, hn, e⟩ := List.getElem_of_mem hb
      refine ⟨0, n + 1, x, b, Nat.succ_pos n, by simp, ?_, hx, hpb⟩
      rw [List.getElem?_cons_succ, List.getElem?_eq_getElem hn, e]
    · rw [List.countP_cons_of_neg _ _ hx] at h
      obtain ⟨i, j, a, b, hij, hi, hj, ha, hb⟩ := ih h
      refine ⟨i + 1, j + 1, a, b, Nat.succ_lt_succ hij, ?_, ?_, ha, hb⟩
      · rw [List.getElem?_cons_succ]
        exact hi
      · rw [List.getElem?_cons_succ]
        exact hj

theorem sharedKey_of_two_holders {V : Type} (items : List (Obj V)) (k : String)
    (h : 2 ≤ holders items k) : SharedKey items k := by
  obtain ⟨i, j, a, b, hij, hi, hj, ha, hb⟩ := exists_two_of_countP _ items h
  exact ⟨i, j, a, b, hij, hi, hj, by simpa using ha, by simpa using hb⟩

/-! ## Properties of `collect` -/

/-- C1: for maps with pairwise disjoint key sets, `collect` succeeds and returns the plain union:
the key set of the result is the union of the key sets, every key keeps the value it has in the
map that contains it, `collect()` is the empty map and `collect( m )` is `m`. -/
theorem collect_disjoint_union {V : Type} (items : List (Obj V))
    (hwf : ∀ m ∈ items, (Obj.keys m).Nodup)
    (hdisj : items.Pairwise (fun a b => ∀ k, k ∈ Obj.keys a → k ∉ Obj.keys b)) :
    ∃ r, collect items = .ok r
      ∧ r = items.flatten
      ∧ (Obj.keys r).Nodup
      ∧ (∀ k, k ∈ Obj.keys r ↔ ∃ m ∈ items, k ∈ Obj.keys m)
      ∧ (∀ m ∈ items, ∀ k v, Obj.get? m k = some v → Obj.get? r k = some v)
      ∧ (items = [] → r = [])
      ∧ (∀ m, items = [m] → r = m) := by
  have hnd : (functionNames items).Nodup := (nodup_functionNames_iff items hwf).mpr hdisj
  have hco := collectedObject_eq_flatten items hwf hdisj
  have hkn : (Obj.keys items.flatten).Nodup := by
    rw [keys_flatten, ← functionNames_eq]
    exact hnd
  refine ⟨items.flatten, ?_, rfl, hkn, ?_, ?_, ?_, ?_⟩
  · exact (collect_eq_ok_iff items _).mpr ⟨nodup_countedNames_of_nodup _ hnd, hco.symm⟩
  · intro k
    rw [keys_flatten, List.mem_flatten]
    constructor
    · rintro ⟨l, hl, hk⟩
      obtain ⟨m, hm, rfl⟩ := List.mem_map.mp hl
      exact ⟨m, hm, hk⟩
    · rintro ⟨m, hm, hk⟩
      exact ⟨Obj.keys m, List.mem_map.mpr ⟨m, hm, rfl⟩, hk⟩
  · intro m hm k v hg
    apply Obj.get?_eq_some_of_mem _ _ _ hkn
    exact List.mem_flatten.mpr ⟨m, hm, Obj.mem_of_get?_eq_some m k v hg⟩
  · intro e
    rw [e]
    rfl
  · intro m e
    rw [e]
    simp

theorem collect_disjoint_union_witness :
    ∃ r, collect [[("bar", 1), ("foo", 2)], [("cat", 3), ("dog", 4)]] = .ok r
      ∧ r = [[("bar", 1), ("foo", 2)], [("cat", 3), ("dog", 4)]].flatten
      ∧ (Obj.keys r).Nodup
      ∧ (∀ k, k ∈ Obj.keys r
          ↔ ∃ m ∈ [[("bar", 1), ("foo", 2)], [("cat", 3), ("dog", 4)]], k ∈ Obj.keys m)
      ∧ (∀ m ∈ [[("bar", 1), ("foo", 2)], [("cat", 3), ("dog", 4)]], ∀ k v,
          Obj.get? m k = some v → Obj.get? r k = some v)
      ∧ ([[("bar", 1), ("foo", 2)], [("cat", 3), ("dog", 4)]] = [] → r = [])
      ∧ (∀ m, [[("bar", 1), ("foo", 2)], [("cat", 3), ("dog", 4)]] = [m] → r = m) :=
  collect_disjoint_union [[("bar", 1), ("foo", 2)], [("cat", 3), ("dog", 4)]]
    (by decide) (by decide)

theorem two_holders_of_sharedKey {V : Type} (items : List (Obj V)) (k : String)
    (h : SharedKey items k) : 2 ≤ holders items k := by
  obtain ⟨i, j, a, b, hij, hi, hj, ha, hb⟩ := h
  unfold holders
  induction items generalizing i j with
  | nil => simp at hi
  | cons x rest ih =>
    cases j with
    | zero => omega
    | succ j' =>
      rw [List.getElem?_cons_succ] at hj
      cases i with
      | zero =>
        simp only [List.getElem?_cons_zero, Option.some.injEq] at hi
        subst hi
        have hbm : b ∈ rest := by
          obtain ⟨hlt, e⟩ := List.getElem?_eq_some.mp hj
          exact e ▸ List.getElem_mem hlt
        have hpos : 0 < rest.countP (fun m => decide (k ∈ Obj.keys m)) :=
          List.countP_pos_iff.mpr ⟨b, hbm, by simpa using hb⟩
        simp only [List.countP_cons, ha, decide_True, if_true]
        omega
      | succ i' =>
        rw [List.getElem?_cons_succ] at hi
        have := ih i' j' (by omega) hi hj
        simp only [List.countP_cons]
        omega

theorem mem_functionNames {V : Type} (items : List (Obj V)) (k : String) :
    k ∈ functionNames items ↔ ∃ m ∈ items, k ∈ Obj.keys m := by
  rw [functionNames_eq, List.mem_flatten]
  constructor
  · rintro ⟨l, hl, hk⟩
    obtain ⟨m, hm, rfl⟩ := List.mem_map.mp hl
    exact ⟨m, hm, hk⟩
  · rintro ⟨m, hm, hk⟩
    exact ⟨Obj.keys m, List.mem_map.mpr ⟨m, hm, rfl⟩, hk⟩

theorem nodup_countedNames_iff {V : Type} (items : List (Obj V))
    (hwf : ∀ m ∈ items, (Obj.keys m).Nodup) :
    (countedNames (functionNames items)).Nodup
      ↔ ¬ ∃ k, k ≠ "__proto__" ∧ SharedKey items k := by
  rw [List.nodup_iff_count_le_one]
  constructor
  · rintro h ⟨k, hk, hs⟩
    have h2 := two_holders_of_sharedKey items k hs
    have h1 := h k
    rw [count_countedNames k _ hk, count_functionNames items hwf] at h1
    omega
  · intro h k
    by_cases hk : k = "__proto__"
    · subst hk
      rw [List.count_eq_zero.mpr (proto_not_mem_countedNames _)]
      exact Nat.zero_le _
    · rw [count_countedNames k _ hk, count_functionNames items hwf]
      by_contra hlt
      exact h ⟨k, hk, sharedKey_of_two_holders items k (by omega)⟩

/-- The general behaviour of `collect`: it fails with its invariant violation exactly when some
key other than `__proto__` occurs in two of the input maps, whatever the positions of the two
maps. -/
theorem collect_fails_iff_shared {V : Type} (items : List (Obj V))
    (hwf : ∀ m ∈ items, (Obj.keys m).Nodup) :
    ((∃ k, k ≠ "__proto__" ∧ SharedKey items k) →
        collect items
          = .error (formatMessage (collectMessage (findDuplicates (functionNames items)))))
      ∧ ((¬ ∃ k, k ≠ "__proto__" ∧ SharedKey items k) → ∃ r, collect items = .ok r) := by
  constructor
  · intro h
    apply (collect_eq_error_iff items _).mpr
    exact ⟨fun hnd => (nodup_countedNames_iff items hwf).mp hnd h, rfl⟩
  · intro h
    exact ⟨collectedObject items,
      (collect_eq_ok_iff items _).mpr ⟨(nodup_countedNames_iff items hwf).mpr h, rfl⟩⟩

/-- C2: `collect` does not fail on every shared key.  The two maps that `JSON.parse` creates
from `{"__proto__": 1}` and `{"__proto__": 2}` share the key `__proto__`; `findDuplicates` does
not report it, and `collect` returns a map, the second value under the key, where its
documentation promises an error. -/
theorem collect_misses_proto :
    SharedKey [[("__proto__", 1)], [("__proto__", 2)]] "__proto__"
      ∧ findDuplicates (functionNames [[("__proto__", 1)], [("__proto__", 2)]]) = []
      ∧ collect [[("__proto__", 1)], [("__proto__", 2)]] = .ok [("__proto__", 2)] :=
  ⟨⟨0, 1, [("__proto__", 1)], [("__proto__", 2)], by decide, rfl, rfl, by decide, by decide⟩,
    by decide, rfl⟩

/-- C3, as stated, fails: a key held by three maps is named twice in the failure message. -/
theorem collect_names_key_twice :
    collect [[("a", 1)], [("a", 2)], [("a", 3)]] = .error (collectMessage ["a", "a"])
      ∧ SharedKey [[("a", 1)], [("a", 2)], [("a", 3)]] "a"
      ∧ (findDuplicates (functionNames [[("a", 1)], [("a", 2)], [("a", 3)]])).count "a" ≠ 1 := by
  refine ⟨?_, ⟨0, 1, [("a", 1)], [("a", 2)], by decide, rfl, rfl, by decide, by decide⟩, ?_⟩
  · have hd : findDuplicates (functionNames [[("a", 1)], [("a", 2)], [("a", 3)]])
        = ["a", "a"] := by decide
    rw [collect_eq, hd, formatMessage_collectMessage ["a", "a"] (by decide)]
    rfl
  · decide

/-- C3, amended: when some key other than `__proto__` is duplicated, the failure message of
`collect` is the message of its invariant for the array returned by `findDuplicates`, as it is
written when no key contains `%s`; in that array a key other than `__proto__` is named once for
every input map that holds it beyond the first, so a key held by exactly two maps is named
exactly once, and a key that is not duplicated is not named. -/
theorem collect_message_names {V : Type} (items : List (Obj V))
    (hwf : ∀ m ∈ items, (Obj.keys m).Nodup)
    (hdup : ∃ k, k ≠ "__proto__" ∧ SharedKey items k) :
    collect items
        = .error (formatMessage (collectMessage (findDuplicates (functionNames items))))
      ∧ ((∀ m ∈ items, ∀ k ∈ Obj.keys m, ¬ ['%', 's'] <:+: k.toList) →
          collect items = .error (collectMessage (findDuplicates (functionNames items))))
      ∧ (∀ k, k ≠ "__proto__" →
          (findDuplicates (functionNames items)).count k = holders items k - 1)
      ∧ (∀ k, k ≠ "__proto__" → holders items k = 2 →
          (findDuplicates (functionNames items)).count k = 1)
      ∧ (∀ k, ¬ SharedKey items k → k ∉ findDuplicates (functionNames items)) := by
  have hcount : ∀ k, k ≠ "__proto__" →
      (findDuplicates (functionNames items)).count k = holders items k - 1 := by
    intro k hk
    rw [count_findDuplicates, count_countedNames k _ hk, count_functionNames items hwf]
  have hmem : ∀ k, k ∈ findDuplicates (functionNames items) →
      k ≠ "__proto__" ∧ k ∈ functionNames items ∧ 2 ≤ holders items k := by
    intro k hk
    have hpos := List.count_pos_iff.mpr hk
    rw [count_findDuplicates] at hpos
    have hin : k ∈ countedNames (functionNames items) :=
      List.count_pos_iff.mp (by omega)
    have hne : k ≠ "__proto__" := fun e => proto_not_mem_countedNames _ (e ▸ hin)
    rw [count_countedNames k _ hne, count_functionNames items hwf] at hpos
    exact ⟨hne, (List.mem_filter.mp hin).1, by omega⟩
  have herr := (collect_fails_iff_shared items hwf).1 hdup
  refine ⟨herr, ?_, hcount, ?_, ?_⟩
  · intro hfmt
    rw [herr, formatMessage_collectMessage]
    intro k hk
    obtain ⟨m, hm, hkm⟩ := (mem_functionNames items k).mp (hmem k hk).2.1
    exact hfmt m hm k hkm
  · intro k hne hk
    rw [hcount k hne, hk]
  · intro k hk hmem'
    exact hk (sharedKey_of_two_holders items k (hmem k hmem').2.2)

theorem collect_message_names_witness :
    collect [[("cat", 1), ("feline", 2), ("mouse", 3)], [("cat", 4), ("feline", 5), ("dog", 6)]]
        = .error (collectMessage (findDuplicates (functionNames
            [[("cat", 1), ("feline", 2), ("mouse", 3)],
              [("cat", 4), ("feline", 5), ("dog", 6)]])))
      ∧ findDuplicates (functionNames
            [[("cat", 1), ("feline", 2), ("mouse", 3)],
              [("cat", 4), ("feline", 5), ("dog", 6)]]) = ["cat", "feline"] :=
  ⟨(collect_message_names
      [[("cat", 1), ("feline", 2), ("mouse", 3)], [("cat", 4), ("feline", 5), ("dog", 6)]]
      (by decide)
      ⟨"cat", by decide, 0, 1, [("cat", 1), ("feline", 2), ("mouse", 3)],
        [("cat", 4), ("feline", 5), ("dog", 6)], by decide, rfl, rfl, by decide,
        by decide⟩).2.1 (by decide),
    by decide⟩

/-! ## Properties of `collectReducers` and `addInitializeReducer` -/

theorem Val.orDefault_of_ne (v d : Val) (h : v ≠ .undefined) : v.orDefault d = v := by
  cases v <;> first | rfl | exact absurd rfl h

theorem foldlM_call_fn (rs : List Reducer) (s a : Val) :
    (rs.map Arg.fn).foldlM (fun newState reducer => reducer.call newState a) s = chain rs s a := by
  induction rs generalizing s with
  | nil => rfl
  | cons r rest ih =>
    simp only [List.map_cons, List.foldlM_cons, chain, Arg.call]
    cases r s a with
    | error e => rfl
    | ok s' => exact ih s'

theorem collectReducers_val (v : Val) (rs : List Reducer) (s a : Val) :
    collectReducers (Arg.val v :: rs.map Arg.fn) s a
      = chain rs (s.orDefault v) (a.orDefault (.obj [])) := by
  simp only [collectReducers]
  exact foldlM_call_fn rs _ _

theorem collectReducers_fn (rs : List Reducer) (s a : Val) :
    collectReducers (rs.map Arg.fn) s a
      = chain rs (s.orDefault .undefined) (a.orDefault (.obj [])) := by
  cases rs with
  | nil => rfl
  | cons r rest =>
    have h := foldlM_call_fn (r :: rest) (s.orDefault .undefined) (a.orDefault (.obj []))
    simp only [List.map_cons] at h
    simp only [collectReducers, List.map_cons]
    rw [← h]

theorem chain_pass (rs : List Reducer) (s a : Val) (h : ∀ r ∈ rs, r s a = .ok s) :
    chain rs s a = .ok s := by
  induction rs with
  | nil => rfl
  | cons r rest ih =>
    simp only [chain, h r (List.mem_cons_self _ _)]
    exact ih (fun x hx => h x (List.mem_cons_of_mem _ hx))

theorem collectReducers_argsOf (s0 : Option Val) (rs : List Reducer) (s a : Val) :
    collectReducers (argsOf s0 rs) s a
      = chain rs (s.orDefault (s0.getD .undefined)) (a.orDefault (.obj [])) := by
  cases s0 with
  | none =>
    have h := collectReducers_fn rs s a
    simp only [argsOf, List.nil_append, Option.getD_none]
    exact h
  | some v =>
    have h := collectReducers_val v rs s a
    simp only [argsOf, List.singleton_append, Option.getD_some]
    exact h

/-- C4: `collectReducers( s0, r1, ..., rn )( s, a )` is `rn( ... r1( s, a ) ..., a )`: the
reducers are applied once each, in argument order, each to the state returned by the previous
one and all with the same action (`{}` when none is supplied).  The fold starts from the
supplied state, and from `s0` (`undefined` when the first argument is a function) when no state
is supplied. -/
theorem collectReducers_eq_chain (s0 : Option Val) (rs : List Reducer) (s a : Val) :
    collectReducers (argsOf s0 rs) s a
      = chain rs (s.orDefault (s0.getD .undefined)) (a.orDefault (.obj [])) := by
  cases s0 with
  | none =>
    simp only [argsOf, List.nil_append, Option.getD_none]
    exact collectReducers_fn rs s a
  | some v =>
    simp only [argsOf, List.singleton_append, Option.getD_some]
    exact collectReducers_val v rs s a

/-- C5: when every reducer of the chain returns the state `s` as it is for the action `a`
(the action is recognised by none of them), the combined reducer returns `s`. -/
theorem collectReducers_pass_through (s0 : Option Val) (rs : List Reducer) (s a : Val)
    (hs : s ≠ .undefined) (ha : a ≠ .undefined) (hpass : ∀ r ∈ rs, r s a = .ok s) :
    collectReducers (argsOf s0 rs) s a = .ok s := by
  rw [collectReducers_argsOf]
  rw [Val.orDefault_of_ne s _ hs, Val.orDefault_of_ne a _ ha]
  exact chain_pass rs s a hpass

theorem collectReducers_pass_through_witness :
    collectReducers (argsOf (some (.obj [("count", .num 0)])) [fakeReducer, fakeReducerTwo])
        (.obj [("count", .num 0), ("one", .bool true), ("two", .num 2)]) initializeAction
      = .ok (.obj [("count", .num 0), ("one", .bool true), ("two", .num 2)]) :=
  collectReducers_pass_through (some (.obj [("count", .num 0)])) [fakeReducer, fakeReducerTwo]
    (.obj [("count", .num 0), ("one", .bool true), ("two", .num 2)]) initializeAction
    (by intro h; cases h) (by intro h; cases h)
    (by
      intro r hr
      simp only [List.mem_cons, List.mem_singleton, List.not_mem_nil, or_false] at hr
      rcases hr with rfl | rfl <;> rfl)

/-- C6: the reducer returned by `collectReducers( s0, r1, ..., rn )`, called with no state and no
action, calls the reducers on `s0` with the action `{}`, which has no type; when they pass `s0`
through for that action it returns a state equal to `s0`. -/
theorem collectReducers_no_arguments (s0 : Val) (rs : List Reducer)
    (hpass : ∀ r ∈ rs, r s0 (.obj []) = .ok s0) :
    collectReducers (Arg.val s0 :: rs.map Arg.fn) .undefined .undefined = .ok s0
      ∧ (∀ r : Reducer, collectReducers [Arg.val s0, Arg.fn r] .undefined .undefined
          = r s0 (.obj []))
      ∧ Val.getProp (.obj []) "type" = .ok .undefined := by
  refine ⟨?_, ?_, rfl⟩
  · rw [collectReducers_val]
    exact chain_pass rs s0 (.obj []) hpass
  · intro r
    have h := collectReducers_val s0 [r] .undefined .undefined
    simp only [List.map_cons, List.map_nil] at h
    rw [h]
    have e1 : Val.undefined.orDefault s0 = s0 := rfl
    have e2 : Val.undefined.orDefault (.obj []) = .obj [] := rfl
    rw [e1, e2]
    simp only [chain]
    cases r s0 (.obj []) <;> rfl

theorem collectReducers_no_arguments_witness :
    collectReducers (Arg.val (.obj [("count", .num 0)])
        :: [fakeReducer, fakeReducerTwo].map Arg.fn) .undefined .undefined
        = .ok (.obj [("count", .num 0)])
      ∧ (∀ r : Reducer,
          collectReducers [Arg.val (.obj [("count", .num 0)]), Arg.fn r] .undefined .undefined
            = r (.obj [("count", .num 0)]) (.obj []))
      ∧ Val.getProp (.obj []) "type" = .ok .undefined :=
  collectReducers_no_arguments (.obj [("count", .num 0)]) [fakeReducer, fakeReducerTwo]
    (by
      intro r hr
      simp only [List.mem_cons, List.mem_singleton, List.not_mem_nil, or_false] at hr
      rcases hr with rfl | rfl <;> rfl)

/-- C7: for an initial state `s0` (an object), a reducer `r` that does not fail on the
`INITIALIZE` action and any current state `s`, `addInitializeReducer( s0, r )` applied to `s` and
`initializeAction()` returns a state equal to `s0`. -/
theorem addInitializeReducer_resets (ps : Obj Val) (hwf : (Obj.keys ps).Nodup) (r : Reducer)
    (hr : ∀ st, ∃ st', r st initializeAction = .ok st') (s : Val) :
    addInitializeReducer (.obj ps) (Arg.fn r) s initializeAction = .ok (.obj ps) := by
  have h := collectReducers_val (.obj ps) [r, initializeReducer (.obj ps)] s initializeAction
  simp only [List.map_cons, List.map_nil] at h
  unfold addInitializeReducer
  rw [h]
  obtain ⟨st', hst⟩ := hr (s.orDefault (.obj ps))
  have hact : initializeAction.orDefault (.obj []) = initializeAction := rfl
  rw [hact]
  simp only [chain, hst, Except.bind]
  have hsp : Val.spread (.obj ps) = ps := Obj.assign_nil_left ps hwf
  have hinit : initializeReducer (.obj ps) st' initializeAction = .ok (.obj ps) := by
    have : initializeReducer (.obj ps) st' initializeAction
        = .ok (.obj (Val.spread (.obj ps))) := rfl
    rw [this, hsp]
  rw [hinit]

theorem addInitializeReducer_resets_witness :
    addInitializeReducer (.obj [("count", .num 0)])
        (Arg.fn (collectReducers [Arg.fn fakeReducer, Arg.fn fakeReducerTwo]))
        (.obj [("count", .num 0), ("one", .bool true), ("two", .num 2)]) initializeAction
      = .ok (.obj [("count", .num 0)]) :=
  addInitializeReducer_resets [("count", .num 0)] (by decide)
    (collectReducers [Arg.fn fakeReducer, Arg.fn fakeReducerTwo])
    (by intro st; cases st <;> exact ⟨_, rfl⟩)
    (.obj [("count", .num 0), ("one", .bool true), ("two", .num 2)])

/-! ## Properties of `collectName` -/

theorem length_findDuplicates (xs : List String) :
    (findDuplicates xs).length + (countedNames xs).dedup.length = (countedNames xs).length := by
  have hp : (findDuplicates xs ++ (countedNames xs).dedup).Perm (countedNames xs) := by
    rw [List.perm_iff_count]
    intro k
    rw [List.count_append, count_findDuplicates, List.count_dedup]
    by_cases hk : k ∈ countedNames xs
    · have := List.count_pos_iff.mpr hk
      simp only [hk, if_true]
      omega
    · have := List.count_eq_zero.mpr hk
      simp [hk, this]
  have := hp.length_eq
  simpa using this

theorem collectName_eq (names : List String) :
    collectName names
      = if ((findDuplicates names).length : Int) = (names.length : Int) - 1
        then .ok names.head?
        else .error "collectName() must not receive different names." := by
  have hm : formatMessage "collectName() must not receive different names."
      = "collectName() must not receive different names." :=
    formatMessage_of_no_placeholder _ (no_placeholder_of_not_mem _ (by decide))
  unfold collectName invariant
  by_cases h : ((findDuplicates names).length : Int) = (names.length : Int) - 1
  · simp only [h, decide_True, if_true]
    rfl
  · simp only [h, decide_False, if_false, hm]
    rfl

/-- The general behaviour of `collectName`: it returns the single name when all the names it
receives are equal and are not `__proto__`, and fails with
`collectName() must not receive different names.` when two of them differ. -/
theorem collectName_single_or_fail (names : List String) :
    (∀ x, x ≠ "__proto__" → names ≠ [] → (∀ y ∈ names, y = x) →
        collectName names = .ok (some x))
      ∧ ((∃ x ∈ names, ∃ y ∈ names, x ≠ y) →
          collectName names = .error "collectName() must not receive different names.") := by
  have hlen := length_findDuplicates names
  constructor
  · intro x hxp hne hall
    have hno : "__proto__" ∉ names := fun h => hxp (hall _ h).symm
    rw [countedNames_of_not_mem names hno] at hlen
    have hx : names.head? = some x := by
      cases names with
      | nil => exact absurd rfl hne
      | cons a rest => simp [hall a (List.mem_cons_self _ _)]
    have hd : names.dedup.length = 1 := by
      have hsub : names.dedup ⊆ [x] := by
        intro y hy
        simp [hall y (List.mem_dedup.mp hy)]
      have hle := (List.subperm_of_subset (List.nodup_dedup names) hsub).length_le
      have hpos : 0 < names.dedup.length := by
        cases names with
        | nil => exact absurd rfl hne
        | cons a rest =>
          exact List.length_pos_of_mem (List.mem_dedup.mpr (List.mem_cons_self a rest))
      simp only [List.length_singleton] at hle
      omega
    rw [collectName_eq, hx]
    have : ((findDuplicates names).length : Int) = (names.length : Int) - 1 := by omega
    simp [this]
  · rintro ⟨x, hx, y, hy, hxy⟩
    have hle : (countedNames names).length ≤ names.length := List.length_filter_le _ _
    have hbound : (findDuplicates names).length + 2 ≤ names.length := by
      by_cases hp : "__proto__" ∈ names
      · have hlt : (countedNames names).length < names.length := by
          unfold countedNames
          rw [List.length_filter_lt_length_iff_exists]
          exact ⟨"__proto__", hp, by simp⟩
        have hz : ∃ z ∈ names, z ≠ "__proto__" := by
          by_cases hxp : x = "__proto__"
          · exact ⟨y, hy, fun e => hxy (hxp.trans e.symm)⟩
          · exact ⟨x, hx, hxp⟩
        obtain ⟨z, hz, hzp⟩ := hz
        have hzc : z ∈ countedNames names :=
          List.mem_filter.mpr ⟨hz, by simpa using hzp⟩
        have hpos : 0 < (countedNames names).dedup.length :=
          List.length_pos_of_mem (List.mem_dedup.mpr hzc)
        omega
      · rw [countedNames_of_not_mem names hp] at hlen
        have hd : 2 ≤ names.dedup.length := by
          have hsub : [x, y] ⊆ names.dedup := by
            intro z hz
            simp only [List.mem_cons, List.mem_singleton, List.not_mem_nil, or_false] at hz
            rcases hz with rfl | rfl
            · exact List.mem_dedup.mpr hx
            · exact List.mem_dedup.mpr hy
          have hnd : [x, y].Nodup := by simp [hxy]
          exact (List.subperm_of_subset hnd hsub).length_le
        omega
    rw [collectName_eq]
    have : ¬ ((findDuplicates names).length : Int) = (names.length : Int) - 1 := by omega
    simp [this]

/-- C8: `collectName` does not return the single name for every list of equal names: for the
name `__proto__` given twice, `findDuplicates` reports no duplicate, the invariant compares 0
with 1, and `collectName` fails where its documentation promises the single store name. -/
theorem collectName_proto_throws :
    findDuplicates ["__proto__", "__proto__"] = []
      ∧ collectName ["__proto__", "__proto__"]
          = .error "collectName() must not receive different names."
      ∧ collectName ["core/site", "core/site"] = .ok (some "core/site") := by
  refine ⟨by decide, ?_, ?_⟩
  · rw [collectName_eq]
    rfl
  · rw [collectName_eq]
    rfl

/-! ## Properties of the connection store -/

theorem Obj.keys_set {V : Type} (o : Obj V) (k : String) (v : V) :
    Obj.keys (Obj.set o k v) = if k ∈ Obj.keys o then Obj.keys o else Obj.keys o ++ [k] := by
  induction o with
  | nil => simp [Obj.set, Obj.keys]
  | cons p rest ih =>
    obtain ⟨a, b⟩ := p
    by_cases h : a = k
    · simp [Obj.set, Obj.keys, h]
    · have h' : ¬ k = a := fun e => h e.symm
      simp only [Obj.set, h, if_false, Obj.keys, List.map_cons, List.mem_cons, h', false_or]
      simp only [Obj.keys] at ih
      rw [ih]
      by_cases hk : k ∈ List.map Prod.fst rest <;> simp [hk]

theorem Obj.nodup_keys_set {V : Type} (o : Obj V) (k : String) (v : V)
    (h : (Obj.keys o).Nodup) : (Obj.keys (Obj.set o k v)).Nodup := by
  rw [Obj.keys_set]
  by_cases hk : k ∈ Obj.keys o
  · simpa [hk] using h
  · simp only [hk, if_false]
    exact List.Nodup.append h (List.nodup_singleton k)
      (fun x hx hx' => hk (by simpa using (List.mem_singleton.mp hx') ▸ hx))

theorem Obj.nodup_keys_assign {V : Type} (acc item : Obj V) (h : (Obj.keys acc).Nodup) :
    (Obj.keys (Obj.assign acc item)).Nodup := by
  induction item generalizing acc with
  | nil => simpa [Obj.assign] using h
  | cons p rest ih =>
    have step : Obj.assign acc (p :: rest) = Obj.assign (Obj.set acc p.1 p.2) rest := by
      simp [Obj.assign]
    rw [step]
    exact ih _ (Obj.nodup_keys_set acc p.1 p.2 h)

theorem Val.nodup_keys_spread (v : Val) : (Obj.keys (Val.spread v)).Nodup :=
  Obj.nodup_keys_assign [] _ (by simp [Obj.keys])

theorem Val.spread_of_nodup (v : Val) (h : (Obj.keys v.ownProps).Nodup) :
    Val.spread v = v.ownProps :=
  Obj.assign_nil_left _ h

theorem Val.spread_obj_spread (v : Val) : Val.spread (.obj (Val.spread v)) = Val.spread v :=
  Obj.assign_nil_left _ (Val.nodup_keys_spread v)

theorem Val.getProp_obj (ps : Obj Val) (k : String) :
    Val.getProp (.obj ps) k = .ok ((Obj.get? ps k).getD .undefined) := rfl

theorem Val.getProp_eq_ok (v c : Val) (k : String) (h : Val.getProp v k = .ok c) :
    c = (Obj.get? v.ownProps k).getD .undefined := by
  cases v with
  | undefined => cases h
  | null => cases h
  | bool b => injection h with h; exact h.symm
  | num n => injection h with h; exact h.symm
  | str t => injection h with h; exact h.symm
  | obj ps => injection h with h; exact h.symm
  | arr xs => injection h with h; exact h.symm

theorem reducer_fetchConnection (state : Val) :
    reducer state fetchConnection
      = .ok (.obj (Obj.set (Val.spread state) "isFetchingConnection" (.bool true))) := rfl

theorem reducer_receiveConnectionFailed (state : Val) :
    reducer state receiveConnectionFailed
      = .ok (.obj (Obj.set (Val.spread state) "isFetchingConnection" (.bool false))) := rfl

theorem reducer_getRegistry (state : Val) :
    reducer state getRegistry = .ok (.obj (Val.spread state)) := rfl

theorem reducer_receiveConnection (state c : Val) :
    reducer state
        (.obj [("payload", .obj [("connection", c)]), ("type", .str RECEIVE_CONNECTION)])
      = .ok (.obj (Obj.set (Obj.set (Val.spread state) "isFetchingConnection" (.bool false))
          "connection" c)) := rfl

/-- C9: the connection reducer applied to `fetchConnection()` yields a state with
`isFetchingConnection` true and the `connection` of the state it was given (so `undefined` when
it was `undefined`); applied to `receiveConnection( c )` it yields a state with
`isFetchingConnection` false and `connection` equal to `c`, as it does for any
`RECEIVE_CONNECTION` action whose payload holds `c`. -/
theorem reducer_fetch_and_receive (state : Val) :
    ((Obj.keys state.ownProps).Nodup →
        ∃ st, reducer state fetchConnection = .ok st
          ∧ Val.getProp st "isFetchingConnection" = .ok (.bool true)
          ∧ ∀ c, Val.getProp state "connection" = .ok c → Val.getProp st "connection" = .ok c)
      ∧ (∀ c : Val, c.truthy = true →
          ∃ action st, receiveConnection c = .ok action ∧ reducer state action = .ok st
            ∧ Val.getProp st "isFetchingConnection" = .ok (.bool false)
            ∧ Val.getProp st "connection" = .ok c)
      ∧ (∀ c : Val, ∃ st,
          reducer state
              (.obj [("payload", .obj [("connection", c)]), ("type", .str RECEIVE_CONNECTION)])
            = .ok st
            ∧ Val.getProp st "isFetchingConnection" = .ok (.bool false)
            ∧ Val.getProp st "connection" = .ok c) := by
  refine ⟨?_, ?_, ?_⟩
  · intro hwf
    refine ⟨_, reducer_fetchConnection state, ?_, ?_⟩
    · rw [Val.getProp_obj, Obj.get?_set]
      rfl
    · intro c hc
      rw [Val.getProp_obj, Obj.get?_set, Val.spread_of_nodup state hwf,
        Val.getProp_eq_ok state c "connection" hc]
      rfl
  · intro c hc
    refine ⟨_, _, ?_, reducer_receiveConnection state c, ?_, ?_⟩
    · simp only [receiveConnection, invariant, hc, if_true]
      rfl
    · rw [Val.getProp_obj, Obj.get?_set, Obj.get?_set]
      rfl
    · rw [Val.getProp_obj, Obj.get?_set]
      rfl
  · intro c
    refine ⟨_, reducer_receiveConnection state c, ?_, ?_⟩
    · rw [Val.getProp_obj, Obj.get?_set, Obj.get?_set]
      rfl
    · rw [Val.getProp_obj, Obj.get?_set]
      rfl

theorem reducer_fetch_and_receive_witness :
    (∃ st, reducer INITIAL_STATE fetchConnection = .ok st
        ∧ Val.getProp st "isFetchingConnection" = .ok (.bool true)
        ∧ ∀ c, Val.getProp INITIAL_STATE "connection" = .ok c → Val.getProp st "connection" = .ok c)
      ∧ (∃ action st, receiveConnection (.obj [("connected", .bool true)]) = .ok action
          ∧ reducer INITIAL_STATE action = .ok st
          ∧ Val.getProp st "isFetchingConnection" = .ok (.bool false)
          ∧ Val.getProp st "connection" = .ok (.obj [("connected", .bool true)])) :=
  ⟨(reducer_fetch_and_receive INITIAL_STATE).1 (by decide),
    (reducer_fetch_and_receive INITIAL_STATE).2.1 (.obj [("connected", .bool true)]) rfl⟩

/-- C10, as stated, fails: after the failure path of the resolver the state has no `error`
field holding the rejection payload, whether all the actions of the run are reduced or only the
action it returns. -/
theorem resolver_failure_drops_error :
    (¬ ∃ st, dispatchAll reducer INITIAL_STATE
          (getConnectionResolver INITIAL_STATE (.error (.str "rejected"))).actions = .ok st
        ∧ Val.getProp st "isFetchingConnection" = .ok (.bool false)
        ∧ Val.getProp st "error" = .ok (.str "rejected"))
      ∧ (¬ ∃ st, dispatchAll reducer INITIAL_STATE
          (getConnectionResolver INITIAL_STATE (.error (.str "rejected"))).returned.toList = .ok st
        ∧ Val.getProp st "isFetchingConnection" = .ok (.bool false)
        ∧ Val.getProp st "error" = .ok (.str "rejected")) := by
  have h' : Val.getProp INITIAL_STATE "error" = .ok .undefined := rfl
  constructor
  · rintro ⟨st, h1, _, h3⟩
    have h : dispatchAll reducer INITIAL_STATE
        (getConnectionResolver INITIAL_STATE (.error (.str "rejected"))).actions
          = .ok INITIAL_STATE := rfl
    rw [h] at h1
    injection h1 with h1
    subst h1
    rw [h'] at h3
    injection h3 with h3
    cases h3
  · rintro ⟨st, h1, _, h3⟩
    have h : dispatchAll reducer INITIAL_STATE
        (getConnectionResolver INITIAL_STATE (.error (.str "rejected"))).returned.toList
          = .ok INITIAL_STATE := rfl
    rw [h] at h1
    injection h1 with h1
    subst h1
    rw [h'] at h3
    injection h3 with h3
    cases h3

/-- C10, amended: when the connection fetch started by the resolver is rejected, the resolver
returns `receiveConnectionFailed()`, which carries no payload; after the actions of the run are
reduced (all of them in order, or the returned one alone) the state has `isFetchingConnection`
false and every other field, `error` included, as it was before: the rejection payload is not
stored. -/
theorem resolver_failure_state (state e c : Val) (hwf : (Obj.keys state.ownProps).Nodup)
    (hc : Val.getProp state "connection" = .ok c) (hfalsy : c.truthy = false) :
    (getConnectionResolver state (.error e)).returned = some receiveConnectionFailed
      ∧ (∃ st, dispatchAll reducer state (getConnectionResolver state (.error e)).actions = .ok st
          ∧ Val.getProp st "isFetchingConnection" = .ok (.bool false)
          ∧ ∀ k, k ≠ "isFetchingConnection" → Val.getProp st k = Val.getProp state k)
      ∧ (∃ st, dispatchAll reducer state
            (getConnectionResolver state (.error e)).returned.toList = .ok st
          ∧ Val.getProp st "isFetchingConnection" = .ok (.bool false)
          ∧ ∀ k, k ≠ "isFetchingConnection" → Val.getProp st k = Val.getProp state k) := by
  have hres : getConnectionResolver state (.error e)
      = ⟨[getRegistry, fetchConnection], some receiveConnectionFailed⟩ := by
    simp only [getConnectionResolver, hc, hfalsy]
    rfl
  have hown : ∀ k, Val.getProp state k = .ok ((Obj.get? state.ownProps k).getD .undefined) := by
    intro k
    cases state with
    | undefined => cases hc
    | null => cases hc
    | bool b => rfl
    | num n => rfl
    | str t => rfl
    | obj ps => rfl
    | arr xs => rfl
  have hrun : dispatchAll reducer state [getRegistry, fetchConnection, receiveConnectionFailed]
      = .ok (.obj (Obj.set (Obj.set state.ownProps "isFetchingConnection" (.bool true))
          "isFetchingConnection" (.bool false))) := by
    have hn1 : (Obj.keys (Obj.set (Val.spread state) "isFetchingConnection"
        (Val.bool true))).Nodup :=
      Obj.nodup_keys_set _ _ _ (Val.nodup_keys_spread state)
    have e2 : Val.spread (.obj (Obj.set (Val.spread state) "isFetchingConnection"
        (Val.bool true))) = Obj.set (Val.spread state) "isFetchingConnection" (Val.bool true) :=
      Obj.assign_nil_left _ hn1
    simp only [dispatchAll, List.foldlM_cons, List.foldlM_nil, reducer_getRegistry,
      reducer_fetchConnection, reducer_receiveConnectionFailed, bind, Except.bind, pure,
      Except.pure, Val.spread_obj_spread, e2]
    rw [Val.spread_of_nodup state hwf]
  have hret : dispatchAll reducer state [receiveConnectionFailed]
      = .ok (.obj (Obj.set state.ownProps "isFetchingConnection" (.bool false))) := by
    simp only [dispatchAll, List.foldlM_cons, List.foldlM_nil, reducer_receiveConnectionFailed,
      bind, Except.bind, pure, Except.pure]
    rw [Val.spread_of_nodup state hwf]
  rw [hres]
  refine ⟨rfl, ⟨_, hrun, ?_, ?_⟩, ⟨_, hret, ?_, ?_⟩⟩
  · rw [Val.getProp_obj, Obj.get?_set]
    rfl
  · intro k hk
    have hk' : ¬ "isFetchingConnection" = k := fun h => hk h.symm
    rw [Val.getProp_obj, Obj.get?_set, Obj.get?_set, hown k]
    simp only [hk', if_false]
  · rw [Val.getProp_obj, Obj.get?_set]
    rfl
  · intro k hk
    have hk' : ¬ "isFetchingConnection" = k := fun h => hk h.symm
    rw [Val.getProp_obj, Obj.get?_set, hown k]
    simp only [hk', if_false]

theorem resolver_failure_state_witness :
    (getConnectionResolver
          (.obj [("connection", .undefined), ("isFetchingConnection", .bool false),
            ("error", .str "earlier")])
          (.error (.str "rejected"))).returned = some receiveConnectionFailed
      ∧ (∃ st, dispatchAll reducer
            (.obj [("connection", .undefined), ("isFetchingConnection", .bool false),
              ("error", .str "earlier")])
            (getConnectionResolver
              (.obj [("connection", .undefined), ("isFetchingConnection", .bool false),
                ("error", .str "earlier")])
              (.error (.str "rejected"))).actions = .ok st
          ∧ Val.getProp st "isFetchingConnection" = .ok (.bool false)
          ∧ ∀ k, k ≠ "isFetchingConnection" → Val.getProp st k
              = Val.getProp (.obj [("connection", .undefined),
                  ("isFetchingConnection", .bool false), ("error", .str "earlier")]) k)
      ∧ (∃ st, dispatchAll reducer
            (.obj [("connection", .undefined), ("isFetchingConnection", .bool false),
              ("error", .str "earlier")])
            (getConnectionResolver
              (.obj [("connection", .undefined), ("isFetchingConnection", .bool false),
                ("error", .str "earlier")])
              (.error (.str "rejected"))).returned.toList = .ok st
          ∧ Val.getProp st "isFetchingConnection" = .ok (.bool false)
          ∧ ∀ k, k ≠ "isFetchingConnection" → Val.getProp st k
              = Val.getProp (.obj [("connection", .undefined),
                  ("isFetchingConnection", .bool false), ("error", .str "earlier")]) k) :=
  resolver_failure_state
    (.obj [("connection", .undefined), ("isFetchingConnection", .bool false),
      ("error", .str "earlier")])
    (.str "rejected") .undefined (by decide) rfl rfl

/-! ## Order and grouping of the arguments of `collect` -/

theorem collect_of_counted_nodup {V : Type} (items : List (Obj V))
    (h : (countedNames (functionNames items)).Nodup) :
    collect items = .ok (collectedObject items) :=
  (collect_eq_ok_iff items _).mpr ⟨h, rfl⟩

theorem collect_of_nodup {V : Type} (items : List (Obj V)) (h : (functionNames items).Nodup) :
    collect items = .ok items.flatten := by
  have h' := h
  rw [functionNames_eq, List.nodup_flatten] at h'
  have hwf : ∀ m ∈ items, (Obj.keys m).Nodup :=
    fun m hm => h'.1 _ (List.mem_map.mpr ⟨m, hm, rfl⟩)
  have hdisj := (nodup_functionNames_iff items hwf).mp h
  exact (collect_eq_ok_iff items _).mpr
    ⟨nodup_countedNames_of_nodup _ h, (collectedObject_eq_flatten items hwf hdisj).symm⟩

theorem collect_of_not_nodup {V : Type} (items : List (Obj V))
    (h : ¬ (countedNames (functionNames items)).Nodup) :
    collect items
      = .error (formatMessage (collectMessage (findDuplicates (functionNames items)))) :=
  (collect_eq_error_iff items _).mpr ⟨h, rfl⟩

theorem Obj.assign_cons {V : Type} (x : Obj V) (p : String × V) (w : Obj V) :
    Obj.assign x (p :: w) = Obj.assign (Obj.set x p.1 p.2) w := by
  simp [Obj.assign]

theorem Obj.mem_keys_set {V : Type} (o : Obj V) (k k' : String) (v : V)
    (h : k ∈ Obj.keys o) : k ∈ Obj.keys (Obj.set o k' v) := by
  rw [Obj.keys_set]
  split
  · exact h
  · exact List.mem_append_left _ h

theorem Obj.set_set_same {V : Type} (o : Obj V) (k : String) (v v' : V) :
    Obj.set (Obj.set o k v') k v = Obj.set o k v := by
  induction o with
  | nil => simp [Obj.set]
  | cons p rest ih =>
    obtain ⟨a, b⟩ := p
    by_cases h : a = k
    · simp [Obj.set, h]
    · simp [Obj.set, h, ih]

theorem Obj.set_comm_of_mem {V : Type} (o : Obj V) (k k' : String) (v u : V) (hne : k ≠ k')
    (hk : k ∈ Obj.keys o) :
    Obj.set (Obj.set o k' u) k v = Obj.set (Obj.set o k v) k' u := by
  induction o with
  | nil => simp [Obj.keys] at hk
  | cons p rest ih =>
    obtain ⟨a, b⟩ := p
    by_cases h : a = k
    · subst h
      simp [Obj.set, hne]
    · have hrest : k ∈ Obj.keys rest := by
        simp only [Obj.keys, List.map_cons, List.mem_cons] at hk
        rcases hk with e | e
        · exact absurd e.symm h
        · exact e
      by_cases h' : a = k'
      · subst h'
        simp [Obj.set, h]
      · simp [Obj.set, h, h', ih hrest]

theorem Obj.set_assign_of_mem {V : Type} (w y : Obj V) (k : String) (v : V)
    (hk : k ∈ Obj.keys y) (hw : k ∉ Obj.keys w) :
    Obj.set (Obj.assign y w) k v = Obj.assign (Obj.set y k v) w := by
  induction w generalizing y with
  | nil => rfl
  | cons p w' ih =>
    simp only [Obj.keys, List.map_cons, List.mem_cons, not_or] at hw
    rw [Obj.assign_cons, Obj.assign_cons, ih _ (Obj.mem_keys_set y k p.1 p.2 hk) hw.2,
      Obj.set_comm_of_mem y k p.1 v p.2 hw.1 hk]

theorem Obj.assign_set {V : Type} (w x : Obj V) (k : String) (v : V)
    (hw : (Obj.keys w).Nodup) :
    Obj.assign x (Obj.set w k v) = Obj.set (Obj.assign x w) k v := by
  induction w generalizing x with
  | nil => rfl
  | cons p w' ih =>
    obtain ⟨k', v'⟩ := p
    simp only [Obj.keys, List.map_cons, List.nodup_cons] at hw
    by_cases h : k' = k
    · subst h
      have hmem : k' ∈ Obj.keys (Obj.set x k' v') := by
        rw [Obj.keys_set]
        split
        · assumption
        · exact List.mem_append_right _ (List.mem_singleton_self _)
      simp only [Obj.set, if_true]
      rw [Obj.assign_cons, Obj.assign_cons, Obj.set_assign_of_mem w' _ k' v hmem hw.1,
        Obj.set_set_same]
    · simp only [Obj.set, h, if_false]
      rw [Obj.assign_cons, Obj.assign_cons, ih _ hw.2]

theorem Obj.assign_assign {V : Type} (y x z : Obj V) (hz : (Obj.keys z).Nodup) :
    Obj.assign x (Obj.assign z y) = Obj.assign (Obj.assign x z) y := by
  induction y generalizing z with
  | nil => rfl
  | cons p y' ih =>
    rw [Obj.assign_cons, Obj.assign_cons, ih _ (Obj.nodup_keys_set z p.1 p.2 hz),
      Obj.assign_set z x p.1 p.2 hz]

theorem Obj.assign_normal {V : Type} (a : Obj V) :
    Obj.assign [] (Obj.assign [] a) = Obj.assign [] a :=
  Obj.assign_nil_left _ (Obj.nodup_keys_assign [] a List.nodup_nil)

theorem countedNames_keys_assign {V : Type} (y x : Obj V)
    (h : (countedNames (Obj.keys x ++ Obj.keys y)).Nodup) :
    countedNames (Obj.keys (Obj.assign x y)) = countedNames (Obj.keys x ++ Obj.keys y) := by
  induction y generalizing x with
  | nil => simp [Obj.assign, Obj.keys]
  | cons p y' ih =>
    obtain ⟨k, v⟩ := p
    rw [Obj.assign_cons]
    have hkeys : Obj.keys ((k, v) :: y') = k :: Obj.keys y' := rfl
    rw [hkeys] at h ⊢
    by_cases hk : k ∈ Obj.keys x
    · have hp : k = "__proto__" := by
        by_contra hne
        rw [List.nodup_iff_count_le_one] at h
        have h1 := h k
        rw [count_countedNames k _ hne, List.count_append, List.count_cons_self] at h1
        have := List.count_pos_iff.mpr hk
        omega
      subst hp
      have hx : Obj.keys (Obj.set x "__proto__" v) = Obj.keys x := by
        rw [Obj.keys_set]
        simp [hk]
      have e : countedNames (Obj.keys x ++ "__proto__" :: Obj.keys y')
          = countedNames (Obj.keys x ++ Obj.keys y') := by
        rw [countedNames_append, countedNames_append, countedNames_cons_proto]
      rw [e] at h ⊢
      rw [ih _ (by rw [hx]; exact h), hx]
    · have hx : Obj.keys (Obj.set x k v) = Obj.keys x ++ [k] := by
        rw [Obj.keys_set]
        simp [hk]
      have e : Obj.keys x ++ k :: Obj.keys y' = (Obj.keys x ++ [k]) ++ Obj.keys y' := by simp
      rw [e] at h ⊢
      rw [ih _ (by rw [hx]; exact h), hx]

theorem collectedObject_pair {V : Type} (a b : Obj V) :
    collectedObject [a, b] = Obj.assign (Obj.assign [] a) b := by
  simp only [collectedObject, List.foldl]
  rw [show Obj.assign ([] : Obj V) [] = [] from rfl, Obj.assign_normal]

theorem collectedObject_triple {V : Type} (a b c : Obj V) :
    collectedObject [a, b, c] = Obj.assign (Obj.assign (Obj.assign [] a) b) c := by
  simp only [collectedObject, List.foldl]
  rw [show Obj.assign ([] : Obj V) [] = [] from rfl, Obj.assign_normal,
    Obj.assign_nil_left _ (Obj.nodup_keys_assign _ b (Obj.nodup_keys_assign [] a List.nodup_nil))]

theorem disjoint_keys_symm {V : Type} :
    Symmetric (fun a b : Obj V => ∀ k, k ∈ Obj.keys a → k ∉ Obj.keys b) :=
  fun _ _ h k hk hk' => h k hk' hk

/-- C11: for maps with pairwise disjoint key sets, `collect` applied to any permutation of the
list succeeds and returns the same map: the same keys, each with the same value. -/
theorem collect_perm {V : Type} (items items' : List (Obj V)) (hperm : items'.Perm items)
    (hwf : ∀ m ∈ items, (Obj.keys m).Nodup)
    (hdisj : items.Pairwise (fun a b => ∀ k, k ∈ Obj.keys a → k ∉ Obj.keys b)) :
    ∃ r r', collect items = .ok r ∧ collect items' = .ok r'
      ∧ (∀ k, k ∈ Obj.keys r' ↔ k ∈ Obj.keys r)
      ∧ (∀ k, Obj.get? r' k = Obj.get? r k) := by
  have hwf' : ∀ m ∈ items', (Obj.keys m).Nodup := fun m hm => hwf m (hperm.mem_iff.mp hm)
  have hdisj' : items'.Pairwise (fun a b => ∀ k, k ∈ Obj.keys a → k ∉ Obj.keys b) :=
    (hperm.pairwise_iff (fun {a b} h => disjoint_keys_symm h)).mpr hdisj
  have hn := (nodup_functionNames_iff items hwf).mpr hdisj
  have hn' := (nodup_functionNames_iff items' hwf').mpr hdisj'
  have hk : (Obj.keys items.flatten).Nodup := by
    rw [keys_flatten, ← functionNames_eq]
    exact hn
  have hk' : (Obj.keys items'.flatten).Nodup := by
    rw [keys_flatten, ← functionNames_eq]
    exact hn'
  have hp : items'.flatten.Perm items.flatten := List.Perm.flatten hperm
  refine ⟨items.flatten, items'.flatten, collect_of_nodup items hn, collect_of_nodup items' hn',
    ?_, ?_⟩
  · intro k
    exact (hp.map Prod.fst).mem_iff
  · intro k
    cases h : Obj.get? items.flatten k with
    | some v =>
      exact Obj.get?_eq_some_of_mem _ k v hk'
        (hp.mem_iff.mpr (Obj.mem_of_get?_eq_some _ k v h))
    | none =>
      cases h' : Obj.get? items'.flatten k with
      | none => rfl
      | some v =>
        have := Obj.get?_eq_some_of_mem _ k v hk
          (hp.mem_iff.mp (Obj.mem_of_get?_eq_some _ k v h'))
        rw [h] at this
        cases this

theorem collect_perm_witness :
    ∃ r r', collect [[("bar", 1), ("foo", 2)], [("cat", 3), ("dog", 4)]] = .ok r
      ∧ collect [[("cat", 3), ("dog", 4)], [("bar", 1), ("foo", 2)]] = .ok r'
      ∧ (∀ k, k ∈ Obj.keys r' ↔ k ∈ Obj.keys r)
      ∧ (∀ k, Obj.get? r' k = Obj.get? r k) :=
  collect_perm [[("bar", 1), ("foo", 2)], [("cat", 3), ("dog", 4)]]
    [[("cat", 3), ("dog", 4)], [("bar", 1), ("foo", 2)]]
    (List.Perm.swap _ _ [])
    (by decide) (by decide)

/-- C12: `collect( collect( a, b ), c )`, `collect( a, collect( b, c ) )` and
`collect( a, b, c )` all fail or all succeed, and when they succeed they return the same map. -/
theorem collect_assoc {V : Type} (a b c : Obj V) :
    (∃ r, (collect [a, b]).bind (fun ab => collect [ab, c]) = .ok r
        ∧ (collect [b, c]).bind (fun bc => collect [a, bc]) = .ok r
        ∧ collect [a, b, c] = .ok r)
      ∨ (∃ e1 e2 e3, (collect [a, b]).bind (fun ab => collect [ab, c]) = .error e1
        ∧ (collect [b, c]).bind (fun bc => collect [a, bc]) = .error e2
        ∧ collect [a, b, c] = .error e3) := by
  have hn3 : functionNames [a, b, c] = Obj.keys a ++ (Obj.keys b ++ Obj.keys c) := by
    simp [functionNames_eq]
  have hnab : functionNames [a, b] = Obj.keys a ++ Obj.keys b := by simp [functionNames_eq]
  have hnbc : functionNames [b, c] = Obj.keys b ++ Obj.keys c := by simp [functionNames_eq]
  have hnl : ∀ ab : Obj V, functionNames [ab, c] = Obj.keys ab ++ Obj.keys c := by
    intro ab
    simp [functionNames_eq]
  have hnr : ∀ bc : Obj V, functionNames [a, bc] = Obj.keys a ++ Obj.keys bc := by
    intro bc
    simp [functionNames_eq]
  have hna : (Obj.keys (Obj.assign ([] : Obj V) a)).Nodup :=
    Obj.nodup_keys_assign [] a List.nodup_nil
  have hnb : (Obj.keys (Obj.assign ([] : Obj V) b)).Nodup :=
    Obj.nodup_keys_assign [] b List.nodup_nil
  have hnorm : ∀ m : Obj V, (countedNames (Obj.keys m)).Nodup →
      countedNames (Obj.keys (Obj.assign [] m)) = countedNames (Obj.keys m) := by
    intro m hm
    have := countedNames_keys_assign m [] (by simpa [Obj.keys] using hm)
    simpa [Obj.keys] using this
  have hleft : (countedNames (Obj.keys a ++ Obj.keys b)).Nodup →
      countedNames (Obj.keys (collectedObject [a, b]))
        = countedNames (Obj.keys a ++ Obj.keys b) := by
    intro hab
    have ha : (countedNames (Obj.keys a)).Nodup := by
      rw [countedNames_append] at hab
      exact (List.nodup_append.mp hab).1
    have e : countedNames (Obj.keys (Obj.assign [] a) ++ Obj.keys b)
        = countedNames (Obj.keys a ++ Obj.keys b) := by
      rw [countedNames_append, countedNames_append, hnorm a ha]
    rw [collectedObject_pair, countedNames_keys_assign b _ (by rw [e]; exact hab), e]
  have hright : (countedNames (Obj.keys b ++ Obj.keys c)).Nodup →
      countedNames (Obj.keys (collectedObject [b, c]))
        = countedNames (Obj.keys b ++ Obj.keys c) := by
    intro hbc
    have hb : (countedNames (Obj.keys b)).Nodup := by
      rw [countedNames_append] at hbc
      exact (List.nodup_append.mp hbc).1
    have e : countedNames (Obj.keys (Obj.assign [] b) ++ Obj.keys c)
        = countedNames (Obj.keys b ++ Obj.keys c) := by
      rw [countedNames_append, countedNames_append, hnorm b hb]
    rw [collectedObject_pair, countedNames_keys_assign c _ (by rw [e]; exact hbc), e]
  have hcl : (countedNames (Obj.keys a ++ Obj.keys b)).Nodup →
      countedNames (functionNames [collectedObject [a, b], c])
        = countedNames (Obj.keys a ++ (Obj.keys b ++ Obj.keys c)) := by
    intro hab
    rw [hnl, countedNames_append, hleft hab, ← countedNames_append, List.append_assoc]
  have hcr : (countedNames (Obj.keys b ++ Obj.keys c)).Nodup →
      countedNames (functionNames [a, collectedObject [b, c]])
        = countedNames (Obj.keys a ++ (Obj.keys b ++ Obj.keys c)) := by
    intro hbc
    rw [hnr, countedNames_append, hright hbc, ← countedNames_append]
  by_cases h : (countedNames (Obj.keys a ++ (Obj.keys b ++ Obj.keys c))).Nodup
  · left
    have hab : (countedNames (Obj.keys a ++ Obj.keys b)).Nodup := by
      rw [← List.append_assoc, countedNames_append] at h
      exact (List.nodup_append.mp h).1
    have hbc : (countedNames (Obj.keys b ++ Obj.keys c)).Nodup := by
      rw [countedNames_append] at h
      exact (List.nodup_append.mp h).2.1
    refine ⟨Obj.assign (Obj.assign (Obj.assign [] a) b) c, ?_, ?_, ?_⟩
    · rw [collect_of_counted_nodup [a, b] (hnab ▸ hab)]
      have h1 := collect_of_counted_nodup [collectedObject [a, b], c] (by rw [hcl hab]; exact h)
      have e : collectedObject [collectedObject [a, b], c]
          = Obj.assign (Obj.assign (Obj.assign [] a) b) c := by
        rw [collectedObject_pair, collectedObject_pair,
          Obj.assign_nil_left _ (Obj.nodup_keys_assign _ b hna)]
      rw [e] at h1
      exact h1
    · rw [collect_of_counted_nodup [b, c] (hnbc ▸ hbc)]
      have h1 := collect_of_counted_nodup [a, collectedObject [b, c]] (by rw [hcr hbc]; exact h)
      have e : collectedObject [a, collectedObject [b, c]]
          = Obj.assign (Obj.assign (Obj.assign [] a) b) c := by
        rw [collectedObject_pair, collectedObject_pair,
          Obj.assign_assign c _ _ hnb, Obj.assign_assign b _ [] List.nodup_nil]
        rfl
      rw [e] at h1
      exact h1
    · rw [collect_of_counted_nodup [a, b, c] (hn3 ▸ h), collectedObject_triple]
  · right
    have h3 := collect_of_not_nodup [a, b, c] (hn3 ▸ h)
    have hl : ∃ e, (collect [a, b]).bind (fun ab => collect [ab, c]) = .error e := by
      by_cases hab : (countedNames (Obj.keys a ++ Obj.keys b)).Nodup
      · rw [collect_of_counted_nodup [a, b] (hnab ▸ hab)]
        exact ⟨_, collect_of_not_nodup [collectedObject [a, b], c] (by rw [hcl hab]; exact h)⟩
      · rw [collect_of_not_nodup [a, b] (hnab ▸ hab)]
        exact ⟨_, rfl⟩
    have hr : ∃ e, (collect [b, c]).bind (fun bc => collect [a, bc]) = .error e := by
      by_cases hbc : (countedNames (Obj.keys b ++ Obj.keys c)).Nodup
      · rw [collect_of_counted_nodup [b, c] (hnbc ▸ hbc)]
        exact ⟨_, collect_of_not_nodup [a, collectedObject [b, c]] (by rw [hcr hbc]; exact h)⟩
      · rw [collect_of_not_nodup [b, c] (hnbc ▸ hbc)]
        exact ⟨_, rfl⟩
    obtain ⟨e1, he1⟩ := hl
    obtain ⟨e2, he2⟩ := hr
    exact ⟨e1, e2, _, he1, he2, h3⟩

/-! ## Properties of `addInitializeAction` -/

/-- C13: for a map of actions without an `initialize` key, `addInitializeAction` returns the
map with every original action unchanged and the key `initialize` mapped to `initializeAction`
added; `initializeAction()` is the action of type `INITIALIZE` with the payload `{}`; for a map
that already has an `initialize` key, `addInitializeAction` fails. -/
theorem addInitializeAction_adds (actions : Obj ActionCreator) :
    ((Obj.keys actions).Nodup → "initialize" ∉ Obj.keys actions →
        ∃ r, addInitializeAction actions = .ok r
          ∧ r = actions ++ [("initialize", initializeActionCreator)]
          ∧ (∀ k v, Obj.get? actions k = some v → Obj.get? r k = some v)
          ∧ Obj.get? r "initialize" = some initializeActionCreator
          ∧ (∀ k, k ∈ Obj.keys r ↔ k ∈ Obj.keys actions ∨ k = "initialize"))
      ∧ (∀ args, initializeActionCreator args
          = .ok (.obj [("payload", .obj []), ("type", .str "INITIALIZE")]))
      ∧ ("initialize" ∈ Obj.keys actions → ∃ msg, addInitializeAction actions = .error msg) := by
  have hnames : functionNames [actions, [("initialize", initializeActionCreator)]]
      = Obj.keys actions ++ ["initialize"] := by
    simp [functionNames_eq, Obj.keys]
  refine ⟨?_, fun _ => rfl, ?_⟩
  · intro hwf hno
    have hnd : (functionNames [actions, [("initialize", initializeActionCreator)]]).Nodup := by
      rw [hnames]
      exact List.Nodup.append hwf (List.nodup_singleton _)
        (fun k hk hk' => hno ((List.mem_singleton.mp hk') ▸ hk))
    have hr : addInitializeAction actions
        = .ok (actions ++ [("initialize", initializeActionCreator)]) := by
      have := collect_of_nodup _ hnd
      simpa [addInitializeAction] using this
    have hkn : (Obj.keys (actions ++ [("initialize", initializeActionCreator)])).Nodup := by
      rw [Obj.keys_append]
      rw [hnames] at hnd
      exact hnd
    refine ⟨_, hr, rfl, ?_, ?_, ?_⟩
    · intro k v hg
      exact Obj.get?_eq_some_of_mem _ k v hkn
        (List.mem_append_left _ (Obj.mem_of_get?_eq_some actions k v hg))
    · exact Obj.get?_eq_some_of_mem _ _ _ hkn (List.mem_append_right _ (List.mem_singleton_self _))
    · intro k
      rw [Obj.keys_append]
      simp [Obj.keys]
  · intro hmem
    have hnd : ¬ (countedNames
        (functionNames [actions, [("initialize", initializeActionCreator)]])).Nodup := by
      rw [hnames, countedNames_append]
      intro h
      exact (List.nodup_append.mp h).2.2
        (List.mem_filter.mpr ⟨hmem, by decide⟩) (by decide)
    exact ⟨_, collect_of_not_nodup _ hnd⟩

theorem addInitializeAction_adds_witness :
    (∃ r, addInitializeAction [("bar", initializeActionCreator), ("foo", initializeActionCreator)]
          = .ok r
        ∧ r = [("bar", initializeActionCreator), ("foo", initializeActionCreator)]
            ++ [("initialize", initializeActionCreator)]
        ∧ (∀ k v, Obj.get? [("bar", initializeActionCreator), ("foo", initializeActionCreator)] k
              = some v → Obj.get? r k = some v)
        ∧ Obj.get? r "initialize" = some initializeActionCreator
        ∧ (∀ k, k ∈ Obj.keys r
            ↔ k ∈ Obj.keys [("bar", initializeActionCreator), ("foo", initializeActionCreator)]
              ∨ k = "initialize"))
      ∧ ∃ msg, addInitializeAction [("initialize", initializeActionCreator)] = .error msg :=
  ⟨(addInitializeAction_adds
      [("bar", initializeActionCreator), ("foo", initializeActionCreator)]).1
      (by decide) (by decide),
    (addInitializeAction_adds [("initialize", initializeActionCreator)]).2.2 (by decide)⟩

/-! ## Validation of the arguments of store actions -/

/-- C14: for an argument that is not a plain object, `saveKeyMetricsSettings` throws
`Settings should be an object.` before it yields any action, as `validateParams` of the save
fetch store does; for a falsy connection, `receiveConnection` throws `connection is required.`
and returns no action.  An argument that is `undefined` is an argument that is not supplied and
takes the default `{}`. -/
theorem actions_validate_arguments :
    (∀ (deps : KeyMetricsActions) (settings state fetchResult : Val),
        settings ≠ .undefined → settings.isPlainObject = false →
        (saveKeyMetricsSettings deps settings state fetchResult).yielded = []
          ∧ (saveKeyMetricsSettings deps settings state fetchResult).result
            = .error "Settings should be an object.")
      ∧ (∀ settings : Val, settings.isPlainObject = false →
          validateParams settings = .error "Settings should be an object.")
      ∧ (∀ connection : Val, connection.truthy = false →
          receiveConnection connection = .error "connection is required.") := by
  refine ⟨?_, ?_, ?_⟩
  · intro deps settings state fetchResult hne hnp
    have hd : settings.orDefault (.obj []) = settings := Val.orDefault_of_ne settings _ hne
    simp only [saveKeyMetricsSettings, hd, hnp]
    exact ⟨rfl, rfl⟩
  · intro settings hnp
    simp only [validateParams, invariant, hnp]
    rfl
  · intro connection hf
    simp only [receiveConnection, invariant, hf]
    rfl

theorem actions_validate_arguments_witness :
    ((saveKeyMetricsSettings ⟨fun _ _ => .null, fun _ _ _ => .null, fun v => v⟩
          (.arr []) baseInitialState .null).yielded = []
        ∧ (saveKeyMetricsSettings ⟨fun _ _ => .null, fun _ _ _ => .null, fun v => v⟩
          (.arr []) baseInitialState .null).result = .error "Settings should be an object.")
      ∧ validateParams (.str "settings") = .error "Settings should be an object."
      ∧ receiveConnection .null = .error "connection is required." :=
  ⟨actions_validate_arguments.1 ⟨fun _ _ => .null, fun _ _ _ => .null, fun v => v⟩
      (.arr []) baseInitialState .null (by intro h; cases h) rfl,
    actions_validate_arguments.2.1 (.str "settings") rfl,
    actions_validate_arguments.2.2 .null rfl⟩

/-! ## Properties of the selectors of the connection store -/

/-- C18: `getConnection` returns the `connection` of the state; `isConnected`, `isResettable`
and `isSetupCompleted` return `undefined` when it is `undefined`, and otherwise its
`connected`, `resettable` and `setupCompleted`. -/
theorem connection_selectors (state connection : Val)
    (h : Val.getProp state "connection" = .ok connection) :
    getConnection state = .ok connection
      ∧ (connection = .undefined →
          isConnected state = .ok .undefined ∧ isResettable state = .ok .undefined
            ∧ isSetupCompleted state = .ok .undefined)
      ∧ (connection ≠ .undefined →
          isConnected state = Val.getProp connection "connected"
            ∧ isResettable state = Val.getProp connection "resettable"
            ∧ isSetupCompleted state = Val.getProp connection "setupCompleted") := by
  refine ⟨h, ?_, ?_⟩
  · intro hu
    subst hu
    simp only [isConnected, isResettable, isSetupCompleted, getConnection, h]
    exact ⟨rfl, rfl, rfl⟩
  · intro hne
    have hu : connection.isUndefined = false := by
      cases connection <;> first | rfl | exact absurd rfl hne
    simp only [isConnected, isResettable, isSetupCompleted, getConnection, h, bind, Except.bind,
      hu]
    exact ⟨rfl, rfl, rfl⟩

theorem connection_selectors_witness :
    getConnection (.obj [("connection", .obj [("connected", .bool true),
          ("resettable", .bool false), ("setupCompleted", .bool true)]),
        ("isFetchingConnection", .bool false)])
        = .ok (.obj [("connected", .bool true), ("resettable", .bool false),
          ("setupCompleted", .bool true)])
      ∧ isConnected (.obj [("connection", .obj [("connected", .bool true),
          ("resettable", .bool false), ("setupCompleted", .bool true)]),
        ("isFetchingConnection", .bool false)]) = .ok (.bool true)
      ∧ isResettable (.obj [("connection", .obj [("connected", .bool true),
          ("resettable", .bool false), ("setupCompleted", .bool true)]),
        ("isFetchingConnection", .bool false)]) = .ok (.bool false)
      ∧ isSetupCompleted (.obj [("connection", .obj [("connected", .bool true),
          ("resettable", .bool false), ("setupCompleted", .bool true)]),
        ("isFetchingConnection", .bool false)]) = .ok (.bool true)
      ∧ isConnected INITIAL_STATE = .ok .undefined :=
  ⟨(connection_selectors (.obj [("connection", .obj [("connected", .bool true),
          ("resettable", .bool false), ("setupCompleted", .bool true)]),
        ("isFetchingConnection", .bool false)])
      (.obj [("connected", .bool true), ("resettable", .bool false),
          ("setupCompleted", .bool true)]) rfl).1,
    ((connection_selectors (.obj [("connection", .obj [("connected", .bool true),
          ("resettable", .bool false), ("setupCompleted", .bool true)]),
        ("isFetchingConnection", .bool false)])
      (.obj [("connected", .bool true), ("resettable", .bool false),
          ("setupCompleted", .bool true)]) rfl).2.2 (by intro h; cases h)).1,
    ((connection_selectors (.obj [("connection", .obj [("connected", .bool true),
          ("resettable", .bool false), ("setupCompleted", .bool true)]),
        ("isFetchingConnection", .bool false)])
      (.obj [("connected", .bool true), ("resettable", .bool false),
          ("setupCompleted", .bool true)]) rfl).2.2 (by intro h; cases h)).2.1,
    ((connection_selectors (.obj [("connection", .obj [("connected", .bool true),
          ("resettable", .bool false), ("setupCompleted", .bool true)]),
        ("isFetchingConnection", .bool false)])
      (.obj [("connected", .bool true), ("resettable", .bool false),
          ("setupCompleted", .bool true)]) rfl).2.2 (by intro h; cases h)).2.2,
    ((connection_selectors INITIAL_STATE .undefined rfl).2.1 rfl).1⟩

/-! ## Properties of the selectors of the key metrics store -/

theorem Val.isStr_eq_true_iff (v : Val) (s : String) : v.isStr s = true ↔ v = .str s := by
  cases v <;> simp [Val.isStr]

theorem Val.isUndefined_of_ne (v : Val) (h : v ≠ .undefined) : v.isUndefined = false := by
  cases v <;> first | rfl | exact absurd rfl h

theorem Val.eq_undefined_of_isUndefined (v : Val) (h : v.isUndefined = true) :
    v = .undefined := by
  cases v <;> first | rfl | cases h

/-- C19: `getUserPickedMetrics` does not return `undefined` only when the key metrics settings
are not loaded, as its documentation says.  After `setKeyMetricsSetting( 'isWidgetHidden', true )`
is reduced on the initial state, the key metrics settings are loaded (not `undefined`), yet
`getUserPickedMetrics` and `getKeyMetrics` return `undefined`. -/
theorem userPickedMetrics_undefined_when_loaded :
    baseReducer baseInitialState (setKeyMetricsSetting (.str "isWidgetHidden") (.bool true))
        = .ok (.obj [("keyMetricsSettings", .obj [("isWidgetHidden", .bool true)]),
            ("savedKeyMetricsSettings", .undefined), ("isSavingKeyMetricsSettings", .bool false)])
      ∧ getKeyMetricsSettings (.obj [("keyMetricsSettings", .obj [("isWidgetHidden", .bool true)]),
            ("savedKeyMetricsSettings", .undefined), ("isSavingKeyMetricsSettings", .bool false)])
          = .ok (.obj [("isWidgetHidden", .bool true)])
      ∧ getUserPickedMetrics (.obj [("keyMetricsSettings", .obj [("isWidgetHidden", .bool true)]),
            ("savedKeyMetricsSettings", .undefined), ("isSavingKeyMetricsSettings", .bool false)])
          = .ok .undefined
      ∧ getKeyMetrics (.obj [("keyMetricsSettings", .obj [("isWidgetHidden", .bool true)]),
            ("savedKeyMetricsSettings", .undefined), ("isSavingKeyMetricsSettings", .bool false)])
          (.ok (.arr [.str "kmAnalyticsNewVisitors"])) = .ok .undefined
      ∧ ¬ (∀ state : Val, getUserPickedMetrics state = .ok .undefined →
          getKeyMetricsSettings state = .ok .undefined) := by
  refine ⟨rfl, rfl, rfl, rfl, ?_⟩
  intro h
  have h1 := h (.obj [("keyMetricsSettings", .obj [("isWidgetHidden", .bool true)]),
    ("savedKeyMetricsSettings", .undefined), ("isSavingKeyMetricsSettings", .bool false)]) rfl
  have h2 : getKeyMetricsSettings
      (.obj [("keyMetricsSettings", .obj [("isWidgetHidden", .bool true)]),
        ("savedKeyMetricsSettings", .undefined), ("isSavingKeyMetricsSettings", .bool false)])
      = .ok (.obj [("isWidgetHidden", .bool true)]) := rfl
  rw [h2] at h1
  injection h1 with h1
  cases h1

/-- The selectors of the key metrics, in general: `getUserPickedMetrics` returns `undefined`
when the key metrics settings are
not loaded and otherwise the `widgetSlugs` of the settings (so `undefined` also for loaded
settings without `widgetSlugs`); `getKeyMetrics` returns `undefined` when `getUserPickedMetrics`
does, the user-picked slugs when that list is not empty and the answer-based metrics when it is
empty; `isKeyMetricActive( slug )` is `undefined` when `getKeyMetrics` is, and otherwise tells
whether `slug` is one of the key metrics. -/
theorem keyMetrics_selectors (state settings : Val) (answerBased : Except String Val)
    (h : getKeyMetricsSettings state = .ok settings) :
    (settings = .undefined →
        getUserPickedMetrics state = .ok .undefined
          ∧ getKeyMetrics state answerBased = .ok .undefined)
      ∧ (settings ≠ .undefined →
          getUserPickedMetrics state = Val.getProp settings "widgetSlugs")
      ∧ (getUserPickedMetrics state = .ok .undefined →
          getKeyMetrics state answerBased = .ok .undefined)
      ∧ (∀ slugs, getUserPickedMetrics state = .ok (.arr slugs) →
          (slugs ≠ [] → getKeyMetrics state answerBased = .ok (.arr slugs))
            ∧ (slugs = [] → getKeyMetrics state answerBased = answerBased))
      ∧ (∀ slug, getKeyMetrics state answerBased = .ok .undefined →
          isKeyMetricActive state answerBased slug = .ok .undefined)
      ∧ (∀ slug items, getKeyMetrics state answerBased = .ok (.arr items) →
          ∃ b, isKeyMetricActive state answerBased slug = .ok (.bool b)
            ∧ (b = true ↔ Val.str slug ∈ items)) := by
  have hund : getUserPickedMetrics state = .ok .undefined →
      getKeyMetrics state answerBased = .ok .undefined := by
    intro hu
    simp only [getKeyMetrics, hu]
    rfl
  refine ⟨?_, ?_, hund, ?_, ?_, ?_⟩
  · intro hs
    subst hs
    have hu : getUserPickedMetrics state = .ok .undefined := by
      simp only [getUserPickedMetrics, h]
      rfl
    exact ⟨hu, hund hu⟩
  · intro hne
    simp only [getUserPickedMetrics, h, bind, Except.bind, Val.isUndefined_of_ne settings hne]
    rfl
  · intro slugs hu
    constructor
    · intro hne
      have hl : (Val.num (slugs.length : Int)).truthy = true := by
        cases slugs with
        | nil => exact absurd rfl hne
        | cons x rest =>
          simp only [Val.truthy, List.length_cons, bne_iff_ne, ne_eq]
          omega
      simp only [getKeyMetrics, hu, bind, Except.bind, Val.isUndefined, Val.length, hl]
      rfl
    · intro he
      subst he
      simp only [getKeyMetrics, hu, bind, Except.bind, Val.isUndefined, Val.length]
      rfl
  · intro slug hk
    simp only [isKeyMetricActive, hk]
    rfl
  · intro slug items hk
    refine ⟨items.any (fun x => x.isStr slug), ?_, ?_⟩
    · simp only [isKeyMetricActive, hk]
      rfl
    · rw [List.any_eq_true]
      constructor
      · rintro ⟨x, hx, hxs⟩
        rw [Val.isStr_eq_true_iff] at hxs
        exact hxs ▸ hx
      · intro hm
        exact ⟨_, hm, (Val.isStr_eq_true_iff _ _).mpr rfl⟩

theorem keyMetrics_selectors_witness :
    getUserPickedMetrics (.obj [("keyMetricsSettings",
          .obj [("widgetSlugs", .arr [.str "kmAnalyticsNewVisitors"]),
            ("isWidgetHidden", .bool false)])])
        = .ok (.arr [.str "kmAnalyticsNewVisitors"]) :=
  ((keyMetrics_selectors (.obj [("keyMetricsSettings",
          .obj [("widgetSlugs", .arr [.str "kmAnalyticsNewVisitors"]),
            ("isWidgetHidden", .bool false)])])
      (.obj [("widgetSlugs", .arr [.str "kmAnalyticsNewVisitors"]),
            ("isWidgetHidden", .bool false)])
      (.ok (.arr [])) rfl).2.1 (by intro h; cases h)).trans rfl

/-! ## Properties of `isZeroReport` -/

theorem someLoop_spec (callback : Val → Except String Bool) (items : List Val)
    (h : ∀ x ∈ items, ∃ b, callback x = .ok b) :
    ∃ r, someLoop callback items = .ok r ∧ (r = true ↔ ∃ x ∈ items, callback x = .ok true) := by
  induction items with
  | nil => exact ⟨false, rfl, by simp⟩
  | cons x rest ih =>
    obtain ⟨b, hb⟩ := h x (List.mem_cons_self _ _)
    obtain ⟨r, hr, hiff⟩ := ih (fun y hy => h y (List.mem_cons_of_mem _ hy))
    cases b with
    | true =>
      refine ⟨true, ?_, ?_⟩
      · simp only [someLoop, hb, bind, Except.bind]
        rfl
      · simp only [true_iff]
        exact ⟨x, List.mem_cons_self _ _, hb⟩
    | false =>
      refine ⟨r, ?_, ?_⟩
      · simp only [someLoop, hb, bind, Except.bind]
        exact hr
      · rw [hiff]
        constructor
        · rintro ⟨y, hy, hy'⟩
          exact ⟨y, List.mem_cons_of_mem _ hy, hy'⟩
        · rintro ⟨y, hy, hy'⟩
          rcases List.mem_cons.mp hy with e | e
          · subst e
            rw [hb] at hy'
            cases hy'
          · exact ⟨y, e, hy'⟩

theorem gtZero_ok_of_metric (metric value : Val) (b : Bool)
    (hv : Val.getProp metric "value" = .ok value) (hb : gtZero value = .ok b) :
    metricIsPositive metric = .ok b := by
  simp only [metricIsPositive, hv, bind, Except.bind, hb]

theorem isZeroReport_of_totals (report : Val) (entries : List Val) (hne : report ≠ .undefined)
    (hr : noRows report = false) (hf : noFirstTotals report = false)
    (ht : Val.getProp report "totals" = .ok (.arr entries)) (hshape : WellShapedTotals entries) :
    ∃ b, isZeroReport report = .ok (.bool b) ∧ (b = false ↔ HasPositiveTotal entries) := by
  have hu := Val.isUndefined_of_ne report hne
  have hinner : ∀ entry ∈ entries, ∃ b, totalsHavePositive entry = Except.ok b
      ∧ (b = true ↔ ∃ metricValues, Val.getProp entry "metricValues" = .ok (.arr metricValues)
          ∧ ∃ metric ∈ metricValues, ∃ value, Val.getProp metric "value" = .ok value
            ∧ gtZero value = .ok true) := by
    intro entry he
    obtain ⟨mvs, hmv, hvals⟩ := hshape entry he
    have hcb : ∀ m ∈ mvs, ∃ b, metricIsPositive m = .ok b := by
      intro m hm
      obtain ⟨v, b, hv, hb⟩ := hvals m hm
      exact ⟨b, gtZero_ok_of_metric m v b hv hb⟩
    obtain ⟨r, hr', hiff⟩ := someLoop_spec _ mvs hcb
    refine ⟨r, ?_, ?_⟩
    · simp only [totalsHavePositive, hmv, bind, Except.bind, Val.some]
      exact hr'
    · rw [hiff]
      constructor
      · rintro ⟨m, hm, hcm⟩
        obtain ⟨v, b, hv, hb⟩ := hvals m hm
        refine ⟨mvs, hmv, m, hm, v, hv, ?_⟩
        rw [gtZero_ok_of_metric m v b hv hb] at hcm
        rw [hb, hcm]
      · rintro ⟨mvs', hmv', m, hm, v, hv, hg⟩
        rw [hmv] at hmv'
        injection hmv' with e
        injection e with e
        subst e
        exact ⟨m, hm, gtZero_ok_of_metric m v true hv hg⟩
  have houter := someLoop_spec totalsHavePositive entries
      (fun entry he => ⟨_, (hinner entry he).choose_spec.1⟩)
  obtain ⟨r, hr', hiff⟩ := houter
  refine ⟨!r, ?_, ?_⟩
  · simp only [isZeroReport, hu, hr, hf, ht, bind, Except.bind, Val.some, hr']
    rfl
  · have : (!r) = false ↔ r = true := by cases r <;> simp
    rw [this, hiff]
    constructor
    · rintro ⟨entry, he, hc⟩
      obtain ⟨b, hb, hbiff⟩ := hinner entry he
      rw [hb] at hc
      injection hc with hc
      obtain ⟨mvs, hmv, rest⟩ := hbiff.mp hc
      exact ⟨entry, he, mvs, hmv, rest⟩
    · rintro ⟨entry, he, mvs, hmv, rest⟩
      obtain ⟨b, hb, hbiff⟩ := hinner entry he
      have hbt : b = true := hbiff.mpr ⟨mvs, hmv, rest⟩
      exact ⟨entry, he, hbt ▸ hb⟩

/-- C17: `isZeroReport( undefined )` is `undefined`; for a defined report it is `true` when the
report has no rows or its first totals entry has no metric values; and otherwise, the totals
being entries with metric values that can be compared, it is `false` exactly when some metric
value of some totals entry is greater than zero, in the comparison `value > 0` of JavaScript: a
number is greater than zero when it is positive, the strings `0`, `0.0` and the empty string
are not, the strings `12` and `0.5` are; so a report whose metric values are all the number 0
or the string `0` is a zero report. -/
theorem isZeroReport_spec :
    isZeroReport .undefined = .ok .undefined
      ∧ (∀ report : Val, report ≠ .undefined →
          (noRows report = true ∨ noFirstTotals report = true) →
          isZeroReport report = .ok (.bool true))
      ∧ (∀ (report : Val) (entries : List Val), report ≠ .undefined →
          noRows report = false → noFirstTotals report = false →
          Val.getProp report "totals" = .ok (.arr entries) → WellShapedTotals entries →
          ∃ b, isZeroReport report = .ok (.bool b)
            ∧ (b = false ↔ HasPositiveTotal entries))
      ∧ (∀ n : Int, gtZero (.num n) = .ok (decide (0 < n)))
      ∧ (gtZero (.str "0") = .ok false ∧ gtZero (.str "0.0") = .ok false
          ∧ gtZero (.str "") = .ok false ∧ gtZero (.str "12") = .ok true
          ∧ gtZero (.str "0.5") = .ok true)
      ∧ (∀ (report : Val) (entries : List Val), report ≠ .undefined →
          noRows report = false → noFirstTotals report = false →
          Val.getProp report "totals" = .ok (.arr entries) →
          (∀ entry ∈ entries, ∃ metricValues,
            Val.getProp entry "metricValues" = .ok (.arr metricValues)
              ∧ ∀ metric ∈ metricValues, Val.getProp metric "value" = .ok (.num 0)
                ∨ Val.getProp metric "value" = .ok (.str "0")) →
          isZeroReport report = .ok (.bool true)) := by
  refine ⟨rfl, ?_, ?_, fun _ => rfl, ⟨rfl, rfl, rfl, rfl, rfl⟩, ?_⟩
  · intro report hne h
    have hu := Val.isUndefined_of_ne report hne
    have hor : (noRows report || noFirstTotals report) = true := by
      rcases h with h | h <;> simp [h]
    simp only [isZeroReport, hu, hor]
    rfl
  · intro report entries hne hr hf ht hshape
    exact isZeroReport_of_totals report entries hne hr hf ht hshape
  · intro report entries hne hr hf ht hzero
    have hshape : WellShapedTotals entries := by
      intro entry he
      obtain ⟨mvs, hmv, hvals⟩ := hzero entry he
      refine ⟨mvs, hmv, ?_⟩
      intro m hm
      rcases hvals m hm with h | h
      · exact ⟨_, false, h, rfl⟩
      · exact ⟨_, false, h, rfl⟩
    obtain ⟨b, hb, hiff⟩ := isZeroReport_of_totals report entries hne hr hf ht hshape
    have hbt : b = true := by
      cases b with
      | true => rfl
      | false =>
        obtain ⟨entry, he, mvs, hmv, m, hm, v, hv, hg⟩ := hiff.mp rfl
        obtain ⟨mvs', hmv', hvals⟩ := hzero entry he
        rw [hmv] at hmv'
        injection hmv' with e
        injection e with e
        subst e
        rcases hvals m hm with h | h
        · rw [hv] at h
          injection h with h
          subst h
          cases hg
        · rw [hv] at h
          injection h with h
          subst h
          cases hg
    rw [hb, hbt]

theorem isZeroReport_spec_witness :
    isZeroReport (.obj [("rows", .arr []), ("totals", .arr [])]) = .ok (.bool true)
      ∧ (∃ b, isZeroReport
            (.obj [("rows", .arr [.obj []]),
              ("totals", .arr [.obj [("metricValues",
                .arr [.obj [("value", .str "0")], .obj [("value", .str "5")]])]])])
          = .ok (.bool b)
        ∧ (b = false ↔ HasPositiveTotal
            [.obj [("metricValues",
              .arr [.obj [("value", .str "0")], .obj [("value", .str "5")]])]]))
      ∧ isZeroReport
          (.obj [("rows", .arr [.obj []]),
            ("totals", .arr [.obj [("metricValues",
              .arr [.obj [("value", .str "0")], .obj [("value", .num 0)]])]])])
        = .ok (.bool true)
      ∧ isZeroReport
          (.obj [("rows", .arr [.obj []]),
            ("totals", .arr [.obj [("metricValues",
              .arr [.obj [("value", .str "0")], .obj [("value", .str "5")]])]])])
        = .ok (.bool false) :=
  ⟨isZeroReport_spec.2.1 (.obj [("rows", .arr []), ("totals", .arr [])])
      (by intro h; cases h) (Or.inl rfl),
    isZeroReport_spec.2.2.1
      (.obj [("rows", .arr [.obj []]),
        ("totals", .arr [.obj [("metricValues",
          .arr [.obj [("value", .str "0")], .obj [("value", .str "5")]])]])])
      [.obj [("metricValues", .arr [.obj [("value", .str "0")], .obj [("value", .str "5")]])]]
      (by intro h; cases h) rfl rfl rfl
      (by
        intro entry he
        simp only [List.mem_singleton] at he
        subst he
        refine ⟨_, rfl, ?_⟩
        intro metric hm
        simp only [List.mem_cons, List.mem_singleton, List.not_mem_nil, or_false] at hm
        rcases hm with rfl | rfl
        · exact ⟨_, false, rfl, rfl⟩
        · exact ⟨_, true, rfl, rfl⟩),
    isZeroReport_spec.2.2.2.2.2
      (.obj [("rows", .arr [.obj []]),
        ("totals", .arr [.obj [("metricValues",
          .arr [.obj [("value", .str "0")], .obj [("value", .num 0)]])]])])
      [.obj [("metricValues", .arr [.obj [("value", .str "0")], .obj [("value", .num 0)]])]]
      (by intro h; cases h) rfl rfl rfl
      (by
        intro entry he
        simp only [List.mem_singleton] at he
        subst he
        refine ⟨_, rfl, ?_⟩
        intro metric hm
        simp only [List.mem_cons, List.mem_singleton, List.not_mem_nil, or_false] at hm
        rcases hm with rfl | rfl
        · exact Or.inr rfl
        · exact Or.inl rfl),
    rfl⟩

/-! ## Properties of the widget layout -/

theorem WIDTH_GRID_COUNTER_MAP_le (w : WidgetWidth) : WIDTH_GRID_COUNTER_MAP w ≤ 12 := by
  cases w <;> decide

theorem rowTotal_cons (u r : Nat) (cells : List (Nat × Nat)) (q : Nat) :
    rowTotal ((u, r) :: cells) q = (if r = q then u else 0) + rowTotal cells q := by
  by_cases h : r = q <;> simp [rowTotal, List.filter_cons, h]

theorem getWidgetLayoutLoop_rows_ge (widgets : List Widget) (counter row : Nat) :
    ∀ cell ∈ getWidgetLayoutLoop widgets counter row, row ≤ cell.2 := by
  induction widgets generalizing counter row with
  | nil => intro cell h; simp [getWidgetLayoutLoop] at h
  | cons w rest ih =>
    intro cell h
    unfold getWidgetLayoutLoop at h
    split at h
    · rcases List.mem_cons.mp h with e | e
      · rw [e]
        exact Nat.le_succ row
      · exact Nat.le_of_succ_le (ih _ _ cell e)
    · rcases List.mem_cons.mp h with e | e
      · rw [e]
      · exact ih _ _ cell e

theorem rowTotal_eq_zero (cells : List (Nat × Nat)) (q : Nat) (h : ∀ cell ∈ cells, cell.2 ≠ q) :
    rowTotal cells q = 0 := by
  induction cells with
  | nil => rfl
  | cons c rest ih =>
    obtain ⟨u, r⟩ := c
    rw [rowTotal_cons, ih (fun x hx => h x (List.mem_cons_of_mem _ hx))]
    have : r ≠ q := h (u, r) (List.mem_cons_self _ _)
    simp [this]

theorem getWidgetLayoutLoop_rowTotal_le (widgets : List Widget) (counter row : Nat)
    (hc : counter ≤ 12) (q : Nat) :
    rowTotal (getWidgetLayoutLoop widgets counter row) q + (if q = row then counter else 0)
      ≤ 12 := by
  induction widgets generalizing counter row with
  | nil =>
    simp only [getWidgetLayoutLoop, rowTotal, List.filter_nil, List.map_nil, List.sum_nil,
      Nat.zero_add]
    split <;> omega
  | cons w rest ih =>
    have hw := WIDTH_GRID_COUNTER_MAP_le w.width
    unfold getWidgetLayoutLoop
    split
    · rename_i hgt
      rw [rowTotal_cons]
      have h1 := ih (WIDTH_GRID_COUNTER_MAP w.width) (row + 1) hw
      by_cases hq : q = row
      · subst hq
        have hz : rowTotal (getWidgetLayoutLoop rest (WIDTH_GRID_COUNTER_MAP w.width) (q + 1)) q
            = 0 := by
          apply rowTotal_eq_zero
          intro cell hcell
          have := getWidgetLayoutLoop_rows_ge rest _ _ cell hcell
          omega
        have hne : ¬ q + 1 = q := by omega
        simp only [hz, hne, if_false, if_true]
        omega
      · by_cases hq' : row + 1 = q
        · have : q = row + 1 := hq'.symm
          simp only [this, if_true] at h1
          simp only [hq', hq, if_true, if_false]
          rw [← hq']
          omega
        · have : ¬ q = row + 1 := fun e => hq' e.symm
          simp only [this, if_false] at h1
          simp only [hq', hq, if_false]
          omega
    · rename_i hle
      rw [rowTotal_cons]
      have h1 := ih (counter + WIDTH_GRID_COUNTER_MAP w.width) row (by omega)
      by_cases hq : q = row
      · simp only [hq, if_true] at h1
        simp only [hq, if_true]
        omega
      · have : ¬ row = q := fun e => hq e.symm
        simp only [hq, if_false] at h1
        simp only [hq, this, if_false]
        omega

theorem getWidgetLayoutLoop_append (pre post : List Widget) (counter row : Nat) :
    getWidgetLayoutLoop (pre ++ post) counter row
      = getWidgetLayoutLoop pre counter row
        ++ getWidgetLayoutLoop post (getWidgetLayoutEnd pre counter row).1
            (getWidgetLayoutEnd pre counter row).2 := by
  induction pre generalizing counter row with
  | nil => rfl
  | cons w rest ih =>
    simp only [List.cons_append, getWidgetLayoutLoop, getWidgetLayoutEnd, List.append_eq]
    split
    · rw [ih]
      rfl
    · rw [ih]
      rfl

theorem lastRow_cons (c : Nat × Nat) (cells : List (Nat × Nat)) (start : Nat) :
    lastRow (c :: cells) start = lastRow cells c.2 := by
  cases cells with
  | nil => rfl
  | cons d rest =>
    simp only [lastRow, List.getLast?_cons_cons]
    cases h : (d :: rest).getLast? with
    | none => simp at h
    | some x => rfl

theorem getWidgetLayoutEnd_spec (widgets : List Widget) (counter row : Nat) :
    (getWidgetLayoutEnd widgets counter row).2
        = lastRow (getWidgetLayoutLoop widgets counter row) row
      ∧ row ≤ (getWidgetLayoutEnd widgets counter row).2
      ∧ (getWidgetLayoutEnd widgets counter row).1
        = rowTotal (getWidgetLayoutLoop widgets counter row)
            (getWidgetLayoutEnd widgets counter row).2
          + (if (getWidgetLayoutEnd widgets counter row).2 = row then counter else 0) := by
  induction widgets generalizing counter row with
  | nil => simp [getWidgetLayoutEnd, getWidgetLayoutLoop, lastRow, rowTotal]
  | cons w rest ih =>
    unfold getWidgetLayoutEnd getWidgetLayoutLoop
    split
    · obtain ⟨h1, h2, h3⟩ := ih (WIDTH_GRID_COUNTER_MAP w.width) (row + 1)
      refine ⟨?_, by omega, ?_⟩
      · rw [lastRow_cons]
        exact h1
      · rw [rowTotal_cons]
        have hne : ¬ (getWidgetLayoutEnd rest (WIDTH_GRID_COUNTER_MAP w.width) (row + 1)).2
            = row := by omega
        simp only [hne, if_false, Nat.add_zero]
        rw [h3]
        by_cases he : (getWidgetLayoutEnd rest (WIDTH_GRID_COUNTER_MAP w.width) (row + 1)).2
            = row + 1
        · simp only [he, if_true]
          omega
        · have he' : ¬ row + 1
              = (getWidgetLayoutEnd rest (WIDTH_GRID_COUNTER_MAP w.width) (row + 1)).2 :=
            fun e => he e.symm
          simp only [he, he', if_false]
          omega
    · obtain ⟨h1, h2, h3⟩ := ih (counter + WIDTH_GRID_COUNTER_MAP w.width) row
      refine ⟨?_, h2, ?_⟩
      · rw [lastRow_cons]
        exact h1
      · rw [rowTotal_cons, h3]
        by_cases he : (getWidgetLayoutEnd rest (counter + WIDTH_GRID_COUNTER_MAP w.width) row).2
            = row
        · simp only [he, if_true]
          omega
        · have he' : ¬ row
              = (getWidgetLayoutEnd rest (counter + WIDTH_GRID_COUNTER_MAP w.width) row).2 :=
            fun e => he e.symm
          simp only [he, he', if_false]
          omega

theorem getWidgetLayoutLoop_fst (widgets : List Widget) (counter row : Nat) :
    (getWidgetLayoutLoop widgets counter row).map Prod.fst
      = widgets.map (fun w => WIDTH_GRID_COUNTER_MAP w.width) := by
  induction widgets generalizing counter row with
  | nil => rfl
  | cons w rest ih =>
    unfold getWidgetLayoutLoop
    split <;> simp [ih]

theorem getWidgetLayout_cells (widgets : List Widget) :
    (getWidgetLayout widgets).cells = getWidgetLayoutLoop widgets 0 0 := by
  simp only [WidgetLayout.cells, getWidgetLayout]
  induction getWidgetLayoutLoop widgets 0 0 with
  | nil => rfl
  | cons c rest ih => simp [ih]

/-- C15: `getWidgetLayout` gives every widget the column width of its declared width (3, 6 or 12)
and a row index; the widths of one row sum to at most 12; a widget starts a new row exactly
when its width added to the running total of the current row exceeds 12, and otherwise stays in
the row; widgets that follow do not change the cells of those before them.  Three quarter
widgets get the widths `[3, 3, 3]` in row 0, and a fourth quarter widget stays in row 0. -/
theorem getWidgetLayout_rows (widgets : List Widget) :
    (getWidgetLayout widgets).columnWidths
        = widgets.map (fun w => WIDTH_GRID_COUNTER_MAP w.width)
      ∧ (getWidgetLayout widgets).rowIndexes.length = widgets.length
      ∧ (∀ row, rowTotal (getWidgetLayout widgets).cells row ≤ 12)
      ∧ (∀ widget : Widget, (getWidgetLayout (widgets ++ [widget])).cells
          = (getWidgetLayout widgets).cells
            ++ [(WIDTH_GRID_COUNTER_MAP widget.width,
              if rowTotal (getWidgetLayout widgets).cells
                    (lastRow (getWidgetLayout widgets).cells 0)
                  + WIDTH_GRID_COUNTER_MAP widget.width > 12
              then lastRow (getWidgetLayout widgets).cells 0 + 1
              else lastRow (getWidgetLayout widgets).cells 0)])
      ∧ (∀ more : List Widget, ((getWidgetLayout (widgets ++ more)).cells).take widgets.length
          = (getWidgetLayout widgets).cells)
      ∧ (∀ a b c d : String,
          getWidgetLayout [⟨a, .quarter⟩, ⟨b, .quarter⟩, ⟨c, .quarter⟩] = ⟨[3, 3, 3], [0, 0, 0]⟩
            ∧ getWidgetLayout [⟨a, .quarter⟩, ⟨b, .quarter⟩, ⟨c, .quarter⟩, ⟨d, .quarter⟩]
              = ⟨[3, 3, 3, 3], [0, 0, 0, 0]⟩) := by
  have hlen : (getWidgetLayoutLoop widgets 0 0).length = widgets.length := by
    have := congrArg List.length (getWidgetLayoutLoop_fst widgets 0 0)
    simpa using this
  refine ⟨getWidgetLayoutLoop_fst widgets 0 0, ?_, ?_, ?_, ?_, ?_⟩
  · simp only [getWidgetLayout, List.length_map]
    exact hlen
  · intro row
    rw [getWidgetLayout_cells]
    have := getWidgetLayoutLoop_rowTotal_le widgets 0 0 (by omega) row
    simp only [ite_self, Nat.add_zero] at this
    exact this
  · intro widget
    rw [getWidgetLayout_cells, getWidgetLayout_cells, getWidgetLayoutLoop_append]
    obtain ⟨h1, _, h3⟩ := getWidgetLayoutEnd_spec widgets 0 0
    simp only [ite_self, Nat.add_zero] at h3
    rw [← h1, ← h3]
    simp only [getWidgetLayoutLoop]
    split <;> rfl
  · intro more
    rw [getWidgetLayout_cells, getWidgetLayout_cells, getWidgetLayoutLoop_append, ← hlen]
    exact List.take_left' rfl
  · intro a b c d
    exact ⟨rfl, rfl⟩

/-! ## Properties of the combination of widgets -/

theorem mergeTile_head {σ : Type} [DecidableEq σ] (s : σ) (w : Nat) (next : Option (Option σ))
    (tiles : List (Option Nat × Option σ)) :
    ∃ t o tl, mergeTile s w next tiles = (some t, o) :: tl := by
  unfold mergeTile
  split
  · split
    · exact ⟨_, _, _, rfl⟩
    · exact ⟨_, _, _, rfl⟩
  · exact ⟨_, _, _, rfl⟩

theorem combineWidgetsLoop_head {σ : Type} [DecidableEq σ] (c : Option σ × Nat)
    (l : List (Option σ × Nat)) :
    ∃ t o tl, combineWidgetsLoop (c :: l) = (some t, o) :: tl := by
  obtain ⟨st, w⟩ := c
  cases st with
  | none => exact ⟨w, none, _, rfl⟩
  | some s => exact mergeTile_head s w _ _

theorem mergeTile_same {σ : Type} [DecidableEq σ] (s : σ) (w t : Nat) (o : Option σ)
    (tl : List (Option Nat × Option σ)) :
    mergeTile s w (some (some s)) ((some t, o) :: tl)
      = (some (w + t), some s) :: (none, none) :: tl := by
  simp [mergeTile]

theorem mergeTile_diff {σ : Type} [DecidableEq σ] (s : σ) (w : Nat) (next : Option (Option σ))
    (tiles : List (Option Nat × Option σ)) (h : next ≠ some (some s)) :
    mergeTile s w next tiles = (some w, none) :: tiles := by
  unfold mergeTile
  split
  · rename_i n t o rest
    have : ¬ s = n := by
      intro e
      apply h
      rw [e]
    simp [this]
  · rfl

theorem mergeTile_append {σ : Type} [DecidableEq σ] (s : σ) (w : Nat) (next : Option (Option σ))
    (c : Option Nat × Option σ) (tl more : List (Option Nat × Option σ)) :
    mergeTile s w next (c :: tl ++ more) = mergeTile s w next (c :: tl) ++ more := by
  by_cases h : next = some (some s)
  · obtain ⟨t, o⟩ := c
    cases t with
    | none =>
      simp [mergeTile, h]
    | some t =>
      rw [h, List.cons_append, mergeTile_same, mergeTile_same]
      rfl
  · rw [mergeTile_diff s w next _ h, mergeTile_diff s w next _ h]
    rfl

theorem combineWidgetsLoop_cons_none {σ : Type} [DecidableEq σ] (w : Nat)
    (rest : List (Option σ × Nat)) :
    combineWidgetsLoop ((none, w) :: rest) = (some w, none) :: combineWidgetsLoop rest := rfl

theorem combineWidgetsLoop_cons_some {σ : Type} [DecidableEq σ] (s : σ) (w : Nat)
    (rest : List (Option σ × Nat)) :
    combineWidgetsLoop ((some s, w) :: rest)
      = mergeTile s w (rest.head?.map Prod.fst) (combineWidgetsLoop rest) := rfl

theorem combineWidgetsLoop_run {σ : Type} [DecidableEq σ] (s : σ) (w : Nat) (ws : List Nat)
    (post : List (Option σ × Nat)) (hpost : ∀ x, post.head? = some x → x.1 ≠ some s) :
    combineWidgetsLoop (ctaRun s w ws ++ post)
      = ctaRunTiles s w ws ++ combineWidgetsLoop post := by
  induction ws generalizing w with
  | nil =>
    have hn : post.head?.map Prod.fst ≠ some (some s) := by
      cases post with
      | nil => simp
      | cons x rest =>
        have := hpost x rfl
        simpa using this
    have e1 : ctaRun s w [] ++ post = (some s, w) :: post := rfl
    have e2 : ctaRunTiles s w [] = [(some w, (none : Option σ))] := by
      simp [ctaRunTiles]
    rw [e1, e2, combineWidgetsLoop_cons_some, mergeTile_diff s w _ _ hn]
    rfl
  | cons u rest ih =>
    have h := ih u
    have e1 : ctaRun s w (u :: rest) ++ post = (some s, w) :: (ctaRun s u rest ++ post) := rfl
    have e2 : (ctaRun s u rest ++ post).head?.map Prod.fst = some (some s) := rfl
    have e3 : ctaRunTiles s u rest ++ combineWidgetsLoop post
        = (some (u + rest.sum), if rest = [] then none else some s)
          :: (rest.map (fun _ => (none, none)) ++ combineWidgetsLoop post) := rfl
    rw [e1, combineWidgetsLoop_cons_some, e2, h, e3, mergeTile_same]
    simp [ctaRunTiles, Nat.add_assoc]

theorem combineWidgetsLoop_append {σ : Type} [DecidableEq σ] (pre rest : List (Option σ × Nat))
    (h : ∀ p x, pre.getLast? = some p → rest.head? = some x → p.1 = none ∨ p.1 ≠ x.1) :
    combineWidgetsLoop (pre ++ rest) = combineWidgetsLoop pre ++ combineWidgetsLoop rest := by
  induction pre with
  | nil => rfl
  | cons p pre ih =>
    have hih : combineWidgetsLoop (pre ++ rest)
        = combineWidgetsLoop pre ++ combineWidgetsLoop rest := by
      cases pre with
      | nil => rfl
      | cons q pre2 =>
        apply ih
        intro p' x hp' hx
        exact h p' x (by rw [List.getLast?_cons_cons]; exact hp') hx
    obtain ⟨st, w⟩ := p
    cases st with
    | none =>
      rw [List.cons_append, combineWidgetsLoop_cons_none, combineWidgetsLoop_cons_none, hih]
      rfl
    | some s =>
      cases pre with
      | nil =>
        have hn : rest.head?.map Prod.fst ≠ some (some s) := by
          cases rest with
          | nil => simp
          | cons x rest2 =>
            have := h (some s, w) x rfl rfl
            rcases this with e | e
            · cases e
            · intro e'
              apply e
              simpa using e'.symm
        rw [List.cons_append, List.nil_append, combineWidgetsLoop_cons_some,
          combineWidgetsLoop_cons_some, mergeTile_diff s w _ _ hn,
          mergeTile_diff s w _ _ (by simp)]
        rfl
      | cons q pre2 =>
        obtain ⟨t, o, tl, htl⟩ := combineWidgetsLoop_head q pre2
        have e1 : ((q :: pre2) ++ rest).head? = (q :: pre2).head? := rfl
        rw [List.cons_append, combineWidgetsLoop_cons_some, combineWidgetsLoop_cons_some,
          e1, hih, htl]
        exact mergeTile_append s w _ (some t, o) tl (combineWidgetsLoop rest)

/-- C16: in the scan of `combineWidgets`, a run of consecutive widgets that report the same
call-to-action state, bounded on both sides by the ends of the list, an active widget or a
widget in another state, collapses into the tile of its first widget: that tile spans the sum
of the column widths of the run and renders the override component, the other widgets of the
run are hidden, and the widgets before and after the run are combined on their own; a run of one
widget keeps its width and gets no override; an active widget keeps its width and separates the
widgets before it from those after it. -/
theorem combineWidgets_runs {σ : Type} [DecidableEq σ] (pre post : List (Option σ × Nat))
    (s : σ) (w : Nat) (ws : List Nat)
    (hpre : ∀ p, pre.getLast? = some p → p.1 ≠ some s)
    (hpost : ∀ x, post.head? = some x → x.1 ≠ some s) :
    combineWidgetsLoop (pre ++ ctaRun s w ws ++ post)
        = combineWidgetsLoop pre ++ ctaRunTiles s w ws ++ combineWidgetsLoop post
      ∧ (ws ≠ [] → ctaRunTiles s w ws
          = (some (w + ws.sum), some s) :: List.replicate ws.length (none, none))
      ∧ ctaRunTiles s w [] = [(some w, none)]
      ∧ (∀ u : Nat, combineWidgetsLoop (pre ++ [(none, u)] ++ post)
          = combineWidgetsLoop pre ++ [(some u, none)] ++ combineWidgetsLoop post) := by
  refine ⟨?_, ?_, ?_, ?_⟩
  · rw [List.append_assoc, combineWidgetsLoop_append pre (ctaRun s w ws ++ post),
      combineWidgetsLoop_run s w ws post hpost, List.append_assoc]
    intro p x hp hx
    have hx' : x = (some s, w) := by
      simp only [ctaRun, List.cons_append, List.head?_cons, Option.some.injEq] at hx
      exact hx.symm
    rw [hx']
    by_cases hn : p.1 = none
    · exact Or.inl hn
    · exact Or.inr (hpre p hp)
  · intro hne
    simp only [ctaRunTiles, hne, if_false]
    congr 1
    exact List.map_const' _ _
  · simp [ctaRunTiles]
  · intro u
    rw [List.append_assoc, combineWidgetsLoop_append pre ([(none, u)] ++ post),
      List.append_assoc]
    · rfl
    · intro p x _ hx
      have hx' : x = (none, u) := by
        simp only [List.singleton_append, List.head?_cons, Option.some.injEq] at hx
        exact hx.symm
      rw [hx']
      by_cases hn : p.1 = none
      · exact Or.inl hn
      · exact Or.inr hn

theorem combineWidgets_runs_witness :
    (combineWidgets [some "notConnected", some "notConnected", some "noData"] [3, 3, 6]
        : CombinedWidgets String)
        = ⟨[some 6, none, some 6], [some "notConnected", none, none]⟩
      ∧ (combineWidgets [some "notConnected", none, some "notConnected"] [3, 3, 3]
          : CombinedWidgets String) = ⟨[some 3, some 3, some 3], [none, none, none]⟩
      ∧ combineWidgetsLoop ([(none, 6)] ++ ctaRun "notConnected" 3 [3] ++ [(some "noData", 6)])
        = combineWidgetsLoop [(none, 6)] ++ ctaRunTiles "notConnected" 3 [3]
          ++ combineWidgetsLoop [(some "noData", 6)] :=
  ⟨rfl, rfl,
    (combineWidgets_runs [(none, 6)] [(some "noData", 6)] "notConnected" 3 [3]
      (by decide) (by decide)).1⟩

/-! ## Lemmas on PHP arrays -/

namespace PArr

theorem entry_set (a : PArr) (k k' : PKey) (v : PVal) :
    get? (set a k v) k' = if k = k' then some v else get? a k' := by
  induction a with
  | nil => simp [set, get?]
  | cons p rest ih =>
    obtain ⟨x, y⟩ := p
    by_cases h : x = k
    · subst h
      by_cases h' : x = k' <;> simp [set, get?, h']
    · by_cases h' : x = k'
      · subst h'
        have : ¬ k = x := fun e => h e.symm
        simp [set, get?, h, this]
      · simp [set, get?, h, h', ih]

theorem entry_unset_of_ne (a : PArr) (k k' : PKey) (h : k ≠ k') :
    get? (unset a k) k' = get? a k' := by
  induction a with
  | nil => rfl
  | cons p rest ih =>
    obtain ⟨x, y⟩ := p
    by_cases hx : x = k
    · subst hx
      simp only [unset, List.filter_cons, decide_True, Bool.not_true, get?, h, if_false]
      exact ih
    · have hf : (!decide (x = k)) = true := by simp [hx]
      simp only [unset, List.filter_cons, hf, if_true, get?]
      by_cases hx' : x = k'
      · simp [hx']
      · simp only [hx', if_false]
        exact ih

theorem entry_map (a : PArr) (f : PVal → PVal) (k : PKey) :
    get? (a.map (fun entry => (entry.1, f entry.2))) k = (get? a k).map f := by
  induction a with
  | nil => rfl
  | cons p rest ih =>
    obtain ⟨x, y⟩ := p
    by_cases hx : x = k
    · simp [get?, hx]
    · simp only [List.map_cons, get?, hx, if_false]
      exact ih

theorem entry_append_singleton_of_ne (a : PArr) (k k' : PKey) (v : PVal) (h : k ≠ k') :
    get? (a ++ [(k, v)]) k' = get? a k' := by
  induction a with
  | nil => simp [get?, h]
  | cons p rest ih =>
    obtain ⟨x, y⟩ := p
    by_cases hx : x = k'
    · simp [get?, hx]
    · simp only [List.cons_append, get?, hx, if_false]
      exact ih

theorem mem_of_entry (a : PArr) (k : PKey) (v : PVal) (h : get? a k = some v) : (k, v) ∈ a := by
  induction a with
  | nil => simp [get?] at h
  | cons p rest ih =>
    obtain ⟨x, y⟩ := p
    by_cases hx : x = k
    · simp [get?, hx] at h
      simp [hx, h]
    · simp [get?, hx] at h
      exact List.mem_cons_of_mem _ (ih h)

theorem mem_of_mem_set (a : PArr) (k : PKey) (v : PVal) (e : PKey × PVal) (h : e ∈ set a k v) :
    e ∈ a ∨ e = (k, v) := by
  induction a with
  | nil =>
    simp only [set, List.mem_singleton] at h
    exact Or.inr h
  | cons p rest ih =>
    obtain ⟨x, y⟩ := p
    by_cases hx : x = k
    · simp only [set, hx, if_true, List.mem_cons] at h
      rcases h with h | h
      · exact Or.inr h
      · exact Or.inl (List.mem_cons_of_mem _ h)
    · simp only [set, hx, if_false, List.mem_cons] at h
      rcases h with h | h
      · exact Or.inl (h ▸ List.mem_cons_self _ _)
      · rcases ih h with h' | h'
        · exact Or.inl (List.mem_cons_of_mem _ h')
        · exact Or.inr h'

end PArr

theorem arrayMergeLoop_value_mem (acc : PArr) (next : Int) (items : List (PKey × PVal))
    (e : PKey × PVal) (h : e ∈ arrayMergeLoop acc next items) :
    (∃ e' ∈ acc, e'.2 = e.2) ∨ (∃ e' ∈ items, e'.2 = e.2) := by
  induction items generalizing acc next with
  | nil => exact Or.inl ⟨e, h, rfl⟩
  | cons p rest ih =>
    obtain ⟨k, v⟩ := p
    cases k with
    | str t =>
      simp only [arrayMergeLoop] at h
      rcases ih _ _ h with ⟨e', he', hv⟩ | ⟨e', he', hv⟩
      · rcases PArr.mem_of_mem_set acc _ _ e' he' with h1 | h1
        · exact Or.inl ⟨e', h1, hv⟩
        · exact Or.inr ⟨(.str t, v), List.mem_cons_self _ _, by rw [← hv, h1]⟩
      · exact Or.inr ⟨e', List.mem_cons_of_mem _ he', hv⟩
    | int i =>
      simp only [arrayMergeLoop] at h
      rcases ih _ _ h with ⟨e', he', hv⟩ | ⟨e', he', hv⟩
      · rcases List.mem_append.mp he' with h1 | h1
        · exact Or.inl ⟨e', h1, hv⟩
        · have : e' = (.int next, v) := by simpa using h1
          exact Or.inr ⟨(.int i, v), List.mem_cons_self _ _, by rw [← hv, this]⟩
      · exact Or.inr ⟨e', List.mem_cons_of_mem _ he', hv⟩

theorem arrayMergeLoop_get?_none (acc : PArr) (next : Int) (items : List (PKey × PVal))
    (s : String) (hacc : PArr.get? acc (.str s) = none) (hitems : ∀ e ∈ items, e.1 ≠ .str s) :
    PArr.get? (arrayMergeLoop acc next items) (.str s) = none := by
  induction items generalizing acc next with
  | nil => exact hacc
  | cons p rest ih =>
    obtain ⟨k, v⟩ := p
    have hk : k ≠ .str s := hitems (k, v) (List.mem_cons_self _ _)
    have hrest : ∀ e ∈ rest, e.1 ≠ .str s := fun e he => hitems e (List.mem_cons_of_mem _ he)
    cases k with
    | str t =>
      simp only [arrayMergeLoop]
      apply ih _ _ _ hrest
      rw [PArr.entry_set]
      simp only [hk, if_false]
      exact hacc
    | int i =>
      simp only [arrayMergeLoop]
      apply ih _ _ _ hrest
      rw [PArr.entry_append_singleton_of_ne _ _ _ _ (by intro e; cases e)]
      exact hacc

/-! ## Properties of `get_settings` -/

theorem isset_withEmptyValues (property : PArr) : isset (some (withEmptyValues property)) = true :=
  rfl

theorem get?_foldl_fillProperty (ps : List (PKey × PArr)) (settings : PArr) (k : PKey) :
    PArr.get? (ps.foldl fillProperty settings) k
      = if isset (PArr.get? settings k) then PArr.get? settings k
        else match declared? ps k with
          | some property => some (withEmptyValues property)
          | none => PArr.get? settings k := by
  induction ps generalizing settings with
  | nil => simp [declared?]
  | cons p rest ih =>
    obtain ⟨k0, d0⟩ := p
    rw [List.foldl_cons, ih]
    by_cases hk : k0 = k
    · subst hk
      by_cases hs : isset (PArr.get? settings k0) = true
      · simp [fillProperty, hs]
      · have hs' : isset (PArr.get? settings k0) = false := by simpa using hs
        simp [fillProperty, hs', PArr.entry_set, declared?, isset_withEmptyValues]
    · have hget : PArr.get? (fillProperty settings (k0, d0)) k = PArr.get? settings k := by
        unfold fillProperty
        split
        · rw [PArr.entry_set]
          simp [hk]
        · rfl
      simp only [hget, declared?, hk, if_false]

theorem get_settings_eq (wp : WordPress) (site user : PArr) :
    get_settings wp site user
      = properties.foldl fillProperty ((array_merge site user).map
          (fun entry => (entry.1, replaceAnsweredBy wp wp.get_current_user_id entry.2))) := by
  unfold get_settings
  cases h : array_merge site user with
  | nil => rfl
  | cons e rest => rfl

theorem IsSetting_withEmptyValues (k : PKey) (property : PArr)
    (h : declared? properties k = some property) : IsSetting (withEmptyValues property) := by
  simp only [properties, declared?] at h
  split at h
  · injection h with h
    subst h
    exact ⟨_, "site", [], rfl, rfl, Or.inl rfl, rfl⟩
  · split at h
    · injection h with h
      subst h
      exact ⟨_, "user", [], rfl, rfl, Or.inr rfl, rfl⟩
    · split at h
      · injection h with h
        subst h
        exact ⟨_, "user", [], rfl, rfl, Or.inr rfl, rfl⟩
      · cases h

theorem IsSetting_replaceAnsweredBy (wp : WordPress) (user_id : Int) (v : PVal)
    (h : IsSetting v) : IsSetting (replaceAnsweredBy wp user_id v) := by
  obtain ⟨entries, scope, values, rfl, hs, hsc, hv⟩ := h
  have h1 : (PKey.str "answeredBy") ≠ .str "scope" := by decide
  have h2 : (PKey.str "answeredBy") ≠ .str "values" := by decide
  have h3 : ¬ (PKey.str "author") = .str "scope" := by decide
  have h4 : ¬ (PKey.str "author") = .str "values" := by decide
  unfold replaceAnsweredBy
  split
  · rename_i e he
    injection he with he
    subst he
    split
    · simp only []
      split
      · exact ⟨_, scope, values, rfl, by rw [PArr.entry_unset_of_ne _ _ _ h1]; exact hs, hsc,
          by rw [PArr.entry_unset_of_ne _ _ _ h2]; exact hv⟩
      · refine ⟨_, scope, values, rfl, ?_, hsc, ?_⟩
        · rw [PArr.entry_set, PArr.entry_unset_of_ne _ _ _ h1]
          simp only [h3, if_false]
          exact hs
        · rw [PArr.entry_set, PArr.entry_unset_of_ne _ _ _ h2]
          simp only [h4, if_false]
          exact hv
    · exact ⟨_, scope, values, rfl, hs, hsc, hv⟩
  · rename_i hne
    exact absurd rfl (hne entries)

theorem declared?_of_mem (k : String) (h : k ∈ ["purpose", "postFrequency", "goals"]) :
    ∃ property, declared? properties (.str k) = some property := by
  simp only [List.mem_cons, List.mem_singleton, List.not_mem_nil, or_false] at h
  rcases h with rfl | rfl | rfl
  · exact ⟨_, rfl⟩
  · exact ⟨_, rfl⟩
  · exact ⟨_, rfl⟩

theorem array_merge_get?_isSetting (site user : PArr) (k : PKey) (v : PVal)
    (hvalid : ∀ e ∈ site ++ user, IsSetting e.2) (h : PArr.get? (array_merge site user) k = some v) :
    IsSetting v := by
  have hm := PArr.mem_of_entry _ _ _ h
  rcases arrayMergeLoop_value_mem [] 0 (site ++ user) (k, v) hm with ⟨e', he', _⟩ | ⟨e', he', hv⟩
  · simp at he'
  · have := hvalid e' he'
    rw [hv] at this
    exact this

/-- C20: `get_settings` returns an array with a set entry for each of the properties `purpose`,
`postFrequency` and `goals`; the stored entries being settings (arrays with a scope `site` or
`user` and a list of values), each of the three entries is a setting; a property that has no
stored entry gets the scope declared for it and an empty list of values; and when nothing is
stored the result is the three properties, each with its scope and an empty list of values. -/
theorem get_settings_properties (wp : WordPress) (site user : PArr) :
    (∀ k ∈ ["purpose", "postFrequency", "goals"],
        isset (PArr.get? (get_settings wp site user) (.str k)) = true)
      ∧ ((∀ e ∈ site ++ user, IsSetting e.2) → ∀ k ∈ ["purpose", "postFrequency", "goals"],
          ∃ v, PArr.get? (get_settings wp site user) (.str k) = some v ∧ IsSetting v)
      ∧ (∀ (k : String) (property : PArr), declared? properties (.str k) = some property →
          (∀ e ∈ site ++ user, e.1 ≠ .str k) →
          PArr.get? (get_settings wp site user) (.str k)
            = some (.arr (property ++ [(.str "values", .arr [])])))
      ∧ (site = [] → user = [] → get_settings wp site user
          = [(.str "purpose", .arr [(.str "scope", .str "site"), (.str "values", .arr [])]),
            (.str "postFrequency", .arr [(.str "scope", .str "user"), (.str "values", .arr [])]),
            (.str "goals", .arr [(.str "scope", .str "user"), (.str "values", .arr [])])]) := by
  refine ⟨?_, ?_, ?_, ?_⟩
  · intro k hk
    obtain ⟨property, hp⟩ := declared?_of_mem k hk
    rw [get_settings_eq, get?_foldl_fillProperty, hp]
    split
    · assumption
    · rfl
  · intro hvalid k hk
    obtain ⟨property, hp⟩ := declared?_of_mem k hk
    rw [get_settings_eq, get?_foldl_fillProperty, hp]
    split
    · rename_i hs
      rw [PArr.entry_map] at hs ⊢
      cases hg : PArr.get? (array_merge site user) (.str k) with
      | none =>
        rw [hg] at hs
        cases hs
      | some v =>
        exact ⟨_, rfl, IsSetting_replaceAnsweredBy wp _ v
          (array_merge_get?_isSetting site user _ v hvalid hg)⟩
    · exact ⟨_, rfl, IsSetting_withEmptyValues _ property hp⟩
  · intro k property hp hno
    have hnone : PArr.get? (array_merge site user) (.str k) = none :=
      arrayMergeLoop_get?_none [] 0 (site ++ user) k rfl hno
    rw [get_settings_eq, get?_foldl_fillProperty, hp, PArr.entry_map, hnone]
    simp only [properties, declared?] at hp
    split at hp
    · injection hp with hp
      subst hp
      rfl
    · split at hp
      · injection hp with hp
        subst hp
        rfl
      · split at hp
        · injection hp with hp
          subst hp
          rfl
        · cases hp
  · intro h1 h2
    subst h1
    subst h2
    rfl

theorem get_settings_properties_witness :
    ∀ k ∈ ["purpose", "postFrequency", "goals"],
      ∃ v, PArr.get? (get_settings ⟨7, fun _ => .null, fun _ _ => .null, fun _ => 3⟩
          [(.str "purpose", .arr [(.str "scope", .str "site"),
            (.str "values", .arr [(.int 0, .str "publish_blog")]), (.str "answeredBy", .int 3)])]
          [(.str "goals", .arr [(.str "scope", .str "user"), (.str "values", .arr [])])])
          (.str k) = some v ∧ IsSetting v :=
  (get_settings_properties ⟨7, fun _ => .null, fun _ _ => .null, fun _ => 3⟩
      [(.str "purpose", .arr [(.str "scope", .str "site"),
        (.str "values", .arr [(.int 0, .str "publish_blog")]), (.str "answeredBy", .int 3)])]
      [(.str "goals", .arr [(.str "scope", .str "user"), (.str "values", .arr [])])]).2.1
    (by
      intro e he
      simp only [List.singleton_append, List.mem_cons, List.mem_singleton, List.not_mem_nil,
        or_false] at he
      rcases he with rfl | rfl
      · exact ⟨_, "site", _, rfl, rfl, Or.inl rfl, rfl⟩
      · exact ⟨_, "user", _, rfl, rfl, Or.inr rfl, rfl⟩)

/-! ## The connection reducer: reset, repeated fetches, unknown actions -/

theorem Obj.set_of_get? {V : Type} (o : Obj V) (k : String) (v : V)
    (h : Obj.get? o k = some v) : Obj.set o k v = o := by
  induction o with
  | nil => simp [Obj.get?] at h
  | cons p rest ih =>
    obtain ⟨a, b⟩ := p
    by_cases hk : a = k
    · simp only [Obj.get?, hk, if_true, Option.some.injEq] at h
      simp [Obj.set, hk, h]
    · simp only [Obj.get?, hk, if_false] at h
      simp [Obj.set, hk, ih h]

theorem Val.getProp_ok_of_ok (v c : Val) (k k' : String) (h : Val.getProp v k = .ok c) :
    Val.getProp v k' = .ok ((Obj.get? v.ownProps k').getD .undefined) := by
  cases v with
  | undefined => cases h
  | null => cases h
  | bool b => rfl
  | num n => rfl
  | str t => rfl
  | obj ps => rfl
  | arr xs => rfl

theorem reducer_initializeAction (state : Val) :
    reducer state initializeAction = .ok (.obj (Val.spread state)) := rfl

theorem initializeReducer_initializeAction (initialState state : Val) :
    initializeReducer initialState state initializeAction
      = .ok (.obj (Val.spread initialState)) := rfl

/-- C22: for the connection reducer extended with `addInitializeReducer( INITIAL_STATE, reducer )`,
the `INITIALIZE` action takes every state to the initial state, and the action
`receiveConnection( c )` of a fetch started before, reduced after it, gives a state whose
`connection` is `c` and whose `isFetchingConnection` is false. -/
theorem late_receive_after_initialize (s c : Val) (hc : c.truthy = true) :
    ∃ action s1 s2, receiveConnection c = .ok action
      ∧ addInitializeReducer INITIAL_STATE (Arg.fn reducer) s initializeAction = .ok s1
      ∧ s1 = INITIAL_STATE
      ∧ addInitializeReducer INITIAL_STATE (Arg.fn reducer) s1 action = .ok s2
      ∧ Val.getProp s2 "connection" = .ok c
      ∧ Val.getProp s2 "isFetchingConnection" = .ok (.bool false) := by
  have hact : receiveConnection c = .ok
      (.obj [("payload", .obj [("connection", c)]), ("type", .str RECEIVE_CONNECTION)]) := by
    simp only [receiveConnection, invariant, hc, if_true]
    rfl
  have h1 : addInitializeReducer INITIAL_STATE (Arg.fn reducer) s initializeAction
      = .ok INITIAL_STATE := by
    have h := collectReducers_val INITIAL_STATE [reducer, initializeReducer INITIAL_STATE] s
      initializeAction
    simp only [List.map_cons, List.map_nil] at h
    unfold addInitializeReducer
    rw [h]
    have hact' : initializeAction.orDefault (.obj []) = initializeAction := rfl
    rw [hact']
    simp only [chain, reducer_initializeAction, Except.bind,
      initializeReducer_initializeAction]
    rfl
  have h2 : addInitializeReducer INITIAL_STATE (Arg.fn reducer) INITIAL_STATE
      (.obj [("payload", .obj [("connection", c)]), ("type", .str RECEIVE_CONNECTION)])
      = .ok (.obj [("connection", c), ("isFetchingConnection", .bool false)]) := rfl
  exact ⟨_, INITIAL_STATE, _, hact, h1, rfl, h2, rfl, rfl⟩

theorem late_receive_after_initialize_witness :
    ∃ action s1 s2, receiveConnection (.obj [("connected", .bool true)]) = .ok action
      ∧ addInitializeReducer INITIAL_STATE (Arg.fn reducer)
          (.obj [("connection", .undefined), ("isFetchingConnection", .bool true)])
          initializeAction = .ok s1
      ∧ s1 = INITIAL_STATE
      ∧ addInitializeReducer INITIAL_STATE (Arg.fn reducer) s1 action = .ok s2
      ∧ Val.getProp s2 "connection" = .ok (.obj [("connected", .bool true)])
      ∧ Val.getProp s2 "isFetchingConnection" = .ok (.bool false) :=
  late_receive_after_initialize
    (.obj [("connection", .undefined), ("isFetchingConnection", .bool true)])
    (.obj [("connected", .bool true)]) rfl

theorem reducer_toAction (state : Val) (a : ConnectionAction) :
    ∃ st, reducer state a.toAction = .ok st
      ∧ Val.getProp st "isFetchingConnection" = .ok (.bool (lastIsFetch [a])) := by
  cases a with
  | fetch =>
    refine ⟨_, reducer_fetchConnection state, ?_⟩
    rw [Val.getProp_obj, Obj.get?_set]
    rfl
  | receive c =>
    refine ⟨_, reducer_receiveConnection state c, ?_⟩
    rw [Val.getProp_obj, Obj.get?_set, Obj.get?_set]
    rfl
  | failed =>
    refine ⟨_, reducer_receiveConnectionFailed state, ?_⟩
    rw [Val.getProp_obj, Obj.get?_set]
    rfl

theorem lastIsFetch_append (l : List ConnectionAction) (a : ConnectionAction) :
    lastIsFetch (l ++ [a]) = lastIsFetch [a] := by
  simp [lastIsFetch]

theorem dispatchAll_append (r : Reducer) (state : Val) (l : List Val) (a : Val) :
    dispatchAll r state (l ++ [a]) = (dispatchAll r state l).bind (fun st => r st a) := by
  simp only [dispatchAll, List.foldlM_append, List.foldlM_cons, List.foldlM_nil]
  cases List.foldlM (fun s a => r s a) state l with
  | error e => rfl
  | ok st =>
    simp only [bind, Except.bind]
    cases r st a <;> rfl

theorem dispatchAll_connection (state : Val) (actions : List ConnectionAction) :
    ∃ st, dispatchAll reducer state (actions.map ConnectionAction.toAction) = .ok st
      ∧ (actions = [] → st = state)
      ∧ (actions ≠ [] →
          Val.getProp st "isFetchingConnection" = .ok (.bool (lastIsFetch actions))) := by
  induction actions using List.reverseRecOn with
  | nil => exact ⟨state, rfl, fun _ => rfl, fun h => absurd rfl h⟩
  | append_singleton l a ih =>
    obtain ⟨st, hst, _, _⟩ := ih
    obtain ⟨st', hst', hflag⟩ := reducer_toAction st a
    refine ⟨st', ?_, ?_, ?_⟩
    · rw [List.map_append, List.map_singleton, dispatchAll_append, hst]
      exact hst'
    · intro h
      simp at h
    · intro _
      rw [lastIsFetch_append]
      exact hflag

/-- C23: `FETCH_CONNECTION` reduced on a state whose `isFetchingConnection` is already true
returns an equal state; after any number `n ≥ 1` of `FETCH_CONNECTION` actions, one
`RECEIVE_CONNECTION` or `RECEIVE_CONNECTION_FAILED` leaves `isFetchingConnection` false; and
after any sequence of the three actions from `INITIAL_STATE` the flag is true exactly when the
last action is a `FETCH_CONNECTION`, that is when no receive or fail action came after a fetch. -/
theorem fetching_flag (state : Val) :
    (∀ ps : Obj Val, (Obj.keys ps).Nodup →
        Obj.get? ps "isFetchingConnection" = some (.bool true) →
        reducer (.obj ps) fetchConnection = .ok (.obj ps))
      ∧ (∀ (n : Nat) (last : ConnectionAction), 1 ≤ n → last ≠ ConnectionAction.fetch →
          ∃ st, dispatchAll reducer state (List.replicate n fetchConnection ++ [last.toAction])
              = .ok st
            ∧ Val.getProp st "isFetchingConnection" = .ok (.bool false))
      ∧ (∀ actions : List ConnectionAction,
          ∃ st, dispatchAll reducer INITIAL_STATE (actions.map ConnectionAction.toAction) = .ok st
            ∧ Val.getProp st "isFetchingConnection" = .ok (.bool (lastIsFetch actions))) := by
  refine ⟨?_, ?_, ?_⟩
  · intro ps hwf hflag
    rw [reducer_fetchConnection, Val.spread_of_nodup (.obj ps) hwf]
    have : (Val.obj ps).ownProps = ps := rfl
    rw [this, Obj.set_of_get? ps _ _ hflag]
  · intro n last _ hlast
    have hrep : List.replicate n fetchConnection
        = (List.replicate n ConnectionAction.fetch).map ConnectionAction.toAction := by
      simp [ConnectionAction.toAction]
    obtain ⟨st, hst, _, _⟩ := dispatchAll_connection state (List.replicate n .fetch)
    obtain ⟨st', hst', hflag⟩ := reducer_toAction st last
    refine ⟨st', ?_, ?_⟩
    · rw [hrep, dispatchAll_append, hst]
      exact hst'
    · rw [hflag]
      cases last with
      | fetch => exact absurd rfl hlast
      | receive c => rfl
      | failed => rfl
  · intro actions
    obtain ⟨st, hst, hnil, hne⟩ := dispatchAll_connection INITIAL_STATE actions
    refine ⟨st, hst, ?_⟩
    by_cases h : actions = []
    · rw [hnil h, h]
      rfl
    · exact hne h

theorem fetching_flag_witness :
    reducer (.obj [("connection", .undefined), ("isFetchingConnection", .bool true)])
        fetchConnection
        = .ok (.obj [("connection", .undefined), ("isFetchingConnection", .bool true)])
      ∧ ∃ st, dispatchAll reducer INITIAL_STATE
            (List.replicate 3 fetchConnection ++ [ConnectionAction.failed.toAction]) = .ok st
          ∧ Val.getProp st "isFetchingConnection" = .ok (.bool false) :=
  ⟨(fetching_flag INITIAL_STATE).1
      [("connection", .undefined), ("isFetchingConnection", .bool true)] (by decide) rfl,
    (fetching_flag INITIAL_STATE).2.1 3 .failed (by decide) (by intro h; cases h)⟩

/-- C24: for an action whose type is none of `FETCH_CONNECTION`, `RECEIVE_CONNECTION` and
`RECEIVE_CONNECTION_FAILED`, the connection reducer returns a copy of the state, equal to it;
for an action whose type is none of `SET_KEY_METRICS_SETTING`, `RESET_KEY_METRICS_SETTINGS` and
`SET_KEY_METRICS_SETTINGS_SAVING_FLAG`, `baseReducer` returns the state it was given. -/
theorem reducers_pass_through (action type : Val) (htype : Val.getProp action "type" = .ok type) :
    (type.isStr FETCH_CONNECTION = false → type.isStr RECEIVE_CONNECTION = false →
        type.isStr RECEIVE_CONNECTION_FAILED = false →
        ∀ ps : Obj Val, (Obj.keys ps).Nodup → reducer (.obj ps) action = .ok (.obj ps))
      ∧ (type.isStr SET_KEY_METRICS_SETTING = false →
          type.isStr RESET_KEY_METRICS_SETTINGS = false →
          type.isStr SET_KEY_METRICS_SETTINGS_SAVING_FLAG = false →
          ∀ state : Val, baseReducer state action = .ok state) := by
  have hpayload := Val.getProp_ok_of_ok action type "type" "payload" htype
  constructor
  · intro h1 h2 h3 ps hwf
    simp only [reducer, htype, hpayload, bind, Except.bind, h1, h2, h3]
    have : Val.spread (.obj ps) = ps := Val.spread_of_nodup (.obj ps) hwf
    rw [this]
    rfl
  · intro h1 h2 h3 state
    simp only [baseReducer, htype, hpayload, bind, Except.bind, h1, h2, h3]
    rfl

theorem reducers_pass_through_witness :
    reducer INITIAL_STATE initializeAction = .ok INITIAL_STATE
      ∧ baseReducer baseInitialState initializeAction = .ok baseInitialState :=
  ⟨(reducers_pass_through initializeAction (.str INITIALIZE) rfl).1 rfl rfl rfl
      [("connection", .undefined), ("isFetchingConnection", .bool false)] (by decide),
    (reducers_pass_through initializeAction (.str INITIALIZE) rfl).2 rfl rfl rfl
      baseInitialState⟩

/-! ## Properties of `saveKeyMetricsSettings` -/

/-- C25, evaluated: with the settings `{ widgetSlugs: [ 'kmAnalyticsNewVisitors' ] }` in the
store and the argument `{ isWidgetHidden: true }`, the object passed to
`fetchSaveKeyMetricsSettings` holds the argument under the key `settings` and has no
`isWidgetHidden`; with no argument it is the settings of the store with a key `settings` added. -/
theorem saveKeyMetricsSettings_nests_argument :
    (saveKeyMetricsSettings ⟨fun _ _ => .null, fun _ _ _ => .null, fun params => params⟩
        (.obj [("isWidgetHidden", .bool true)])
        (.obj [("keyMetricsSettings", .obj [("widgetSlugs", .arr [.str "kmAnalyticsNewVisitors"])]),
          ("savedKeyMetricsSettings", .undefined), ("isSavingKeyMetricsSettings", .bool false)])
        (.obj [("response", .obj []), ("error", .undefined)])).yielded[3]?
        = some (.obj [("widgetSlugs", .arr [.str "kmAnalyticsNewVisitors"]),
            ("settings", .obj [("isWidgetHidden", .bool true)])])
      ∧ Val.getProp (.obj [("widgetSlugs", .arr [.str "kmAnalyticsNewVisitors"]),
            ("settings", .obj [("isWidgetHidden", .bool true)])]) "isWidgetHidden"
          = .ok .undefined
      ∧ (saveKeyMetricsSettings ⟨fun _ _ => .null, fun _ _ _ => .null, fun params => params⟩
        .undefined
        (.obj [("keyMetricsSettings", .obj [("widgetSlugs", .arr [.str "kmAnalyticsNewVisitors"])]),
          ("savedKeyMetricsSettings", .undefined), ("isSavingKeyMetricsSettings", .bool false)])
        (.obj [("response", .obj []), ("error", .undefined)])).yielded[3]?
        = some (.obj [("widgetSlugs", .arr [.str "kmAnalyticsNewVisitors"]),
            ("settings", .obj [])]) :=
  ⟨rfl, rfl, rfl⟩

theorem baseReducer_setSavingFlag (state : Val) (isSaving : Bool) :
    baseReducer state (setSavingFlag isSaving)
      = .ok (.obj (Obj.set (Val.spread state) "isSavingKeyMetricsSettings" (.bool isSaving))) :=
  rfl

theorem isSaving_after_setSavingFlag (state : Val) (isSaving : Bool) :
    ∃ st, baseReducer state (setSavingFlag isSaving) = .ok st
      ∧ isSavingKeyMetricsSettings st = .bool isSaving := by
  refine ⟨_, baseReducer_setSavingFlag state isSaving, ?_⟩
  simp only [isSavingKeyMetricsSettings, Val.optProp, Val.ownProps, Obj.get?_set, if_true,
    Option.getD_some, Val.truthy]

/-- C28: a run of `saveKeyMetricsSettings` with a plain object (or no argument) yields, in
order, the clearing of the error, the registry action, the saving flag set to true, the save
fetch, the error of the fetch stored with `receiveError` under `saveKeyMetricsSettings` when
there is one, and the saving flag set to false; it returns the `response` and `error` of the
fetch; and reducing the flag actions sets `isSavingKeyMetricsSettings` to true, then to false. -/
theorem saveKeyMetricsSettings_run (deps : KeyMetricsActions)
    (settings state fetchResult keyMetricsSettings response error : Val)
    (hplain : (settings.orDefault (.obj [])).isPlainObject = true)
    (hstate : getKeyMetricsSettings state = .ok keyMetricsSettings)
    (hresponse : Val.getProp fetchResult "response" = .ok response)
    (herror : Val.getProp fetchResult "error" = .ok error) :
    (saveKeyMetricsSettings deps settings state fetchResult).yielded
        = [deps.clearError "saveKeyMetricsSettings" (.arr []), getRegistry, setSavingFlag true,
            deps.fetchSaveKeyMetricsSettings (.obj (Obj.set (Val.spread keyMetricsSettings)
              "settings" (settings.orDefault (.obj []))))]
          ++ (if error.truthy then [deps.receiveError error "saveKeyMetricsSettings" (.arr [])]
            else [])
          ++ [setSavingFlag false]
      ∧ (saveKeyMetricsSettings deps settings state fetchResult).result
        = .ok (.obj [("response", response), ("error", error)])
      ∧ (∀ st, ∃ st1 st2, baseReducer st (setSavingFlag true) = .ok st1
          ∧ isSavingKeyMetricsSettings st1 = .bool true
          ∧ baseReducer st1 (setSavingFlag false) = .ok st2
          ∧ isSavingKeyMetricsSettings st2 = .bool false) := by
  refine ⟨?_, ?_, ?_⟩
  · simp only [saveKeyMetricsSettings, hplain, hstate, hresponse, herror]
    rfl
  · simp only [saveKeyMetricsSettings, hplain, hstate, hresponse, herror]
    rfl
  · intro st
    obtain ⟨st1, h1, h1'⟩ := isSaving_after_setSavingFlag st true
    obtain ⟨st2, h2, h2'⟩ := isSaving_after_setSavingFlag st1 false
    exact ⟨st1, st2, h1, h1', h2, h2'⟩

theorem saveKeyMetricsSettings_run_witness :
    (saveKeyMetricsSettings ⟨fun _ _ => .null, fun _ _ _ => .str "stored", fun params => params⟩
        (.obj []) baseInitialState
        (.obj [("response", .undefined), ("error", .obj [("code", .str "fetch_error")])])).result
      = .ok (.obj [("response", .undefined), ("error", .obj [("code", .str "fetch_error")])]) :=
  (saveKeyMetricsSettings_run ⟨fun _ _ => .null, fun _ _ _ => .str "stored", fun params => params⟩
    (.obj []) baseInitialState
    (.obj [("response", .undefined), ("error", .obj [("code", .str "fetch_error")])])
    .undefined .undefined (.obj [("code", .str "fetch_error")]) rfl rfl rfl rfl).2.1

/-! ## Changes of the key metrics settings -/

mutual
theorem Val.isEqual_self : ∀ v : Val, v.wellFormed = true → v.isEqual v = true
  | .undefined, _ => rfl
  | .null, _ => rfl
  | .bool b, _ => by simp [Val.isEqual]
  | .num n, _ => by simp [Val.isEqual]
  | .str t, _ => by simp [Val.isEqual]
  | .obj props, h => by
    simp only [Val.wellFormed, Bool.and_eq_true, decide_eq_true_eq] at h
    simp only [Val.isEqual, beq_self_eq_true, Bool.true_and]
    exact propsEqual_of_props props props h.2
      (fun p hp => Obj.get?_eq_some_of_mem props p.1 p.2 h.1 hp)
  | .arr items, h => by
    simp only [Val.wellFormed] at h
    simp only [Val.isEqual]
    exact itemsEqual_self items h
termination_by structural v => v
theorem propsEqual_of_props : ∀ (props other : List (String × Val)),
    propsWellFormed props = true → (∀ p ∈ props, Obj.get? other p.1 = some p.2) →
    propsEqual props other = true
  | [], _, _, _ => rfl
  | prop :: rest, other, h, hsub => by
    simp only [propsWellFormed, Bool.and_eq_true] at h
    simp only [propsEqual, Bool.and_eq_true]
    exact ⟨propEqual_of_prop prop other h.1 (hsub prop (List.mem_cons_self _ _)),
      propsEqual_of_props rest other h.2 (fun p hp => hsub p (List.mem_cons_of_mem _ hp))⟩
termination_by structural l => l
theorem propEqual_of_prop : ∀ (prop : String × Val) (other : List (String × Val)),
    propWellFormed prop = true → Obj.get? other prop.1 = some prop.2 →
    propEqual prop other = true
  | (key, value), other, h, hget => by
    simp only [propWellFormed] at h
    simp only [propEqual, hget]
    exact Val.isEqual_self value h
termination_by structural p => p
theorem itemsEqual_self : ∀ items : List Val, itemsWellFormed items = true →
    itemsEqual items items = true
  | [], _ => rfl
  | item :: rest, h => by
    simp only [itemsWellFormed, Bool.and_eq_true] at h
    simp only [itemsEqual, Bool.and_eq_true]
    exact ⟨Val.isEqual_self item h.1, itemsEqual_self rest h.2⟩
termination_by structural l => l
end

theorem Val.optProp_eq (v : Val) (k : String) :
    Val.optProp v k = (Obj.get? v.ownProps k).getD .undefined := by
  cases v <;> rfl

theorem Val.getProp_spread_of_ok (v c : Val) (k k' : String) (hwf : (Obj.keys v.ownProps).Nodup)
    (h : Val.getProp v k = .ok c) :
    Except.ok ((Obj.get? (Val.spread v) k').getD Val.undefined) = Val.getProp v k' := by
  rw [Val.spread_of_nodup v hwf, Val.getProp_ok_of_ok v c k k' h]

theorem baseReducer_reset (state saved : Val)
    (h : Val.getProp state "savedKeyMetricsSettings" = .ok saved) :
    baseReducer state resetKeyMetricsSettings
      = .ok (.obj (Obj.set (Val.spread state) "keyMetricsSettings" saved)) := by
  have e1 : Val.getProp resetKeyMetricsSettings "type" = .ok (.str RESET_KEY_METRICS_SETTINGS) :=
    rfl
  have e2 : Val.getProp resetKeyMetricsSettings "payload" = .ok (.obj []) := rfl
  simp only [baseReducer, e1, e2, bind, Except.bind, h]
  rfl

theorem baseReducer_set (state keyMetricsSettings settingID value : Val)
    (h : Val.getProp state "keyMetricsSettings" = .ok keyMetricsSettings) :
    baseReducer state (setKeyMetricsSetting settingID value)
      = .ok (.obj (Obj.set (Val.spread state) "keyMetricsSettings"
          (.obj (Obj.set (Val.spread keyMetricsSettings) settingID.toPropertyKey value)))) := by
  have e1 : Val.getProp (setKeyMetricsSetting settingID value) "type"
      = .ok (.str SET_KEY_METRICS_SETTING) := rfl
  have e2 : Val.getProp (setKeyMetricsSetting settingID value) "payload"
      = .ok (.obj [("settingID", settingID), ("value", value)]) := rfl
  have e3 : Val.getProp (.obj [("settingID", settingID), ("value", value)]) "settingID"
      = .ok settingID := rfl
  have e4 : Val.getProp (.obj [("settingID", settingID), ("value", value)]) "value"
      = .ok value := rfl
  simp only [baseReducer, e1, e2, e3, e4, bind, Except.bind, h]
  rfl

/-- C27: after `RESET_KEY_METRICS_SETTINGS` is reduced, `haveKeyMetricsSettingsChanged` returns
false and `savedKeyMetricsSettings` is as before; the `reducerCallback` of the fetch stores
stores the received settings as `keyMetricsSettings` and as `savedKeyMetricsSettings`, after
which the selector returns false; and `SET_KEY_METRICS_SETTING( id, v )` sets
`keyMetricsSettings[ id ]` to `v` and leaves every other setting and every other field of the
state, `savedKeyMetricsSettings` and `isSavingKeyMetricsSettings` among them, as they were. -/
theorem keyMetricsSettings_changes (state : Val) (hwf : (Obj.keys state.ownProps).Nodup) :
    (∀ saved : Val, Val.getProp state "savedKeyMetricsSettings" = .ok saved →
        saved.wellFormed = true →
        ∃ st, baseReducer state resetKeyMetricsSettings = .ok st
          ∧ haveKeyMetricsSettingsChanged st = .ok (.bool false)
          ∧ Val.getProp st "savedKeyMetricsSettings" = .ok saved)
      ∧ (∀ received : Val,
          Val.getProp (reducerCallback state received) "keyMetricsSettings" = .ok received
            ∧ Val.getProp (reducerCallback state received) "savedKeyMetricsSettings"
              = .ok received
            ∧ (received.wellFormed = true →
              haveKeyMetricsSettingsChanged (reducerCallback state received)
                = .ok (.bool false)))
      ∧ (∀ keyMetricsSettings settingID value : Val,
          Val.getProp state "keyMetricsSettings" = .ok keyMetricsSettings →
          (Obj.keys keyMetricsSettings.ownProps).Nodup →
          ∃ st settings, baseReducer state (setKeyMetricsSetting settingID value) = .ok st
            ∧ Val.getProp st "keyMetricsSettings" = .ok settings
            ∧ Val.getProp settings settingID.toPropertyKey = .ok value
            ∧ (∀ k, k ≠ settingID.toPropertyKey →
                Val.getProp settings k = .ok (Val.optProp keyMetricsSettings k))
            ∧ (∀ field, field ≠ "keyMetricsSettings" →
                Val.getProp st field = Val.getProp state field)) := by
  refine ⟨?_, ?_, ?_⟩
  · intro saved hsaved hswf
    refine ⟨_, baseReducer_reset state saved hsaved, ?_, ?_⟩
    · have e1 : Val.getProp (.obj (Obj.set (Val.spread state) "keyMetricsSettings" saved))
          "keyMetricsSettings" = .ok saved := by
        rw [Val.getProp_obj, Obj.get?_set]
        rfl
      have e2 : Val.getProp (.obj (Obj.set (Val.spread state) "keyMetricsSettings" saved))
          "savedKeyMetricsSettings" = .ok saved := by
        rw [Val.getProp_obj, Obj.get?_set]
        simp only [String.reduceEq, if_false]
        rw [Val.getProp_spread_of_ok state saved _ _ hwf hsaved, hsaved]
      simp only [haveKeyMetricsSettingsChanged, e1, e2, bind, Except.bind,
        Val.isEqual_self saved hswf]
      rfl
    · rw [Val.getProp_obj, Obj.get?_set]
      simp only [String.reduceEq, if_false]
      rw [Val.getProp_spread_of_ok state saved _ _ hwf hsaved, hsaved]
  · intro received
    have e1 : Val.getProp (reducerCallback state received) "keyMetricsSettings"
        = .ok received := by
      simp only [reducerCallback, Val.getProp_obj, Obj.get?_set, String.reduceEq, if_false,
        if_true, Option.getD_some]
    have e2 : Val.getProp (reducerCallback state received) "savedKeyMetricsSettings"
        = .ok received := by
      simp only [reducerCallback, Val.getProp_obj, Obj.get?_set, if_true, Option.getD_some]
    refine ⟨e1, e2, ?_⟩
    intro hrwf
    simp only [haveKeyMetricsSettingsChanged, e1, e2, bind, Except.bind,
      Val.isEqual_self received hrwf]
    rfl
  · intro kms settingID value hkms hkwf
    refine ⟨_, .obj (Obj.set (Val.spread kms) settingID.toPropertyKey value),
      baseReducer_set state kms settingID value hkms, ?_, ?_, ?_, ?_⟩
    · rw [Val.getProp_obj, Obj.get?_set]
      rfl
    · rw [Val.getProp_obj, Obj.get?_set]
      simp only [if_true, Option.getD_some]
    · intro k hk
      have hk' : ¬ settingID.toPropertyKey = k := fun e => hk e.symm
      rw [Val.getProp_obj, Obj.get?_set, Val.spread_of_nodup kms hkwf, Val.optProp_eq]
      simp only [hk', if_false]
    · intro field hfield
      have hf : ¬ "keyMetricsSettings" = field := fun e => hfield e.symm
      rw [Val.getProp_obj, Obj.get?_set]
      simp only [hf, if_false]
      exact Val.getProp_spread_of_ok state kms _ field hwf hkms

theorem keyMetricsSettings_changes_witness :
    (∃ st, baseReducer
          (.obj [("keyMetricsSettings", .obj [("widgetSlugs", .arr [.str "kmAnalyticsNewVisitors"])]),
            ("savedKeyMetricsSettings", .obj [("widgetSlugs", .arr [])]),
            ("isSavingKeyMetricsSettings", .bool false)])
          resetKeyMetricsSettings = .ok st
        ∧ haveKeyMetricsSettingsChanged st = .ok (.bool false)
        ∧ Val.getProp st "savedKeyMetricsSettings" = .ok (.obj [("widgetSlugs", .arr [])]))
      ∧ haveKeyMetricsSettingsChanged (reducerCallback
          (.obj [("keyMetricsSettings", .obj [("widgetSlugs", .arr [.str "kmAnalyticsNewVisitors"])]),
            ("savedKeyMetricsSettings", .obj [("widgetSlugs", .arr [])]),
            ("isSavingKeyMetricsSettings", .bool false)])
          (.obj [("widgetSlugs", .arr [.str "kmAnalyticsLoyalVisitors"]),
            ("isWidgetHidden", .bool false)])) = .ok (.bool false) :=
  ⟨(keyMetricsSettings_changes
      (.obj [("keyMetricsSettings", .obj [("widgetSlugs", .arr [.str "kmAnalyticsNewVisitors"])]),
        ("savedKeyMetricsSettings", .obj [("widgetSlugs", .arr [])]),
        ("isSavingKeyMetricsSettings", .bool false)]) (by decide)).1
      (.obj [("widgetSlugs", .arr [])]) rfl (by decide),
    ((keyMetricsSettings_changes
      (.obj [("keyMetricsSettings", .obj [("widgetSlugs", .arr [.str "kmAnalyticsNewVisitors"])]),
        ("savedKeyMetricsSettings", .obj [("widgetSlugs", .arr [])]),
        ("isSavingKeyMetricsSettings", .bool false)]) (by decide)).2.1
      (.obj [("widgetSlugs", .arr [.str "kmAnalyticsLoyalVisitors"]),
        ("isWidgetHidden", .bool false)])).2.2 (by decide)⟩

/-! ## `isZeroReport` on totals without metric values -/

/-- C30, evaluated: on a report with a row, a first totals entry whose metric value is 0 and a
second totals entry without `metricValues`, `isZeroReport` throws a `TypeError` and returns no
boolean; on `null` it returns `true`. -/
theorem isZeroReport_throws :
    isZeroReport
        (.obj [("rows", .arr [.obj []]),
          ("totals", .arr [.obj [("metricValues", .arr [.obj [("value", .num 0)]])], .obj []])])
        = .error "TypeError: Cannot read properties of undefined (reading some)"
      ∧ noRows (.obj [("rows", .arr [.obj []]),
          ("totals", .arr [.obj [("metricValues", .arr [.obj [("value", .num 0)]])], .obj []])])
        = false
      ∧ noFirstTotals (.obj [("rows", .arr [.obj []]),
          ("totals", .arr [.obj [("metricValues", .arr [.obj [("value", .num 0)]])], .obj []])])
        = false
      ∧ isZeroReport .null = .ok (.bool true) :=
  ⟨rfl, rfl, rfl, rfl⟩

/-! ## Properties of `set_settings` -/

theorem PArr.entry_none_of_not_mem (a : PArr) (k : PKey) (h : k ∉ a.map Prod.fst) :
    PArr.get? a k = none := by
  induction a with
  | nil => rfl
  | cons p rest ih =>
    obtain ⟨x, y⟩ := p
    simp only [List.map_cons, List.mem_cons, not_or] at h
    have hx : ¬ x = k := fun e => h.1 e.symm
    simp only [PArr.get?, hx, if_false]
    exact ih h.2

theorem PArr.entry_of_mem_nodup (a : PArr) (k : PKey) (v : PVal) (hnd : (a.map Prod.fst).Nodup)
    (h : (k, v) ∈ a) : PArr.get? a k = some v := by
  induction a with
  | nil => simp at h
  | cons p rest ih =>
    obtain ⟨x, y⟩ := p
    simp only [List.map_cons, List.nodup_cons] at hnd
    rcases List.mem_cons.mp h with e | e
    · injection e with e1 e2
      simp [PArr.get?, e1, e2]
    · have hx : ¬ x = k := by
        intro e'
        apply hnd.1
        rw [e']
        exact List.mem_map.mpr ⟨(k, v), e, rfl⟩
      simp only [PArr.get?, hx, if_false]
      exact ih hnd.2 e

theorem setSettingsStep_site (wp : WordPress) (acc : PArr × PArr) (entry : PKey × PVal)
    (k : PKey) :
    PArr.get? (setSettingsStep wp acc entry).1 k
      = if entry.1 = k ∧ (declaredScope entry.1).isStr "site" = true then
          some (.arr [(.str "values", entry.2), (.str "scope", declaredScope entry.1),
            (.str "answeredBy", .int wp.get_current_user_id)])
        else PArr.get? acc.1 k := by
  unfold setSettingsStep
  by_cases hs : (declaredScope entry.1).isStr "site" = true
  · simp only [hs, if_true, and_true, PArr.entry_set]
  · have hs' : (declaredScope entry.1).isStr "site" = false := by simpa using hs
    by_cases hu : (declaredScope entry.1).isStr "user" = true
    · simp [hs', hu]
    · simp [hs', hu]

theorem setSettingsStep_user (wp : WordPress) (acc : PArr × PArr) (entry : PKey × PVal)
    (k : PKey) :
    PArr.get? (setSettingsStep wp acc entry).2 k
      = if entry.1 = k ∧ (declaredScope entry.1).isStr "site" = false
            ∧ (declaredScope entry.1).isStr "user" = true then
          some (.arr [(.str "values", entry.2), (.str "scope", declaredScope entry.1)])
        else PArr.get? acc.2 k := by
  unfold setSettingsStep
  by_cases hs : (declaredScope entry.1).isStr "site" = true
  · simp [hs]
  · have hs' : (declaredScope entry.1).isStr "site" = false := by simpa using hs
    by_cases hu : (declaredScope entry.1).isStr "user" = true
    · simp [hs', hu, PArr.entry_set]
    · simp [hs', hu]

theorem foldl_setSettingsStep_site (wp : WordPress) (entries : PArr) (acc : PArr × PArr)
    (k : PKey) (hnd : (entries.map Prod.fst).Nodup) :
    PArr.get? (entries.foldl (setSettingsStep wp) acc).1 k
      = match PArr.get? entries k with
        | some answers =>
          if (declaredScope k).isStr "site" = true then
            some (.arr [(.str "values", answers), (.str "scope", declaredScope k),
              (.str "answeredBy", .int wp.get_current_user_id)])
          else PArr.get? acc.1 k
        | none => PArr.get? acc.1 k := by
  induction entries generalizing acc with
  | nil => rfl
  | cons p rest ih =>
    obtain ⟨k0, a0⟩ := p
    simp only [List.map_cons, List.nodup_cons] at hnd
    rw [List.foldl_cons, ih _ hnd.2, setSettingsStep_site]
    by_cases hk : k0 = k
    · subst hk
      rw [PArr.entry_none_of_not_mem rest k0 hnd.1]
      simp only [PArr.get?, if_true, true_and]
    · simp only [PArr.get?, hk, if_false, false_and]

theorem foldl_setSettingsStep_user (wp : WordPress) (entries : PArr) (acc : PArr × PArr)
    (k : PKey) (hnd : (entries.map Prod.fst).Nodup) :
    PArr.get? (entries.foldl (setSettingsStep wp) acc).2 k
      = match PArr.get? entries k with
        | some answers =>
          if (declaredScope k).isStr "site" = false ∧ (declaredScope k).isStr "user" = true then
            some (.arr [(.str "values", answers), (.str "scope", declaredScope k)])
          else PArr.get? acc.2 k
        | none => PArr.get? acc.2 k := by
  induction entries generalizing acc with
  | nil => rfl
  | cons p rest ih =>
    obtain ⟨k0, a0⟩ := p
    simp only [List.map_cons, List.nodup_cons] at hnd
    rw [List.foldl_cons, ih _ hnd.2, setSettingsStep_user]
    by_cases hk : k0 = k
    · subst hk
      rw [PArr.entry_none_of_not_mem rest k0 hnd.1]
      simp only [PArr.get?, if_true, true_and]
    · simp only [PArr.get?, hk, if_false, false_and]

theorem PVal.eq_of_isStr (v : PVal) (s : String) (h : v.isStr s = true) : v = .str s := by
  cases v <;> simp [PVal.isStr] at h
  rw [h]

/-- C21: of the settings passed to `set_settings`, a setting whose property is declared with
the scope `site` is written to the site settings only, with the submitted answers as `values`,
the scope `site` and the current user as `answeredBy`; a setting whose property is declared with
the scope `user` is written to the user settings only, with the answers as `values` and the scope
`user`; a key that is not a declared property, or not among the settings, is written to
neither. -/
theorem set_settings_by_scope (wp : WordPress) (store : SettingsStore) (settings : PArr)
    (hnd : (settings.map Prod.fst).Nodup) (key : PKey) :
    (∀ answers, (key, answers) ∈ settings → declaredScope key = .str "site" →
        PArr.get? (set_settings wp store settings).site_settings key
            = some (.arr [(.str "values", answers), (.str "scope", .str "site"),
                (.str "answeredBy", .int wp.get_current_user_id)])
          ∧ PArr.get? (set_settings wp store settings).user_settings key = none)
      ∧ (∀ answers, (key, answers) ∈ settings → declaredScope key = .str "user" →
          PArr.get? (set_settings wp store settings).user_settings key
              = some (.arr [(.str "values", answers), (.str "scope", .str "user")])
            ∧ PArr.get? (set_settings wp store settings).site_settings key = none)
      ∧ (declared? properties key = none →
          PArr.get? (set_settings wp store settings).site_settings key = none
            ∧ PArr.get? (set_settings wp store settings).user_settings key = none)
      ∧ (key ∉ settings.map Prod.fst →
          PArr.get? (set_settings wp store settings).site_settings key = none
            ∧ PArr.get? (set_settings wp store settings).user_settings key = none) := by
  have hsite := foldl_setSettingsStep_site wp settings ([], []) key hnd
  have huser := foldl_setSettingsStep_user wp settings ([], []) key hnd
  have es : (set_settings wp store settings).site_settings
      = (settings.foldl (setSettingsStep wp) ([], [])).1 := rfl
  have eu : (set_settings wp store settings).user_settings
      = (settings.foldl (setSettingsStep wp) ([], [])).2 := rfl
  rw [es, eu, hsite, huser]
  refine ⟨?_, ?_, ?_, ?_⟩
  · intro answers hmem hscope
    rw [PArr.entry_of_mem_nodup settings key answers hnd hmem, hscope]
    exact ⟨rfl, rfl⟩
  · intro answers hmem hscope
    rw [PArr.entry_of_mem_nodup settings key answers hnd hmem, hscope]
    exact ⟨rfl, rfl⟩
  · intro hnone
    have hscope : declaredScope key = .null := by
      simp only [declaredScope, hnone]
    rw [hscope]
    cases PArr.get? settings key <;> exact ⟨rfl, rfl⟩
  · intro hno
    rw [PArr.entry_none_of_not_mem settings key hno]
    exact ⟨rfl, rfl⟩

theorem set_settings_by_scope_witness :
    PArr.get? (set_settings ⟨7, fun _ => .null, fun _ _ => .null, fun _ => 0⟩
          ⟨fun a => a, fun a => a⟩
          [(.str "purpose", .arr [(.int 0, .str "publish_blog")]),
            (.str "goals", .arr [(.int 0, .str "retaining_visitors")])]).site_settings
          (.str "purpose")
        = some (.arr [(.str "values", .arr [(.int 0, .str "publish_blog")]),
            (.str "scope", .str "site"), (.str "answeredBy", .int 7)])
      ∧ PArr.get? (set_settings ⟨7, fun _ => .null, fun _ _ => .null, fun _ => 0⟩
          ⟨fun a => a, fun a => a⟩
          [(.str "purpose", .arr [(.int 0, .str "publish_blog")]),
            (.str "goals", .arr [(.int 0, .str "retaining_visitors")])]).user_settings
          (.str "purpose") = none :=
  (set_settings_by_scope ⟨7, fun _ => .null, fun _ _ => .null, fun _ => 0⟩
    ⟨fun a => a, fun a => a⟩
    [(.str "purpose", .arr [(.int 0, .str "publish_blog")]),
      (.str "goals", .arr [(.int 0, .str "retaining_visitors")])]
    (by decide) (.str "purpose")).1 (.arr [(.int 0, .str "publish_blog")])
    (by simp) rfl

/-! ## Properties of `are_settings_empty` and the state that `set_settings` records -/

theorem filter_length_pos_eq_any (l : PArr) (p : PKey × PVal → Bool) :
    decide (0 < (l.filter p).length) = l.any p := by
  induction l with
  | nil => rfl
  | cons x rest ih =>
    by_cases hx : p x = true
    · simp [List.filter_cons, hx]
    · have hx' : p x = false := by simpa using hx
      simp only [List.filter_cons, hx', List.any_cons, Bool.false_or]
      exact ih

theorem are_settings_empty_eq (wp : WordPress) (site user settings : PArr) :
    are_settings_empty wp site user settings
      = some ((if settings.isEmpty then get_settings wp site user else settings).any
          (fun entry => emptyValues entry.2)) := by
  unfold are_settings_empty
  simp only [filter_length_pos_eq_any]

theorem emptyValues_of_values (entries values : PArr)
    (h : PArr.get? entries (.str "values") = some (.arr values)) :
    emptyValues (.arr entries) = values.isEmpty := by
  simp only [emptyValues, h, PVal.isFalsy]

theorem arrayMergeLoop_keys (P : PKey → Prop) (acc : PArr) (next : Int)
    (items : List (PKey × PVal)) (hacc : ∀ e ∈ acc, P e.1)
    (hitems : ∀ e ∈ items, P e.1 ∧ ∃ s, e.1 = .str s) :
    ∀ e ∈ arrayMergeLoop acc next items, P e.1 := by
  induction items generalizing acc next with
  | nil => exact hacc
  | cons p rest ih =>
    obtain ⟨k, v⟩ := p
    have hrest : ∀ e ∈ rest, P e.1 ∧ ∃ s, e.1 = .str s :=
      fun e he => hitems e (List.mem_cons_of_mem _ he)
    have hk := hitems (k, v) (List.mem_cons_self _ _)
    cases k with
    | str t =>
      simp only [arrayMergeLoop]
      apply ih _ _ _ hrest
      intro e he
      rcases PArr.mem_of_mem_set acc _ _ e he with h1 | h1
      · exact hacc e h1
      · rw [h1]
        exact hk.1
    | int i =>
      obtain ⟨s, hs⟩ := hk.2
      cases hs

theorem foldl_fillProperty_keys (P : PKey → Prop) (ps : List (PKey × PArr)) (settings : PArr)
    (hsettings : ∀ e ∈ settings, P e.1) (hps : ∀ p ∈ ps, P p.1) :
    ∀ e ∈ ps.foldl fillProperty settings, P e.1 := by
  induction ps generalizing settings with
  | nil => exact hsettings
  | cons p rest ih =>
    rw [List.foldl_cons]
    apply ih _ _ (fun q hq => hps q (List.mem_cons_of_mem _ hq))
    intro e he
    unfold fillProperty at he
    split at he
    · rcases PArr.mem_of_mem_set settings _ _ e he with h1 | h1
      · exact hsettings e h1
      · rw [h1]
        exact hps p (List.mem_cons_self _ _)
    · exact hsettings e he

theorem get_settings_keys (wp : WordPress) (site user : PArr)
    (hstored : ∀ e ∈ site ++ user, e.1 ∈ properties.map Prod.fst) :
    ∀ e ∈ get_settings wp site user, e.1 ∈ properties.map Prod.fst := by
  rw [get_settings_eq]
  apply foldl_fillProperty_keys (fun k => k ∈ properties.map Prod.fst)
  · intro e he
    obtain ⟨e', he', rfl⟩ := List.mem_map.mp he
    apply arrayMergeLoop_keys (fun k => k ∈ properties.map Prod.fst) [] 0 (site ++ user)
      (fun e h => by simp at h) _ e' he'
    intro e'' he''
    have hmem := hstored e'' he''
    refine ⟨hmem, ?_⟩
    simp only [properties, List.map_cons, List.map_nil, List.mem_cons, List.mem_singleton,
      List.not_mem_nil, or_false] at hmem
    rcases hmem with h | h | h
    · exact ⟨_, h⟩
    · exact ⟨_, h⟩
    · exact ⟨_, h⟩
  · intro p hp
    exact List.mem_map.mpr ⟨p, hp, rfl⟩

theorem get_settings_isset (wp : WordPress) (site user : PArr) (k : String)
    (hk : k ∈ ["purpose", "postFrequency", "goals"]) :
    isset (PArr.get? (get_settings wp site user) (.str k)) = true := by
  obtain ⟨property, hp⟩ := declared?_of_mem k hk
  rw [get_settings_eq, get?_foldl_fillProperty, hp]
  split
  · assumption
  · rfl

theorem set_settings_state_eq (wp : WordPress) (store : SettingsStore) (settings : PArr) :
    (set_settings wp store settings).user_input_state
      = some (if (set_settings wp store settings).returned.any (fun entry => emptyValues entry.2)
          then User_Input_State.VALUE_MISSING else User_Input_State.VALUE_COMPLETED) := by
  simp only [set_settings, are_settings_empty_eq, ite_self, Option.map_some']

/-- C26: `are_settings_empty` returns `true` when one of the given settings has empty values
and `false` otherwise, reading `get_settings()` when the given settings are empty, and a setting
whose `values` is a list has empty values exactly when the list has no element; `set_settings`
returns what `get_settings()` gives once the two stores are set, records the state
`VALUE_MISSING` exactly when an entry of that result has empty values and `VALUE_COMPLETED`
exactly when none has; the result holds the three properties, and only them as long as the
stores hold declared properties only. -/
theorem settings_state (wp : WordPress) (store : SettingsStore) (site user given settings : PArr) :
    (given = [] → are_settings_empty wp site user given
        = some ((get_settings wp site user).any (fun entry => emptyValues entry.2)))
      ∧ (given ≠ [] → are_settings_empty wp site user given
          = some (given.any (fun entry => emptyValues entry.2)))
      ∧ (∀ entries values : PArr, PArr.get? entries (.str "values") = some (.arr values) →
          (emptyValues (.arr entries) = true ↔ values = []))
      ∧ (set_settings wp store settings).returned
          = get_settings wp (store.site_after_set (set_settings wp store settings).site_settings)
              (store.user_after_set (set_settings wp store settings).user_settings)
      ∧ ((set_settings wp store settings).user_input_state
            = some User_Input_State.VALUE_MISSING ↔
          ∃ e ∈ (set_settings wp store settings).returned, emptyValues e.2 = true)
      ∧ ((set_settings wp store settings).user_input_state
            = some User_Input_State.VALUE_COMPLETED ↔
          ∀ e ∈ (set_settings wp store settings).returned, emptyValues e.2 = false)
      ∧ (∀ k ∈ ["purpose", "postFrequency", "goals"],
          isset (PArr.get? (set_settings wp store settings).returned (.str k)) = true)
      ∧ ((∀ e ∈ store.site_after_set (set_settings wp store settings).site_settings
              ++ store.user_after_set (set_settings wp store settings).user_settings,
            e.1 ∈ properties.map Prod.fst) →
          ∀ e ∈ (set_settings wp store settings).returned,
            e.1 ∈ [PKey.str "purpose", PKey.str "postFrequency", PKey.str "goals"]) := by
  refine ⟨?_, ?_, ?_, rfl, ?_, ?_, ?_, ?_⟩
  · intro hg
    subst hg
    rw [are_settings_empty_eq]
    rfl
  · intro hg
    rw [are_settings_empty_eq]
    cases given with
    | nil => exact absurd rfl hg
    | cons e rest => rfl
  · intro entries values h
    rw [emptyValues_of_values entries values h]
    cases values with
    | nil => simp
    | cons e rest => simp
  · rw [set_settings_state_eq]
    by_cases h : (set_settings wp store settings).returned.any
        (fun entry => emptyValues entry.2) = true
    · simp only [h, if_true, true_iff]
      obtain ⟨e, he, hv⟩ := List.any_eq_true.mp h
      exact ⟨e, he, hv⟩
    · simp only [h, if_false]
      constructor
      · intro hc
        cases hc
      · rintro ⟨e, he, hv⟩
        exact absurd (List.any_eq_true.mpr ⟨e, he, hv⟩) h
  · rw [set_settings_state_eq]
    by_cases h : (set_settings wp store settings).returned.any
        (fun entry => emptyValues entry.2) = true
    · simp only [h, if_true]
      constructor
      · intro hc
        cases hc
      · intro hall
        obtain ⟨e, he, hv⟩ := List.any_eq_true.mp h
        have := hall e he
        rw [hv] at this
        cases this
    · have h' : (set_settings wp store settings).returned.any
          (fun entry => emptyValues entry.2) = false := by simpa using h
      rw [h']
      refine ⟨fun _ => ?_, fun _ => rfl⟩
      intro e he
      cases hv : emptyValues e.2 with
      | false => rfl
      | true => exact absurd (List.any_eq_true.mpr ⟨e, he, hv⟩) h
  · intro k hk
    exact get_settings_isset wp _ _ k hk
  · intro hstored e he
    exact get_settings_keys wp _ _ hstored e he

theorem settings_state_witness :
    ∀ e ∈ (set_settings ⟨7, fun _ => .null, fun _ _ => .null, fun _ => 0⟩
        ⟨fun a => a, fun a => a⟩
        [(.str "purpose", .arr [(.int 0, .str "publish_blog")])]).returned,
      e.1 ∈ [PKey.str "purpose", PKey.str "postFrequency", PKey.str "goals"] :=
  (settings_state ⟨7, fun _ => .null, fun _ _ => .null, fun _ => 0⟩ ⟨fun a => a, fun a => a⟩
    [] [] [] [(.str "purpose", .arr [(.int 0, .str "publish_blog")])]).2.2.2.2.2.2.2
    (by decide)

/-! ## Properties of `sanitize_settings` -/

theorem PArr.keys_of_set (a : PArr) (k : PKey) (v : PVal) :
    (PArr.set a k v).map Prod.fst
      = if k ∈ a.map Prod.fst then a.map Prod.fst else a.map Prod.fst ++ [k] := by
  induction a with
  | nil => simp [PArr.set]
  | cons p rest ih =>
    obtain ⟨x, y⟩ := p
    by_cases hx : x = k
    · simp [PArr.set, hx]
    · have hx' : ¬ k = x := fun e => hx e.symm
      simp only [PArr.set, hx, if_false, List.map_cons, ih, List.mem_cons, hx', false_or]
      split <;> simp

theorem PArr.entries_nodup_set (a : PArr) (k : PKey) (v : PVal) (h : (a.map Prod.fst).Nodup) :
    ((PArr.set a k v).map Prod.fst).Nodup := by
  rw [PArr.keys_of_set]
  split
  · exact h
  · rename_i hk
    exact List.Nodup.append h (List.nodup_singleton k) (by simpa using hk)

theorem PArr.set_fresh (a : PArr) (k : PKey) (v : PVal) (h : k ∉ a.map Prod.fst) :
    PArr.set a k v = a ++ [(k, v)] := by
  induction a with
  | nil => rfl
  | cons p rest ih =>
    obtain ⟨x, y⟩ := p
    simp only [List.map_cons, List.mem_cons, not_or] at h
    have hx : ¬ x = k := fun e => h.1 e.symm
    simp only [PArr.set, hx, if_false, List.cons_append, ih h.2]

theorem validAnswers_values (values : PArr) :
    (validAnswers values).map Prod.snd = (values.map Prod.snd).filter PVal.isString := by
  unfold validAnswers
  rw [List.map_map]
  exact List.enum_map_snd _

theorem validAnswers_keys (values : PArr) :
    (validAnswers values).map Prod.fst
      = (List.range ((values.map Prod.snd).filter PVal.isString).length).map
          (fun i : Nat => PKey.int (Int.ofNat i)) := by
  unfold validAnswers
  rw [List.map_map]
  have h : (Prod.fst ∘ fun (p : Nat × PVal) => (PKey.int p.1, p.2))
      = (fun i : Nat => PKey.int (Int.ofNat i)) ∘ Prod.fst := rfl
  rw [h, ← List.map_map, List.enum_map_fst]

theorem validAnswers_idem (values : PArr) :
    validAnswers (validAnswers values) = validAnswers values := by
  have h : ((validAnswers values).map Prod.snd).filter PVal.isString
      = (values.map Prod.snd).filter PVal.isString := by
    rw [validAnswers_values, List.filter_filter]
    simp
  unfold validAnswers at h ⊢
  rw [h]

theorem sanitizeEntry_spec (sc : String) (e r : PKey × PVal) (h : sanitizeEntry sc e = some r) :
    e.1 ∈ scopedKeys sc ∧ r.1 = e.1 ∧ ∃ sv vals : PArr, e.2 = .arr sv
      ∧ PArr.get? sv (.str "scope") = some (.str sc)
      ∧ PArr.get? sv (.str "values") = some (.arr vals)
      ∧ (sc = "site" → ∃ n, PArr.get? sv (.str "answeredBy") = some (.int n)
          ∧ r.2 = .arr [(.str "scope", .str sc), (.str "answeredBy", .int n),
              (.str "values", .arr (validAnswers vals))])
      ∧ (sc ≠ "site" → r.2 = .arr [(.str "scope", .str sc),
              (.str "values", .arr (validAnswers vals))]) := by
  obtain ⟨k, v⟩ := e
  unfold sanitizeEntry at h
  split at h
  · rename_i hk
    refine ⟨hk, ?_⟩
    split at h
    · rename_i sv hv
      split at h
      · rename_i own vals hscope hvals
        split at h
        · rename_i hown
          subst hown
          split at h
          · rename_i hsite
            split at h
            · rename_i n hn
              injection h with h
              subst h
              exact ⟨rfl, sv, vals, hv, hscope, hvals, fun _ => ⟨n, hn, rfl⟩,
                fun hne => absurd hsite hne⟩
            · cases h
          · rename_i hsite
            injection h with h
            subst h
            exact ⟨rfl, sv, vals, hv, hscope, hvals, fun hs => absurd hs hsite, fun _ => rfl⟩
        · cases h
      · cases h
    · cases h
  · cases h

theorem sanitizeEntry_idem (sc : String) (e r : PKey × PVal) (h : sanitizeEntry sc e = some r) :
    sanitizeEntry sc r = some r := by
  obtain ⟨hk, hr1, sv, vals, _, _, _, hsite, huser⟩ := sanitizeEntry_spec sc e r h
  obtain ⟨rk, rv⟩ := r
  simp only at hr1 hsite huser
  subst hr1
  by_cases hs : sc = "site"
  · obtain ⟨n, _, hrv⟩ := hsite hs
    subst hrv
    subst hs
    simp [sanitizeEntry, hk, PArr.get?, validAnswers_idem]
  · have hrv := huser hs
    subst hrv
    simp [sanitizeEntry, hk, PArr.get?, validAnswers_idem, hs]

theorem foldl_sanitizeStep_mem (sc : String) (entries acc : PArr) (r : PKey × PVal)
    (h : r ∈ entries.foldl (sanitizeStep sc) acc) :
    r ∈ acc ∨ ∃ e ∈ entries, sanitizeEntry sc e = some r := by
  induction entries generalizing acc with
  | nil => exact Or.inl h
  | cons e rest ih =>
    rw [List.foldl_cons] at h
    rcases ih _ h with h1 | ⟨e', he', hr⟩
    · unfold sanitizeStep at h1
      split at h1
      · rename_i valid hvalid
        rcases PArr.mem_of_mem_set acc _ _ r h1 with h2 | h2
        · exact Or.inl h2
        · exact Or.inr ⟨e, List.mem_cons_self _ _, by rw [hvalid, h2]⟩
      · exact Or.inl h1
    · exact Or.inr ⟨e', List.mem_cons_of_mem _ he', hr⟩

theorem foldl_sanitizeStep_nodup (sc : String) (entries acc : PArr)
    (h : (acc.map Prod.fst).Nodup) :
    ((entries.foldl (sanitizeStep sc) acc).map Prod.fst).Nodup := by
  induction entries generalizing acc with
  | nil => exact h
  | cons e rest ih =>
    rw [List.foldl_cons]
    apply ih
    unfold sanitizeStep
    split
    · exact PArr.entries_nodup_set acc _ _ h
    · exact h

theorem foldl_sanitizeStep_clean (sc : String) (l acc : PArr)
    (hclean : ∀ e ∈ l, sanitizeEntry sc e = some e) (hnd : ((acc ++ l).map Prod.fst).Nodup) :
    l.foldl (sanitizeStep sc) acc = acc ++ l := by
  induction l generalizing acc with
  | nil => simp
  | cons e rest ih =>
    have he : sanitizeEntry sc e = some e := hclean e (List.mem_cons_self _ _)
    have hfresh : e.1 ∉ acc.map Prod.fst := by
      intro hmem
      rw [List.map_append, List.map_cons] at hnd
      exact (List.disjoint_of_nodup_append hnd) hmem (List.mem_cons_self _ _)
    have hstep : sanitizeStep sc acc e = acc ++ [e] := by
      unfold sanitizeStep
      rw [he]
      exact PArr.set_fresh acc e.1 e.2 hfresh
    rw [List.foldl_cons, hstep, ih (acc ++ [e]) (fun x hx => hclean x (List.mem_cons_of_mem _ hx))
      (by simpa using hnd)]
    simp

theorem PArr.mem_set_self (a : PArr) (k : PKey) (v : PVal) : (k, v) ∈ PArr.set a k v := by
  induction a with
  | nil => simp [PArr.set]
  | cons p rest ih =>
    obtain ⟨x, y⟩ := p
    by_cases hx : x = k
    · simp [PArr.set, hx]
    · simp only [PArr.set, hx, if_false]
      exact List.mem_cons_of_mem _ ih

theorem PArr.mem_set_of_ne (a : PArr) (k : PKey) (v : PVal) (e : PKey × PVal) (h : e ∈ a)
    (hne : e.1 ≠ k) : e ∈ PArr.set a k v := by
  induction a with
  | nil => simp at h
  | cons p rest ih =>
    obtain ⟨x, y⟩ := p
    by_cases hx : x = k
    · simp only [PArr.set, hx, if_true]
      rcases List.mem_cons.mp h with h1 | h1
      · rw [h1] at hne
        exact absurd hx hne
      · exact List.mem_cons_of_mem _ h1
    · simp only [PArr.set, hx, if_false]
      rcases List.mem_cons.mp h with h1 | h1
      · rw [h1]
        exact List.mem_cons_self _ _
      · exact List.mem_cons_of_mem _ (ih h1)

theorem foldl_sanitizeStep_keeps (sc : String) (entries acc : PArr) (r : PKey × PVal)
    (hr : r ∈ acc) (hno : r.1 ∉ entries.map Prod.fst) :
    r ∈ entries.foldl (sanitizeStep sc) acc := by
  induction entries generalizing acc with
  | nil => exact hr
  | cons e rest ih =>
    simp only [List.map_cons, List.mem_cons, not_or] at hno
    rw [List.foldl_cons]
    apply ih _ _ hno.2
    unfold sanitizeStep
    split
    · rename_i valid hvalid
      apply PArr.mem_set_of_ne acc _ _ r hr
      rw [(sanitizeEntry_spec sc e valid hvalid).2.1]
      exact hno.1
    · exact hr

theorem foldl_sanitizeStep_complete (sc : String) (entries acc : PArr)
    (hnd : (entries.map Prod.fst).Nodup) (e r : PKey × PVal) (he : e ∈ entries)
    (h : sanitizeEntry sc e = some r) : r ∈ entries.foldl (sanitizeStep sc) acc := by
  induction entries generalizing acc with
  | nil => simp at he
  | cons x rest ih =>
    simp only [List.map_cons, List.nodup_cons] at hnd
    rw [List.foldl_cons]
    rcases List.mem_cons.mp he with h1 | h1
    · subst h1
      apply foldl_sanitizeStep_keeps
      · unfold sanitizeStep
        rw [h]
        exact PArr.mem_set_self acc r.1 r.2
      · rw [(sanitizeEntry_spec sc e r h).2.1]
        exact hnd.1
    · exact ih _ hnd.2 h1

theorem sanitize_settings_eq (stored entries : PArr) (sc : String)
    (hsc : sc = "site" ∨ sc = "user") :
    sanitize_settings stored (.arr entries) (.str sc) = entries.foldl (sanitizeStep sc) [] := by
  simp only [sanitize_settings, hsc, if_true]

/-- C29: for a scope `site` or `user`, every entry that `sanitize_settings` returns has the key
of a property declared with that scope and comes from an entry of the settings under that key
whose own scope is that scope, whose `values` is an array and, for `site`, whose `answeredBy`
is an integer; the returned entry holds exactly the scope, for `site` the `answeredBy`, and as
`values` the strings among the answers in their order under the keys 0, 1, 2 and so on; every
such entry of settings with distinct keys is returned; sanitizing the result again returns the
same result; and settings that are not an array, or a scope that is neither `site` nor `user`,
give the stored value of the setting. -/
theorem sanitize_settings_spec (stored entries : PArr) (sc : String)
    (hsc : sc = "site" ∨ sc = "user") :
    (∀ r ∈ sanitize_settings stored (.arr entries) (.str sc),
        r.1 ∈ scopedKeys sc ∧ ∃ sv vals : PArr, (r.1, PVal.arr sv) ∈ entries
          ∧ PArr.get? sv (.str "scope") = some (.str sc)
          ∧ PArr.get? sv (.str "values") = some (.arr vals)
          ∧ (sc = "site" → ∃ n, PArr.get? sv (.str "answeredBy") = some (.int n)
              ∧ r.2 = .arr [(.str "scope", .str "site"), (.str "answeredBy", .int n),
                  (.str "values", .arr (validAnswers vals))])
          ∧ (sc = "user" → r.2 = .arr [(.str "scope", .str "user"),
                  (.str "values", .arr (validAnswers vals))]))
      ∧ (scopedKeys "site" = [.str "purpose"]
          ∧ scopedKeys "user" = [.str "postFrequency", .str "goals"])
      ∧ (∀ vals : PArr,
          (validAnswers vals).map Prod.snd = (vals.map Prod.snd).filter PVal.isString
            ∧ (validAnswers vals).map Prod.fst
              = (List.range ((vals.map Prod.snd).filter PVal.isString).length).map
                  (fun i : Nat => PKey.int (Int.ofNat i)))
      ∧ ((entries.map Prod.fst).Nodup → ∀ e ∈ entries, ∀ r, sanitizeEntry sc e = some r →
          r ∈ sanitize_settings stored (.arr entries) (.str sc))
      ∧ sanitize_settings stored (.arr (sanitize_settings stored (.arr entries) (.str sc)))
            (.str sc)
          = sanitize_settings stored (.arr entries) (.str sc)
      ∧ (∀ settings scope : PVal,
          (∀ es, settings ≠ .arr es) ∨ (scope ≠ .str "site" ∧ scope ≠ .str "user") →
          sanitize_settings stored settings scope = stored) := by
  rw [sanitize_settings_eq stored entries sc hsc]
  refine ⟨?_, ⟨rfl, rfl⟩, fun vals => ⟨validAnswers_values vals, validAnswers_keys vals⟩,
    ?_, ?_, ?_⟩
  · intro r hr
    rcases foldl_sanitizeStep_mem sc entries [] r hr with h0 | ⟨e, he, hse⟩
    · simp at h0
    · obtain ⟨hk, hr1, sv, vals, hv, hscope, hvals, hsite, huser⟩ :=
        sanitizeEntry_spec sc e r hse
      refine ⟨hr1 ▸ hk, sv, vals, ?_, hscope, hvals, ?_, ?_⟩
      · rw [hr1, ← hv]
        exact he
      · intro hs
        obtain ⟨n, hn, hrv⟩ := hsite hs
        subst hs
        exact ⟨n, hn, hrv⟩
      · intro hs
        subst hs
        exact huser (by decide)
  · intro hnd e he r hse
    exact foldl_sanitizeStep_complete sc entries [] hnd e r he hse
  · rw [sanitize_settings_eq stored _ sc hsc]
    have h := foldl_sanitizeStep_clean sc (entries.foldl (sanitizeStep sc) []) []
      (fun r hr => by
        rcases foldl_sanitizeStep_mem sc entries [] r hr with h0 | ⟨e, _, hse⟩
        · simp at h0
        · exact sanitizeEntry_idem sc e r hse)
      (by
        rw [List.nil_append]
        exact foldl_sanitizeStep_nodup sc entries [] List.nodup_nil)
    rw [h, List.nil_append]
  · intro settings scope h
    rcases h with h | ⟨h1, h2⟩
    · cases settings with
      | arr es => exact absurd rfl (h es)
      | null => rfl
      | bool b => rfl
      | int i => rfl
      | str t => rfl
    · cases settings with
      | arr es =>
        cases scope with
        | str t =>
          have ht : ¬ (t = "site" ∨ t = "user") := by
            rintro (e | e)
            · exact h1 (by rw [e])
            · exact h2 (by rw [e])
          simp only [sanitize_settings, ht, if_false]
        | null => rfl
        | bool b => rfl
        | int i => rfl
        | arr a => rfl
      | null => rfl
      | bool b => rfl
      | int i => rfl
      | str t => rfl

theorem sanitize_settings_spec_witness :
    sanitize_settings []
        (.arr (sanitize_settings []
          (.arr [(.str "purpose", .arr [(.str "scope", .str "site"),
              (.str "values", .arr [(.int 0, .str "publish_blog"), (.int 1, .int 4),
                (.int 2, .str "sell_products")]),
              (.str "answeredBy", .int 3), (.str "author", .str "x")]),
            (.str "goals", .arr [(.str "scope", .str "user"), (.str "values", .arr [])])])
          (.str "site"))) (.str "site")
      = sanitize_settings []
          (.arr [(.str "purpose", .arr [(.str "scope", .str "site"),
              (.str "values", .arr [(.int 0, .str "publish_blog"), (.int 1, .int 4),
                (.int 2, .str "sell_products")]),
              (.str "answeredBy", .int 3), (.str "author", .str "x")]),
            (.str "goals", .arr [(.str "scope", .str "user"), (.str "values", .arr [])])])
          (.str "site")
      ∧ sanitize_settings []
          (.arr [(.str "purpose", .arr [(.str "scope", .str "site"),
              (.str "values", .arr [(.int 0, .str "publish_blog"), (.int 1, .int 4),
                (.int 2, .str "sell_products")]),
              (.str "answeredBy", .int 3), (.str "author", .str "x")]),
            (.str "goals", .arr [(.str "scope", .str "user"), (.str "values", .arr [])])])
          (.str "site")
        = [(.str "purpose", .arr [(.str "scope", .str "site"), (.str "answeredBy", .int 3),
            (.str "values", .arr [(.int 0, .str "publish_blog"),
              (.int 1, .str "sell_products")])])] :=
  ⟨(sanitize_settings_spec []
      [(.str "purpose", .arr [(.str "scope", .str "site"),
          (.str "values", .arr [(.int 0, .str "publish_blog"), (.int 1, .int 4),
            (.int 2, .str "sell_products")]),
          (.str "answeredBy", .int 3), (.str "author", .str "x")]),
        (.str "goals", .arr [(.str "scope", .str "user"), (.str "values", .arr [])])]
      "site" (Or.inl rfl)).2.2.2.2.1, rfl⟩

end SiteKit
